import Mathlib

/-!
# Address pool of the userspace TCP stack (`mtcp/src/addr_pool.c`)

A shallow embedding of `addr_pool.c`: the two constructors
`CreateAddressPool` / `CreateAddressPoolPerCore` and the two operations
`FetchAddress` / `FreeAddress`, together with the `TAILQ_*` list primitives of
`<sys/queue.h>` they are written with.

Modelling decisions.

* Pointers to entries are indices into the backing array `ap->pool`.
* A `TAILQ` is kept at pointer level: every entry has `tqe_next` (an entry or
  NULL) and `tqe_prev` (the address of the `next` cell that points to it); a head
  has `tqh_first` and `tqh_last`.  The address of a `next` cell is a `Link`.
* `uint32_t` / `uint16_t` arithmetic is `Nat` arithmetic with explicit `%`.
  The counters `num_entry`, `num_free`, `num_used` are C `int`s and are `Int`
  here (they do become negative); they are not wrapped, a wrap needs more than
  `2^31` calls.
* The host is little-endian: `htonl`/`ntohl` and `htons`/`ntohs` swap bytes.
* `GetRSSCPUCore` (declared in `rss.h`) and the value of `endian_check` are
  parameters.
* The pool lock is not modelled: every operation is one atomic step.
* `calloc` is assumed to succeed and the NULL checks on the arguments of
  `FetchAddress` / `FreeAddress` are assumed to pass (arguments are values).
* An operation returns `none` when the C code has no defined result: a loop
  that does not finish within the given fuel, a store through a NULL
  `tqe_prev`, or an access to `ap->mapper` outside its `num_addr` rows.
-/

namespace AddrPool

/-! ## Constants and byte order -/

/-- First usable port: `#define MIN_PORT (1025)`. -/
def MIN_PORT : Nat := 1025

/-- One past the last usable port: `#define MAX_PORT (65535 + 1)`. -/
def MAX_PORT : Nat := 65535 + 1

/-- Byte swap of a 16-bit value. -/
def bswap16 (x : Nat) : Nat := (x % 256) * 256 + (x / 256) % 256

/-- Byte swap of a 32-bit value. -/
def bswap32 (x : Nat) : Nat :=
  (x % 256) * 16777216 + (x / 256 % 256) * 65536 + (x / 65536 % 256) * 256 + (x / 16777216) % 256

/-- The library function `htons` on a little-endian host (argument converted to `uint16_t`). -/
def htons (x : Nat) : Nat := bswap16 (x % 65536)

/-- The library function `ntohs` on a little-endian host. -/
def ntohs (x : Nat) : Nat := bswap16 (x % 65536)

/-- The library function `htonl` on a little-endian host (argument converted to `uint32_t`). -/
def htonl (x : Nat) : Nat := bswap32 (x % 4294967296)

/-- The library function `ntohl` on a little-endian host. -/
def ntohl (x : Nat) : Nat := bswap32 (x % 4294967296)

/-- Conversion of a `uint32_t` value to `int` (two's complement). -/
def to_int32 (x : Nat) : Int :=
  if x % 4294967296 < 2147483648 then ((x % 4294967296 : Nat) : Int)
  else ((x % 4294967296 : Nat) : Int) - 4294967296

/-- The type of `GetRSSCPUCore(sip, dip, sp, dp, num_queues, endian_check)` of `rss.h`. -/
abbrev RSSFn := Nat → Nat → Nat → Nat → Int → Nat → Int

/-! ## Data model -/

/-- The fields of `struct sockaddr_in` the pool touches; `sin_addr` is `sin_addr.s_addr`.
Port and address are in network byte order. -/
structure sockaddr_in where
  sin_family : Nat
  sin_port : Nat
  sin_addr : Nat
deriving DecidableEq

/-- Address of a `next` cell: `&head.tqh_first` of one of the two lists or
`&pool[i].addr_link.tqe_next`.  These are the values of `tqe_prev` and `tqh_last`. -/
inductive Link where
  | free_first : Link
  | used_first : Link
  | entry_next (i : Nat) : Link
deriving DecidableEq

/-- Names the two list heads of a pool. -/
inductive tailq_id where
  | free_list : tailq_id
  | used_list : tailq_id
deriving DecidableEq

/-- One slot of the backing array: `struct addr_entry` with its `TAILQ_ENTRY`. -/
structure addr_entry where
  addr : sockaddr_in
  tqe_next : Option Nat
  tqe_prev : Option Link

/-- A `TAILQ_HEAD`. -/
structure tailq_head where
  tqh_first : Option Nat
  tqh_last : Link

/-- The pool: `struct addr_pool`.  `pool` is the backing array, `mapper` the
address map (`none` is a NULL `ap->mapper`), `mapper i j` is
`ap->mapper[i].addrmap[j]`; the map is allocated with `num_addr` rows of `MAX_PORT`
slots. -/
structure addr_pool where
  pool : Nat → addr_entry
  mapper : Option (Nat → Nat → Option Nat)
  addr_base : Nat
  num_addr : Int
  num_entry : Int
  num_free : Int
  num_used : Int
  free_list : tailq_head
  used_list : tailq_head

/-- A slot as `calloc` leaves it. -/
def calloc_entry : addr_entry := ⟨⟨0, 0, 0⟩, none, none⟩

/-! ## Memory access -/

/-- The cell `&head.tqh_first` of a list. -/
def first_cell : tailq_id → Link
  | .free_list => .free_first
  | .used_list => .used_first

/-- Reads a `next` cell. -/
def load (ap : addr_pool) : Link → Option Nat
  | .free_first => ap.free_list.tqh_first
  | .used_first => ap.used_list.tqh_first
  | .entry_next i => (ap.pool i).tqe_next

/-- Writes a `next` cell. -/
def store (ap : addr_pool) (c : Link) (v : Option Nat) : addr_pool :=
  match c with
  | .free_first => { ap with free_list := { ap.free_list with tqh_first := v } }
  | .used_first => { ap with used_list := { ap.used_list with tqh_first := v } }
  | .entry_next i =>
    { ap with pool := fun k => if k = i then { ap.pool i with tqe_next := v } else ap.pool k }

/-- Reads `pool[e].addr_link.tqe_prev`. -/
def prv (ap : addr_pool) (e : Nat) : Option Link := (ap.pool e).tqe_prev

/-- Writes `pool[e].addr_link.tqe_prev`. -/
def set_tqe_prev (ap : addr_pool) (e : Nat) (p : Option Link) : addr_pool :=
  { ap with pool := fun k => if k = e then { ap.pool e with tqe_prev := p } else ap.pool k }

/-- Reads `head.tqh_last`. -/
def tqh_last (ap : addr_pool) : tailq_id → Link
  | .free_list => ap.free_list.tqh_last
  | .used_list => ap.used_list.tqh_last

/-- Writes `head.tqh_last`. -/
def set_tqh_last (ap : addr_pool) (h : tailq_id) (p : Link) : addr_pool :=
  match h with
  | .free_list => { ap with free_list := { ap.free_list with tqh_last := p } }
  | .used_list => { ap with used_list := { ap.used_list with tqh_last := p } }

/-- Reads `pool[e].addr`. -/
def adr (ap : addr_pool) (e : Nat) : sockaddr_in := (ap.pool e).addr

/-- The two stores `pool[e].addr.sin_addr.s_addr = a; pool[e].addr.sin_port = p`. -/
def set_addr (ap : addr_pool) (e : Nat) (a p : Nat) : addr_pool :=
  { ap with pool := fun k =>
      if k = e then
        { ap.pool e with addr := ⟨(ap.pool e).addr.sin_family, p, a⟩ }
      else ap.pool k }

/-- The store `ap->mapper[i].addrmap[j] = &ap->pool[e]`. -/
def set_map (ap : addr_pool) (i j e : Nat) : addr_pool :=
  { ap with
    mapper := Option.map (fun m a b => if a = i ∧ b = j then some e else m a b) ap.mapper }

/-! ## The list primitives of `<sys/queue.h>` -/

/-- The list primitive `TAILQ_INSERT_TAIL(head, elm, addr_link)`:
`elm->next = NULL; elm->prev = head->tqh_last; *head->tqh_last = elm;
head->tqh_last = &elm->next`. -/
def TAILQ_INSERT_TAIL (ap : addr_pool) (h : tailq_id) (elm : Nat) : addr_pool :=
  let ap1 := store ap (.entry_next elm) none
  let ap2 := set_tqe_prev ap1 elm (some (tqh_last ap1 h))
  let ap3 := store ap2 (tqh_last ap2 h) (some elm)
  set_tqh_last ap3 h (.entry_next elm)

/-- The list primitive `TAILQ_REMOVE(head, elm, addr_link)`:
`if (elm->next != NULL) elm->next->prev = elm->prev; else head->tqh_last = elm->prev;
*elm->prev = elm->next`.
The first statement never changes `elm->prev`, so a NULL `elm->prev` always reaches
the final store `*elm->prev`, which is a NULL dereference (`none`). -/
def TAILQ_REMOVE (ap : addr_pool) (h : tailq_id) (elm : Nat) : Option addr_pool :=
  match prv ap elm with
  | none => none
  | some p =>
    let ap1 :=
      match load ap (.entry_next elm) with
      | some n => set_tqe_prev ap n (some p)
      | none => set_tqh_last ap h p
    some (store ap1 p (load ap1 (.entry_next elm)))

/-! ## Construction -/

/-- The pool after `calloc`, the two `TAILQ_INIT` and the stores to `addr_base` and
`num_addr`, before the fill loop. -/
def init_pool (addr_base_h : Nat) (num_addr : Int) : addr_pool :=
  { pool := fun _ => calloc_entry
    mapper := some (fun _ _ => none)
    addr_base := addr_base_h
    num_addr := num_addr
    num_entry := 0
    num_free := 0
    num_used := 0
    free_list := ⟨none, .free_first⟩
    used_list := ⟨none, .used_first⟩ }

/-- The four statements that both constructors run for a tuple they keep:
fill `pool[cnt].addr`, record the slot in the map at `[i][j]`, append it to the
free list. -/
def add_entry (ap : addr_pool) (cnt i j : Nat) (addr port : Nat) : addr_pool :=
  TAILQ_INSERT_TAIL (set_map (set_addr ap cnt addr port) i j cnt) .free_list cnt

/-- Inner loop of `CreateAddressPool`: `for (j = MIN_PORT; j < MAX_PORT; j++)` with
`k` iterations left, leaving the loop when `++cnt >= num_entry`. -/
def CreateAddressPool_inner (num_entry : Int) (i addr : Nat) :
    Nat → Nat → addr_pool × Nat → addr_pool × Nat
  | 0, _, s => s
  | k + 1, j, (ap, cnt) =>
    let ap1 := add_entry ap cnt i j addr (htons j)
    if ((cnt + 1 : Nat) : Int) ≥ num_entry then (ap1, cnt + 1)
    else CreateAddressPool_inner num_entry i addr k (j + 1) (ap1, cnt + 1)

/-- Outer loop of `CreateAddressPool`: `for (i = 0; i < num_addr; i++)` with `k`
iterations left. -/
def CreateAddressPool_outer (num_entry : Int) :
    Nat → Nat → addr_pool × Nat → addr_pool × Nat
  | 0, _, s => s
  | k + 1, i, (ap, cnt) =>
    let addr_h := (ap.addr_base + i) % 4294967296
    let addr := htonl addr_h
    CreateAddressPool_outer num_entry k (i + 1)
      (CreateAddressPool_inner num_entry i addr (MAX_PORT - MIN_PORT) MIN_PORT (ap, cnt))

/-- The constructor `CreateAddressPool(addr_base, num_addr)` of the flat pool. -/
def CreateAddressPool (addr_base : Nat) (num_addr : Int) : addr_pool :=
  let num_entry : Int := num_addr * ((MAX_PORT : Int) - (MIN_PORT : Int))
  let r := CreateAddressPool_outer num_entry num_addr.toNat 0
    (init_pool (ntohl addr_base) num_addr, 0)
  { r.1 with num_entry := r.2, num_free := r.2, num_used := 0 }

/-- Inner loop of `CreateAddressPoolPerCore` with `k` iterations left. -/
def CreateAddressPoolPerCore_inner (GetRSSCPUCore : RSSFn) (endian_check : Nat)
    (core num_queues : Int) (daddr_h dport_h : Nat) (num_entry : Int) (i saddr_h saddr : Nat) :
    Nat → Nat → addr_pool × Nat → addr_pool × Nat
  | 0, _, s => s
  | k + 1, j, (ap, cnt) =>
    if ((cnt : Nat) : Int) ≥ num_entry then (ap, cnt)
    else
      let sport_h := j % 65536
      let rss_core := GetRSSCPUCore daddr_h saddr_h dport_h sport_h num_queues endian_check
      if rss_core ≠ core then
        CreateAddressPoolPerCore_inner GetRSSCPUCore endian_check core num_queues daddr_h dport_h
          num_entry i saddr_h saddr k (j + 1) (ap, cnt)
      else
        CreateAddressPoolPerCore_inner GetRSSCPUCore endian_check core num_queues daddr_h dport_h
          num_entry i saddr_h saddr k (j + 1) (add_entry ap cnt i j saddr (htons sport_h), cnt + 1)

/-- Outer loop of `CreateAddressPoolPerCore` with `k` iterations left. -/
def CreateAddressPoolPerCore_outer (GetRSSCPUCore : RSSFn) (endian_check : Nat)
    (core num_queues : Int) (daddr_h dport_h : Nat) (num_entry : Int) :
    Nat → Nat → addr_pool × Nat → addr_pool × Nat
  | 0, _, s => s
  | k + 1, i, (ap, cnt) =>
    let saddr_h := (ap.addr_base + i) % 4294967296
    let saddr := htonl saddr_h
    CreateAddressPoolPerCore_outer GetRSSCPUCore endian_check core num_queues daddr_h dport_h
      num_entry k (i + 1)
      (CreateAddressPoolPerCore_inner GetRSSCPUCore endian_check core num_queues daddr_h dport_h
        num_entry i saddr_h saddr (MAX_PORT - MIN_PORT) MIN_PORT (ap, cnt))

/-- The constructor
`CreateAddressPoolPerCore(core, num_queues, saddr_base, num_addr, daddr, dport)`:
the pool of the tuples that `GetRSSCPUCore` steers to `core`.  The capacity warning
printed at the end does not touch the pool. -/
def CreateAddressPoolPerCore (GetRSSCPUCore : RSSFn) (endian_check : Nat)
    (core num_queues : Int) (saddr_base : Nat) (num_addr : Int) (daddr dport : Nat) : addr_pool :=
  let num_entry : Int := Int.tdiv (num_addr * ((MAX_PORT : Int) - (MIN_PORT : Int))) num_queues
  let daddr_h := ntohl daddr
  let dport_h := ntohs dport
  let r := CreateAddressPoolPerCore_outer GetRSSCPUCore endian_check core num_queues daddr_h
    dport_h num_entry num_addr.toNat 0 (init_pool (ntohl saddr_base) num_addr, 0)
  { r.1 with num_entry := r.2, num_free := r.2, num_used := 0 }

/-! ## Fetch and Free -/

/-- The RSS core `FetchAddress` computes for the entry `w` against `daddr`, with the
argument order of the source. -/
def fetch_core (GetRSSCPUCore : RSSFn) (endian_check : Nat) (ap : addr_pool)
    (num_queues : Int) (daddr : sockaddr_in) (w : Nat) : Int :=
  GetRSSCPUCore (ntohl (adr ap w).sin_addr) (ntohl daddr.sin_addr) (ntohs (adr ap w).sin_port)
    (ntohs daddr.sin_port) num_queues endian_check

/-- The scan loop of `FetchAddress` from `walk`: `some none` when it leaves the
list without a match, `some (some w)` when it breaks at `w`, `none` when the fuel
runs out. -/
def FetchAddress_scan (GetRSSCPUCore : RSSFn) (endian_check : Nat) (ap : addr_pool)
    (core num_queues : Int) (daddr : sockaddr_in) : Nat → Option Nat → Option (Option Nat)
  | _, none => some none
  | 0, some _ => none
  | fuel + 1, some w =>
    let next := load ap (.entry_next w)
    let rss_core := fetch_core GetRSSCPUCore endian_check ap num_queues daddr w
    if core = rss_core then some (some w)
    else FetchAddress_scan GetRSSCPUCore endian_check ap core num_queues daddr fuel next

/-- The operation `FetchAddress(ap, core, num_queues, daddr, saddr)`: the return value, the pool
afterwards and the content of `*saddr` afterwards. -/
def FetchAddress (GetRSSCPUCore : RSSFn) (endian_check : Nat) (fuel : Nat) (ap : addr_pool)
    (core num_queues : Int) (daddr saddr : sockaddr_in) : Option (Int × addr_pool × sockaddr_in) :=
  match FetchAddress_scan GetRSSCPUCore endian_check ap core num_queues daddr fuel
      (load ap .free_first) with
  | none => none
  | some none => some (-1, ap, saddr)
  | some (some walk) =>
    match TAILQ_REMOVE ap .free_list walk with
    | none => none
    | some ap1 =>
      let ap2 := TAILQ_INSERT_TAIL ap1 .used_list walk
      some (0, { ap2 with num_free := ap2.num_free - 1, num_used := ap2.num_used + 1 },
        adr ap walk)

/-- The scan of the used list that `FreeAddress` runs when there is no map. -/
def FreeAddress_scan (ap : addr_pool) (addr : sockaddr_in) :
    Nat → Option Nat → Option (Option Nat)
  | _, none => some none
  | 0, some _ => none
  | fuel + 1, some w =>
    let next := load ap (.entry_next w)
    if addr.sin_port = (adr ap w).sin_port ∧ addr.sin_addr = (adr ap w).sin_addr then
      some (some w)
    else FreeAddress_scan ap addr fuel next

/-- The unsigned difference `addr_h - ap->addr_base` that indexes the map. -/
def map_offset (ap : addr_pool) (addr : sockaddr_in) : Nat :=
  (ntohl addr.sin_addr + 4294967296 - ap.addr_base % 4294967296) % 4294967296

/-- The test `index >= 0 || index < ap->num_addr` of `FreeAddress`. -/
def FreeAddress_guard (index num_addr : Int) : Bool :=
  decide (index ≥ 0) || decide (index < num_addr)

/-- The entry `FreeAddress` looks up for `addr`: `none` when the code has no
defined result (map row outside the allocation, scan out of fuel). -/
def FreeAddress_lookup (fuel : Nat) (ap : addr_pool) (addr : sockaddr_in) :
    Option (Option Nat) :=
  match ap.mapper with
  | some m =>
    let port_h := ntohs addr.sin_port
    let index := to_int32 (map_offset ap addr)
    if FreeAddress_guard index ap.num_addr then
      if ((map_offset ap addr : Nat) : Int) < ap.num_addr then some (m (map_offset ap addr) port_h)
      else none
    else some none
  | none => FreeAddress_scan ap addr fuel (load ap .used_first)

/-- The operation `FreeAddress(ap, addr)`: the return value and the pool afterwards. -/
def FreeAddress (fuel : Nat) (ap : addr_pool) (addr : sockaddr_in) : Option (Int × addr_pool) :=
  match FreeAddress_lookup fuel ap addr with
  | none => none
  | some none => some (-1, ap)
  | some (some walk) =>
    match TAILQ_REMOVE ap .used_list walk with
    | none => none
    | some ap1 =>
      let ap2 := TAILQ_INSERT_TAIL ap1 .free_list walk
      some (0, { ap2 with num_free := ap2.num_free + 1, num_used := ap2.num_used - 1 })

/-! ## What it means for the pointers to represent two lists -/

/-- The cell that ends the chain of `l` started at `p`: `p` itself for the empty
list, else the `next` cell of the last element. -/
def end_cell : Link → List Nat → Link
  | p, [] => p
  | _, e :: l => end_cell (.entry_next e) l

/-- The cells read while following `l` from `p` (all cells of the chain but the one
that ends it). -/
def rcells : Link → List Nat → List Link
  | _, [] => []
  | p, e :: l => p :: rcells (.entry_next e) l

/-- Following `next` from the cell `p` visits exactly the entries of `l`, in order,
and every visited entry points back (through `tqe_prev`) at the cell it was
reached from. -/
def Seg (ap : addr_pool) : Link → List Nat → Prop
  | _, [] => True
  | p, e :: l => load ap p = some e ∧ prv ap e = some p ∧ Seg ap (.entry_next e) l

/-- The list headed by `h` is well linked and holds exactly `l`, in order:
`TAILQ_FIRST`/`TAILQ_NEXT` enumerate `l` and stop, and `tqh_last` is the `next` cell
of the last element. -/
def IsList (ap : addr_pool) (h : tailq_id) (l : List Nat) : Prop :=
  Seg ap (first_cell h) l ∧ load ap (end_cell (first_cell h) l) = none ∧
    tqh_last ap h = end_cell (first_cell h) l

/-- The pool state whose free list is `fl` and whose used list is `ul`: both lists
are well linked and no entry occurs twice. -/
structure PoolLists (ap : addr_pool) (fl ul : List Nat) : Prop where
  free : IsList ap .free_list fl
  used : IsList ap .used_list ul
  nodup : (fl ++ ul).Nodup

/-- The invariant of a pool in valid use, for free list `fl` and used list `ul`: the
two lists are well linked and partition the `num_entry` entries, the counters are
the list lengths, and the map sends the tuple of every entry back to that entry,
at a row inside the map. -/
structure PoolInv (ap : addr_pool) (fl ul : List Nat) : Prop where
  lists : PoolLists ap fl ul
  mem_iff : ∀ e, e ∈ fl ++ ul ↔ ((e : Nat) : Int) < ap.num_entry
  num_free_eq : ap.num_free = ((fl.length : Nat) : Int)
  num_used_eq : ap.num_used = ((ul.length : Nat) : Int)
  map_entry : ∃ m, ap.mapper = some m ∧ ∀ e, ((e : Nat) : Int) < ap.num_entry →
    ((map_offset ap (adr ap e) : Nat) : Int) < ap.num_addr ∧
    m (map_offset ap (adr ap e)) (ntohs (adr ap e).sin_port) = some e

/-- The entry `e` is met when the list is traversed from the cell `c` with
`TAILQ_FIRST` / `TAILQ_NEXT`. -/
inductive Reaches (ap : addr_pool) : Link → Nat → Prop where
  | here (c : Link) (e : Nat) : load ap c = some e → Reaches ap c e
  | next (c : Link) (x e : Nat) : load ap c = some x → Reaches ap (.entry_next x) e →
      Reaches ap c e

/-- Membership of the entry `e` in the list headed by `h`. -/
def OnList (ap : addr_pool) (h : tailq_id) (e : Nat) : Prop := Reaches ap (first_cell h) e

/-- Local consistency of the links of the first `N` slots, which every call
preserves whether the pool is used validly or not: whatever a `next` cell holds
is one of the `N` slots and points back at that cell, every slot has a non-NULL
`tqe_prev`, and every map slot holds one of the `N` slots or is empty. -/
structure Linked (ap : addr_pool) (N : Nat) : Prop where
  back : ∀ c e, load ap c = some e → e < N ∧ prv ap e = some c
  prev_set : ∀ e, e < N → prv ap e ≠ none
  map_range : ∃ m, ap.mapper = some m ∧ ∀ i j e, m i j = some e → e < N

/-! ## The tuples a constructor keeps -/

/-- The scanned tuple space as (IP offset, port) pairs, in scan order: `k` rows
starting at IP offset `i`, each row the ports `MIN_PORT .. MAX_PORT - 1`. -/
def tuple_rows : Nat → Nat → List (Nat × Nat)
  | 0, _ => []
  | k + 1, i =>
    (List.range' MIN_PORT (MAX_PORT - MIN_PORT)).map (fun j => (i, j)) ++ tuple_rows k (i + 1)

/-- Runs `add_entry` for the pairs of `ks` in order, from slot `cnt` on. -/
def fill (base : Nat) : addr_pool × Nat → List (Nat × Nat) → addr_pool × Nat
  | s, [] => s
  | (ap, cnt), (i, j) :: ks =>
    fill base (add_entry ap cnt i j (htonl ((base + i) % 4294967296)) (htons j), cnt + 1) ks

/-- The test of `CreateAddressPoolPerCore` on the pair `(i, j)`: the tuple is kept
when `GetRSSCPUCore` gives `core`. -/
def keeps (GetRSSCPUCore : RSSFn) (endian_check : Nat) (core num_queues : Int)
    (base daddr_h dport_h : Nat) (k : Nat × Nat) : Bool :=
  decide (GetRSSCPUCore daddr_h ((base + k.1) % 4294967296) dport_h (k.2 % 65536) num_queues
    endian_check = core)

/-- State of a pool under construction after the pairs `ks` were added: slot `e`
holds the `e`-th pair, the free list is the slots in order, the used list is
empty, the map has exactly the added pairs, the other slots are untouched. -/
structure Built (base : Nat) (n : Int) (ks : List (Nat × Nat)) (ap : addr_pool) : Prop where
  free : IsList ap .free_list (List.range ks.length)
  used : IsList ap .used_list []
  adr_eq : ∀ e i j, ks[e]? = some (i, j) →
    adr ap e = ⟨0, htons j, htonl ((base + i) % 4294967296)⟩
  map_eq : ∃ m, ap.mapper = some m ∧ ∀ i j e, m i j = some e ↔ ks[e]? = some (i, j)
  base_eq : ap.addr_base = base
  num_addr_eq : ap.num_addr = n
  untouched : ∀ e, ks.length ≤ e →
    adr ap e = ⟨0, 0, 0⟩ ∧ load ap (.entry_next e) = none ∧ prv ap e = none

/-- The tuples `CreateAddressPoolPerCore` keeps, in scan order: the pairs of the
scanned space that pass the RSS test, cut at the capacity
`num_addr * (MAX_PORT - MIN_PORT) / num_queues` of the backing array. -/
def kept_tuples (GetRSSCPUCore : RSSFn) (endian_check : Nat) (core num_queues : Int)
    (saddr_base : Nat) (num_addr : Int) (daddr dport : Nat) : List (Nat × Nat) :=
  ((tuple_rows num_addr.toNat 0).filter
    (keeps GetRSSCPUCore endian_check core num_queues (ntohl saddr_base) (ntohl daddr)
      (ntohs dport))).take
    (Int.tdiv (num_addr * ((MAX_PORT : Int) - (MIN_PORT : Int))) num_queues).toNat

/-- The tuples of the scanned space that `GetRSSCPUCore`, called as
`CreateAddressPoolPerCore` calls it, sends to `core`, in scan order. -/
def matching_tuples (GetRSSCPUCore : RSSFn) (endian_check : Nat) (core num_queues : Int)
    (saddr_base : Nat) (num_addr : Int) (daddr dport : Nat) : List (Nat × Nat) :=
  (tuple_rows num_addr.toNat 0).filter
    (keeps GetRSSCPUCore endian_check core num_queues (ntohl saddr_base) (ntohl daddr)
      (ntohs dport))

/-- The constructor `CreateAddressPoolPerCore` together with what it prints: the
pool it returns and the arguments `(num_entry, max_concurrency)` of each warning
written to `stderr`.  `CONFIG.max_concurrency` is a parameter.  The test
`ap->num_entry < CONFIG.max_concurrency` and the `fprintf` come after the stores to
the three counters and touch no field of the pool. -/
def CreateAddressPoolPerCore_stderr (max_concurrency : Int) (GetRSSCPUCore : RSSFn)
    (endian_check : Nat) (core num_queues : Int) (saddr_base : Nat) (num_addr : Int)
    (daddr dport : Nat) : addr_pool × List (Int × Int) :=
  let ap := CreateAddressPoolPerCore GetRSSCPUCore endian_check core num_queues saddr_base
    num_addr daddr dport
  if ap.num_entry < max_concurrency then (ap, [(ap.num_entry, max_concurrency)]) else (ap, [])

/-- The part of a pool that `FetchAddress` and `FreeAddress` are to leave alone:
`addr_base`, `num_addr`, `num_entry`, the map and the tuple of every slot. -/
structure SameContent (ap ap' : addr_pool) : Prop where
  addr_base_eq : ap'.addr_base = ap.addr_base
  num_addr_eq : ap'.num_addr = ap.num_addr
  num_entry_eq : ap'.num_entry = ap.num_entry
  mapper_eq : ap'.mapper = ap.mapper
  adr_eq : ∀ x, adr ap' x = adr ap x

/-! ## Construction within the preconditions, and runs of calls -/

/-- The pool was returned by one of the two constructors, called within their
preconditions: at least one address, `num_addr * 64511` inside the range of `int`,
and for the per-core constructor at least one queue. -/
inductive IsBuilt (GetRSSCPUCore : RSSFn) (endian_check : Nat) : addr_pool → Prop where
  | flat (addr_base : Nat) (num_addr : Int) (h1 : 1 ≤ num_addr)
      (h2 : num_addr * 64511 < 2147483648) :
      IsBuilt GetRSSCPUCore endian_check (CreateAddressPool addr_base num_addr)
  | per_core (core num_queues : Int) (saddr_base : Nat) (num_addr : Int) (daddr dport : Nat)
      (h1 : 1 ≤ num_addr) (h2 : num_addr * 64511 < 2147483648) (hq : 1 ≤ num_queues) :
      IsBuilt GetRSSCPUCore endian_check
        (CreateAddressPoolPerCore GetRSSCPUCore endian_check core num_queues saddr_base num_addr
          daddr dport)

/-- Runs in valid use from the pool `ap0`: any `FetchAddress` call, and
`FreeAddress` only on a tuple in use.  `ValidRun ap0 ap out` says that `ap` is
reached and that `out` are the tuples in use then (returned by a successful
`FetchAddress` and not freed since), oldest first. -/
inductive ValidRun (GetRSSCPUCore : RSSFn) (endian_check : Nat) (ap0 : addr_pool) :
    addr_pool → List sockaddr_in → Prop where
  | start : ValidRun GetRSSCPUCore endian_check ap0 ap0 []
  | fetch (ap : addr_pool) (out : List sockaddr_in) (fuel : Nat) (core num_queues : Int)
      (daddr saddr : sockaddr_in) (r : Int) (ap' : addr_pool) (t : sockaddr_in) :
      ValidRun GetRSSCPUCore endian_check ap0 ap out →
      FetchAddress GetRSSCPUCore endian_check fuel ap core num_queues daddr saddr
        = some (r, ap', t) →
      ValidRun GetRSSCPUCore endian_check ap0 ap' (if r = 0 then out ++ [t] else out)
  | free (ap : addr_pool) (out : List sockaddr_in) (fuel : Nat) (t : sockaddr_in) (r : Int)
      (ap' : addr_pool) :
      ValidRun GetRSSCPUCore endian_check ap0 ap out → t ∈ out →
      FreeAddress fuel ap t = some (r, ap') →
      ValidRun GetRSSCPUCore endian_check ap0 ap' (out.erase t)

/-- Runs with arbitrary arguments from the pool `ap0`: any `FetchAddress` or
`FreeAddress` call that returns. -/
inductive Run (GetRSSCPUCore : RSSFn) (endian_check : Nat) (ap0 : addr_pool) :
    addr_pool → Prop where
  | start : Run GetRSSCPUCore endian_check ap0 ap0
  | fetch (ap : addr_pool) (fuel : Nat) (core num_queues : Int)
      (daddr saddr : sockaddr_in) (r : Int) (ap' : addr_pool) (t : sockaddr_in) :
      Run GetRSSCPUCore endian_check ap0 ap →
      FetchAddress GetRSSCPUCore endian_check fuel ap core num_queues daddr saddr
        = some (r, ap', t) →
      Run GetRSSCPUCore endian_check ap0 ap'
  | free (ap : addr_pool) (fuel : Nat) (t : sockaddr_in) (r : Int) (ap' : addr_pool) :
      Run GetRSSCPUCore endian_check ap0 ap →
      FreeAddress fuel ap t = some (r, ap') →
      Run GetRSSCPUCore endian_check ap0 ap'

/-! ## Concrete pools used as examples -/

/-- An RSS function that steers every flow to core 0. -/
def rss_zero : RSSFn := fun _ _ _ _ _ _ => 0

/-- An RSS function that steers a flow by the parity of its first port argument. -/
def rss_parity : RSSFn := fun _ _ sp _ _ _ => ((sp % 2 : Nat) : Int)

/-- The flat pool of the single address 10.0.0.1 (`0x0100000a` in network order on
this host). -/
def flat_example : addr_pool := CreateAddressPool 0x0100000a 1

/-- The destination 192.168.1.1:80. -/
def dest_example : sockaddr_in := ⟨2, htons 80, 0x0101a8c0⟩

/-- The tuple 10.0.0.1:1025, the first one of `flat_example`. -/
def first_tuple : sockaddr_in := ⟨0, htons 1025, 0x0100000a⟩

/-- The tuple 10.0.0.1:65535, the last one of `flat_example`. -/
def last_tuple : sockaddr_in := ⟨0, htons 65535, 0x0100000a⟩

/-- A pool of two slots holding 10.0.0.1:1025 and 10.0.0.1:1026, both free. -/
def small_example : addr_pool :=
  add_entry (add_entry (init_pool 0x0a000001 1) 0 0 1025 0x0100000a (htons 1025))
    1 0 1026 0x0100000a (htons 1026)

/-- The per-core pool of 10.0.0.1 for core 0 of two queues under `rss_parity`,
destination 192.168.1.1:80. -/
def parity_example : addr_pool :=
  CreateAddressPoolPerCore rss_parity 1 0 2 0x0100000a 1 0x0101a8c0 (htons 80)

/-- The per-core pool of 10.0.0.1 for core 0 of two queues under `rss_zero`,
destination 192.168.1.1:80. -/
def half_example : addr_pool :=
  CreateAddressPoolPerCore rss_zero 1 0 2 0x0100000a 1 0x0101a8c0 (htons 80)

/-- An RSS function that is symmetric under exchanging source and destination: it
steers a flow by the parity of the sum of its two ports. -/
def rss_port_sum : RSSFn := fun _ _ sp dp _ _ => (((sp + dp) % 2 : Nat) : Int)

/-- The per-core pool of 10.0.0.1 for core 0 of two queues under `rss_port_sum`,
destination 192.168.1.1:80: the tuples with an even port. -/
def sum_example : addr_pool :=
  CreateAddressPoolPerCore rss_port_sum 1 0 2 0x0100000a 1 0x0101a8c0 (htons 80)

/-! ## Effect of the memory primitives on each view of the pool -/

section views

theorem load_store (ap : addr_pool) (c c' : Link) (v : Option Nat) :
    load (store ap c v) c' = if c' = c then v else load ap c' := by
  cases c <;> cases c' <;> simp [load, store]
  rename_i i j
  by_cases h : j = i
  · subst h; simp
  · simp [h]

theorem prv_store (ap : addr_pool) (c : Link) (v : Option Nat) (e : Nat) :
    prv (store ap c v) e = prv ap e := by
  cases c <;> simp [prv, store]
  rename_i i
  by_cases h : e = i
  · subst h; simp
  · simp [h]

theorem adr_store (ap : addr_pool) (c : Link) (v : Option Nat) (e : Nat) :
    adr (store ap c v) e = adr ap e := by
  cases c <;> simp [adr, store]
  rename_i i
  by_cases h : e = i
  · subst h; simp
  · simp [h]

theorem tqh_last_store (ap : addr_pool) (c : Link) (v : Option Nat) (h : tailq_id) :
    tqh_last (store ap c v) h = tqh_last ap h := by
  cases c <;> cases h <;> rfl

theorem load_set_tqe_prev (ap : addr_pool) (e : Nat) (p : Option Link) (c : Link) :
    load (set_tqe_prev ap e p) c = load ap c := by
  cases c <;> simp [load, set_tqe_prev]
  rename_i i
  by_cases h : i = e
  · subst h; simp
  · simp [h]

theorem prv_set_tqe_prev (ap : addr_pool) (e : Nat) (p : Option Link) (x : Nat) :
    prv (set_tqe_prev ap e p) x = if x = e then p else prv ap x := by
  by_cases h : x = e
  · subst h; simp [prv, set_tqe_prev]
  · simp [prv, set_tqe_prev, h]

theorem adr_set_tqe_prev (ap : addr_pool) (e : Nat) (p : Option Link) (x : Nat) :
    adr (set_tqe_prev ap e p) x = adr ap x := by
  by_cases h : x = e
  · subst h; simp [adr, set_tqe_prev]
  · simp [adr, set_tqe_prev, h]

theorem tqh_last_set_tqe_prev (ap : addr_pool) (e : Nat) (p : Option Link) (h : tailq_id) :
    tqh_last (set_tqe_prev ap e p) h = tqh_last ap h := by
  cases h <;> rfl

theorem load_set_tqh_last (ap : addr_pool) (h : tailq_id) (p c : Link) :
    load (set_tqh_last ap h p) c = load ap c := by
  cases h <;> cases c <;> rfl

theorem prv_set_tqh_last (ap : addr_pool) (h : tailq_id) (p : Link) (x : Nat) :
    prv (set_tqh_last ap h p) x = prv ap x := by
  cases h <;> rfl

theorem adr_set_tqh_last (ap : addr_pool) (h : tailq_id) (p : Link) (x : Nat) :
    adr (set_tqh_last ap h p) x = adr ap x := by
  cases h <;> rfl

theorem tqh_last_set_tqh_last (ap : addr_pool) (h h' : tailq_id) (p : Link) :
    tqh_last (set_tqh_last ap h p) h' = if h' = h then p else tqh_last ap h' := by
  cases h <;> cases h' <;> simp [tqh_last, set_tqh_last]

theorem load_set_addr (ap : addr_pool) (e a p : Nat) (c : Link) :
    load (set_addr ap e a p) c = load ap c := by
  cases c <;> simp [load, set_addr]
  rename_i i
  by_cases h : i = e
  · subst h; simp
  · simp [h]

theorem prv_set_addr (ap : addr_pool) (e a p x : Nat) :
    prv (set_addr ap e a p) x = prv ap x := by
  by_cases h : x = e
  · subst h; simp [prv, set_addr]
  · simp [prv, set_addr, h]

theorem adr_set_addr (ap : addr_pool) (e a p x : Nat) :
    adr (set_addr ap e a p) x
      = if x = e then ⟨(adr ap e).sin_family, p, a⟩ else adr ap x := by
  by_cases h : x = e
  · subst h; simp [adr, set_addr]
  · simp [adr, set_addr, h]

theorem tqh_last_set_addr (ap : addr_pool) (e a p : Nat) (h : tailq_id) :
    tqh_last (set_addr ap e a p) h = tqh_last ap h := by
  cases h <;> rfl

theorem load_set_map (ap : addr_pool) (i j e : Nat) (c : Link) :
    load (set_map ap i j e) c = load ap c := by
  cases c <;> rfl

theorem prv_set_map (ap : addr_pool) (i j e x : Nat) :
    prv (set_map ap i j e) x = prv ap x := rfl

theorem adr_set_map (ap : addr_pool) (i j e x : Nat) :
    adr (set_map ap i j e) x = adr ap x := rfl

theorem tqh_last_set_map (ap : addr_pool) (i j e : Nat) (h : tailq_id) :
    tqh_last (set_map ap i j e) h = tqh_last ap h := by
  cases h <;> rfl

theorem mapper_set_map (ap : addr_pool) (i j e : Nat) :
    (set_map ap i j e).mapper
      = Option.map (fun m a b => if a = i ∧ b = j then some e else m a b) ap.mapper := rfl

theorem mapper_store (ap : addr_pool) (c : Link) (v : Option Nat) :
    (store ap c v).mapper = ap.mapper := by
  cases c <;> rfl

theorem mapper_set_tqe_prev (ap : addr_pool) (e : Nat) (p : Option Link) :
    (set_tqe_prev ap e p).mapper = ap.mapper := rfl

theorem mapper_set_tqh_last (ap : addr_pool) (h : tailq_id) (p : Link) :
    (set_tqh_last ap h p).mapper = ap.mapper := by
  cases h <;> rfl

theorem mapper_set_addr (ap : addr_pool) (e a p : Nat) :
    (set_addr ap e a p).mapper = ap.mapper := rfl

theorem addr_base_store (ap : addr_pool) (c : Link) (v : Option Nat) :
    (store ap c v).addr_base = ap.addr_base := by
  cases c <;> rfl

theorem addr_base_set_tqe_prev (ap : addr_pool) (e : Nat) (p : Option Link) :
    (set_tqe_prev ap e p).addr_base = ap.addr_base := rfl

theorem addr_base_set_tqh_last (ap : addr_pool) (h : tailq_id) (p : Link) :
    (set_tqh_last ap h p).addr_base = ap.addr_base := by
  cases h <;> rfl

theorem addr_base_set_addr (ap : addr_pool) (e a p : Nat) :
    (set_addr ap e a p).addr_base = ap.addr_base := rfl

theorem addr_base_set_map (ap : addr_pool) (i j e : Nat) :
    (set_map ap i j e).addr_base = ap.addr_base := rfl

theorem num_addr_store (ap : addr_pool) (c : Link) (v : Option Nat) :
    (store ap c v).num_addr = ap.num_addr := by
  cases c <;> rfl

theorem num_addr_set_tqe_prev (ap : addr_pool) (e : Nat) (p : Option Link) :
    (set_tqe_prev ap e p).num_addr = ap.num_addr := rfl

theorem num_addr_set_tqh_last (ap : addr_pool) (h : tailq_id) (p : Link) :
    (set_tqh_last ap h p).num_addr = ap.num_addr := by
  cases h <;> rfl

theorem num_addr_set_addr (ap : addr_pool) (e a p : Nat) :
    (set_addr ap e a p).num_addr = ap.num_addr := rfl

theorem num_addr_set_map (ap : addr_pool) (i j e : Nat) :
    (set_map ap i j e).num_addr = ap.num_addr := rfl

theorem num_entry_store (ap : addr_pool) (c : Link) (v : Option Nat) :
    (store ap c v).num_entry = ap.num_entry := by
  cases c <;> rfl

theorem num_entry_set_tqe_prev (ap : addr_pool) (e : Nat) (p : Option Link) :
    (set_tqe_prev ap e p).num_entry = ap.num_entry := rfl

theorem num_entry_set_tqh_last (ap : addr_pool) (h : tailq_id) (p : Link) :
    (set_tqh_last ap h p).num_entry = ap.num_entry := by
  cases h <;> rfl

theorem num_entry_set_addr (ap : addr_pool) (e a p : Nat) :
    (set_addr ap e a p).num_entry = ap.num_entry := rfl

theorem num_entry_set_map (ap : addr_pool) (i j e : Nat) :
    (set_map ap i j e).num_entry = ap.num_entry := rfl

theorem num_free_store (ap : addr_pool) (c : Link) (v : Option Nat) :
    (store ap c v).num_free = ap.num_free := by
  cases c <;> rfl

theorem num_free_set_tqe_prev (ap : addr_pool) (e : Nat) (p : Option Link) :
    (set_tqe_prev ap e p).num_free = ap.num_free := rfl

theorem num_free_set_tqh_last (ap : addr_pool) (h : tailq_id) (p : Link) :
    (set_tqh_last ap h p).num_free = ap.num_free := by
  cases h <;> rfl

theorem num_free_set_addr (ap : addr_pool) (e a p : Nat) :
    (set_addr ap e a p).num_free = ap.num_free := rfl

theorem num_free_set_map (ap : addr_pool) (i j e : Nat) :
    (set_map ap i j e).num_free = ap.num_free := rfl

theorem num_used_store (ap : addr_pool) (c : Link) (v : Option Nat) :
    (store ap c v).num_used = ap.num_used := by
  cases c <;> rfl

theorem num_used_set_tqe_prev (ap : addr_pool) (e : Nat) (p : Option Link) :
    (set_tqe_prev ap e p).num_used = ap.num_used := rfl

theorem num_used_set_tqh_last (ap : addr_pool) (h : tailq_id) (p : Link) :
    (set_tqh_last ap h p).num_used = ap.num_used := by
  cases h <;> rfl

theorem num_used_set_addr (ap : addr_pool) (e a p : Nat) :
    (set_addr ap e a p).num_used = ap.num_used := rfl

theorem num_used_set_map (ap : addr_pool) (i j e : Nat) :
    (set_map ap i j e).num_used = ap.num_used := rfl

theorem load_insert_tail (ap : addr_pool) (h : tailq_id) (e : Nat) (c : Link) :
    load (TAILQ_INSERT_TAIL ap h e) c
      = if c = tqh_last ap h then some e else if c = .entry_next e then none else load ap c := by
  simp only [TAILQ_INSERT_TAIL, load_set_tqh_last, load_store, tqh_last_set_tqe_prev,
    tqh_last_store, load_set_tqe_prev]

theorem prv_insert_tail (ap : addr_pool) (h : tailq_id) (e x : Nat) :
    prv (TAILQ_INSERT_TAIL ap h e) x = if x = e then some (tqh_last ap h) else prv ap x := by
  simp only [TAILQ_INSERT_TAIL, prv_set_tqh_last, prv_store, prv_set_tqe_prev, tqh_last_store]

theorem tqh_last_insert_tail (ap : addr_pool) (h h' : tailq_id) (e : Nat) :
    tqh_last (TAILQ_INSERT_TAIL ap h e) h'
      = if h' = h then .entry_next e else tqh_last ap h' := by
  simp only [TAILQ_INSERT_TAIL, tqh_last_set_tqh_last, tqh_last_store, tqh_last_set_tqe_prev]

theorem adr_insert_tail (ap : addr_pool) (h : tailq_id) (e x : Nat) :
    adr (TAILQ_INSERT_TAIL ap h e) x = adr ap x := by
  simp only [TAILQ_INSERT_TAIL, adr_set_tqh_last, adr_store, adr_set_tqe_prev]

theorem mapper_insert_tail (ap : addr_pool) (h : tailq_id) (e : Nat) :
    (TAILQ_INSERT_TAIL ap h e).mapper = ap.mapper := by
  simp only [TAILQ_INSERT_TAIL, mapper_set_tqh_last, mapper_store, mapper_set_tqe_prev]

theorem addr_base_insert_tail (ap : addr_pool) (h : tailq_id) (e : Nat) :
    (TAILQ_INSERT_TAIL ap h e).addr_base = ap.addr_base := by
  simp only [TAILQ_INSERT_TAIL, addr_base_set_tqh_last, addr_base_store, addr_base_set_tqe_prev]

theorem num_addr_insert_tail (ap : addr_pool) (h : tailq_id) (e : Nat) :
    (TAILQ_INSERT_TAIL ap h e).num_addr = ap.num_addr := by
  simp only [TAILQ_INSERT_TAIL, num_addr_set_tqh_last, num_addr_store, num_addr_set_tqe_prev]

theorem num_entry_insert_tail (ap : addr_pool) (h : tailq_id) (e : Nat) :
    (TAILQ_INSERT_TAIL ap h e).num_entry = ap.num_entry := by
  simp only [TAILQ_INSERT_TAIL, num_entry_set_tqh_last, num_entry_store, num_entry_set_tqe_prev]

theorem num_free_insert_tail (ap : addr_pool) (h : tailq_id) (e : Nat) :
    (TAILQ_INSERT_TAIL ap h e).num_free = ap.num_free := by
  simp only [TAILQ_INSERT_TAIL, num_free_set_tqh_last, num_free_store, num_free_set_tqe_prev]

theorem num_used_insert_tail (ap : addr_pool) (h : tailq_id) (e : Nat) :
    (TAILQ_INSERT_TAIL ap h e).num_used = ap.num_used := by
  simp only [TAILQ_INSERT_TAIL, num_used_set_tqh_last, num_used_store, num_used_set_tqe_prev]

theorem remove_some (ap : addr_pool) (h : tailq_id) (e : Nat) (p : Link)
    (hp : prv ap e = some p) : ∃ ap1, TAILQ_REMOVE ap h e = some ap1 := by
  simp [TAILQ_REMOVE, hp]

theorem remove_prv (ap ap1 : addr_pool) (h : tailq_id) (e : Nat)
    (hr : TAILQ_REMOVE ap h e = some ap1) : ∃ p, prv ap e = some p := by
  unfold TAILQ_REMOVE at hr
  cases hp : prv ap e with
  | none => simp [hp] at hr
  | some p => exact ⟨p, rfl⟩

theorem load_remove (ap ap1 : addr_pool) (h : tailq_id) (e : Nat) (p : Link)
    (hp : prv ap e = some p) (hr : TAILQ_REMOVE ap h e = some ap1) (c : Link) :
    load ap1 c = if c = p then load ap (.entry_next e) else load ap c := by
  simp only [TAILQ_REMOVE, hp, Option.some.injEq] at hr
  subst hr
  cases hn : load ap (.entry_next e) <;>
    simp [load_store, load_set_tqe_prev, load_set_tqh_last, hn]

theorem prv_remove (ap ap1 : addr_pool) (h : tailq_id) (e : Nat) (p : Link)
    (hp : prv ap e = some p) (hr : TAILQ_REMOVE ap h e = some ap1) (x : Nat) :
    prv ap1 x = if load ap (.entry_next e) = some x then some p else prv ap x := by
  simp only [TAILQ_REMOVE, hp, Option.some.injEq] at hr
  subst hr
  cases hn : load ap (.entry_next e) with
  | none => simp [prv_store, prv_set_tqh_last]
  | some n =>
    simp only [prv_store, prv_set_tqe_prev, Option.some.injEq]
    by_cases hx : x = n
    · subst hx; simp
    · have : ¬ n = x := fun h' => hx h'.symm
      simp [hx, this]

theorem tqh_last_remove (ap ap1 : addr_pool) (h : tailq_id) (e : Nat) (p : Link)
    (hp : prv ap e = some p) (hr : TAILQ_REMOVE ap h e = some ap1) (h' : tailq_id) :
    tqh_last ap1 h'
      = if h' = h ∧ load ap (.entry_next e) = none then p else tqh_last ap h' := by
  simp only [TAILQ_REMOVE, hp, Option.some.injEq] at hr
  subst hr
  cases hn : load ap (.entry_next e) with
  | none => simp [tqh_last_store, tqh_last_set_tqh_last]
  | some n => simp [tqh_last_store, tqh_last_set_tqe_prev]

theorem adr_remove (ap ap1 : addr_pool) (h : tailq_id) (e : Nat)
    (hr : TAILQ_REMOVE ap h e = some ap1) (x : Nat) : adr ap1 x = adr ap x := by
  obtain ⟨p, hp⟩ := remove_prv ap ap1 h e hr
  simp only [TAILQ_REMOVE, hp, Option.some.injEq] at hr
  subst hr
  cases hn : load ap (.entry_next e) <;>
    simp [adr_store, adr_set_tqe_prev, adr_set_tqh_last]

theorem mapper_remove (ap ap1 : addr_pool) (h : tailq_id) (e : Nat)
    (hr : TAILQ_REMOVE ap h e = some ap1) : ap1.mapper = ap.mapper := by
  obtain ⟨p, hp⟩ := remove_prv ap ap1 h e hr
  simp only [TAILQ_REMOVE, hp, Option.some.injEq] at hr
  subst hr
  cases hn : load ap (.entry_next e) <;>
    simp [mapper_store, mapper_set_tqe_prev, mapper_set_tqh_last]

theorem addr_base_remove (ap ap1 : addr_pool) (h : tailq_id) (e : Nat)
    (hr : TAILQ_REMOVE ap h e = some ap1) : ap1.addr_base = ap.addr_base := by
  obtain ⟨p, hp⟩ := remove_prv ap ap1 h e hr
  simp only [TAILQ_REMOVE, hp, Option.some.injEq] at hr
  subst hr
  cases hn : load ap (.entry_next e) <;>
    simp [addr_base_store, addr_base_set_tqe_prev, addr_base_set_tqh_last]

theorem num_addr_remove (ap ap1 : addr_pool) (h : tailq_id) (e : Nat)
    (hr : TAILQ_REMOVE ap h e = some ap1) : ap1.num_addr = ap.num_addr := by
  obtain ⟨p, hp⟩ := remove_prv ap ap1 h e hr
  simp only [TAILQ_REMOVE, hp, Option.some.injEq] at hr
  subst hr
  cases hn : load ap (.entry_next e) <;>
    simp [num_addr_store, num_addr_set_tqe_prev, num_addr_set_tqh_last]

theorem num_entry_remove (ap ap1 : addr_pool) (h : tailq_id) (e : Nat)
    (hr : TAILQ_REMOVE ap h e = some ap1) : ap1.num_entry = ap.num_entry := by
  obtain ⟨p, hp⟩ := remove_prv ap ap1 h e hr
  simp only [TAILQ_REMOVE, hp, Option.some.injEq] at hr
  subst hr
  cases hn : load ap (.entry_next e) <;>
    simp [num_entry_store, num_entry_set_tqe_prev, num_entry_set_tqh_last]

theorem num_free_remove (ap ap1 : addr_pool) (h : tailq_id) (e : Nat)
    (hr : TAILQ_REMOVE ap h e = some ap1) : ap1.num_free = ap.num_free := by
  obtain ⟨p, hp⟩ := remove_prv ap ap1 h e hr
  simp only [TAILQ_REMOVE, hp, Option.some.injEq] at hr
  subst hr
  cases hn : load ap (.entry_next e) <;>
    simp [num_free_store, num_free_set_tqe_prev, num_free_set_tqh_last]

theorem num_used_remove (ap ap1 : addr_pool) (h : tailq_id) (e : Nat)
    (hr : TAILQ_REMOVE ap h e = some ap1) : ap1.num_used = ap.num_used := by
  obtain ⟨p, hp⟩ := remove_prv ap ap1 h e hr
  simp only [TAILQ_REMOVE, hp, Option.some.injEq] at hr
  subst hr
  cases hn : load ap (.entry_next e) <;>
    simp [num_used_store, num_used_set_tqe_prev, num_used_set_tqh_last]

end views

/-! ## Chains of cells -/

section chains

theorem first_cell_ne_entry (h : tailq_id) (e : Nat) : first_cell h ≠ .entry_next e := by
  cases h <;> simp [first_cell]

theorem first_cell_inj (h h' : tailq_id) (heq : first_cell h = first_cell h') : h = h' := by
  cases h <;> cases h' <;> simp [first_cell] at heq <;> rfl

theorem end_cell_append (p : Link) (l1 l2 : List Nat) :
    end_cell p (l1 ++ l2) = end_cell (end_cell p l1) l2 := by
  induction l1 generalizing p with
  | nil => rfl
  | cons e l ih => simpa [end_cell] using ih _

theorem end_cell_cases (p : Link) (l : List Nat) :
    end_cell p l = p ∨ ∃ x ∈ l, end_cell p l = .entry_next x := by
  induction l generalizing p with
  | nil => left; rfl
  | cons e l ih =>
    right
    rcases ih (.entry_next e) with h | ⟨x, hx, h⟩
    · exact ⟨e, by simp, by simpa [end_cell] using h⟩
    · exact ⟨x, by simp [hx], by simpa [end_cell] using h⟩

theorem mem_rcells (p : Link) (l : List Nat) (c : Link) (hc : c ∈ rcells p l) :
    c = p ∨ ∃ x ∈ l, c = .entry_next x := by
  induction l generalizing p with
  | nil => simp [rcells] at hc
  | cons e l ih =>
    simp only [rcells, List.mem_cons] at hc
    rcases hc with h | h
    · left; exact h
    · right
      rcases ih _ h with h' | ⟨x, hx, h'⟩
      · exact ⟨e, by simp, h'⟩
      · exact ⟨x, by simp [hx], h'⟩

theorem end_cell_not_mem_rcells (p : Link) (l : List Nat) (hnd : l.Nodup)
    (hp : ∀ x ∈ l, p ≠ .entry_next x) : end_cell p l ∉ rcells p l := by
  induction l generalizing p with
  | nil => simp [rcells]
  | cons e l ih =>
    have hnd' := List.nodup_cons.mp hnd
    simp only [rcells, end_cell, List.mem_cons, not_or]
    constructor
    · rcases end_cell_cases (.entry_next e) l with h | ⟨x, hx, h⟩
      · rw [h]; exact fun heq => hp e (by simp) heq.symm
      · rw [h]; exact fun heq => hp x (by simp [hx]) heq.symm
    · apply ih _ hnd'.2
      intro x hx heq
      injection heq with heq
      exact hnd'.1 (heq ▸ hx)

theorem Seg_append (ap : addr_pool) (p : Link) (l1 l2 : List Nat) :
    Seg ap p (l1 ++ l2) ↔ Seg ap p l1 ∧ Seg ap (end_cell p l1) l2 := by
  induction l1 generalizing p with
  | nil => simp [Seg, end_cell]
  | cons e l ih => simp [Seg, end_cell, ih, and_assoc]

theorem rcells_load_some (ap : addr_pool) (p : Link) (l : List Nat) (hs : Seg ap p l)
    (c : Link) (hc : c ∈ rcells p l) : ∃ x, load ap c = some x := by
  induction l generalizing p with
  | nil => simp [rcells] at hc
  | cons e l ih =>
    simp only [rcells, List.mem_cons] at hc
    rcases hc with h | h
    · exact ⟨e, h ▸ hs.1⟩
    · exact ih _ hs.2.2 h

theorem Seg_frame (ap ap' : addr_pool) (p : Link) (l : List Nat) (hs : Seg ap p l)
    (hload : ∀ c ∈ rcells p l, load ap' c = load ap c)
    (hprv : ∀ x ∈ l, prv ap' x = prv ap x) : Seg ap' p l := by
  induction l generalizing p with
  | nil => trivial
  | cons e l ih =>
    refine ⟨?_, ?_, ?_⟩
    · rw [hload p (by simp [rcells])]; exact hs.1
    · rw [hprv e (by simp)]; exact hs.2.1
    · exact ih _ hs.2.2 (fun c hc => hload c (by simp [rcells, hc]))
        (fun x hx => hprv x (by simp [hx]))

theorem IsList_frame (ap ap' : addr_pool) (h : tailq_id) (l : List Nat) (hl : IsList ap h l)
    (hfirst : load ap' (first_cell h) = load ap (first_cell h))
    (hnext : ∀ x ∈ l, load ap' (.entry_next x) = load ap (.entry_next x))
    (hprv : ∀ x ∈ l, prv ap' x = prv ap x)
    (hlast : tqh_last ap' h = tqh_last ap h) : IsList ap' h l := by
  obtain ⟨hseg, hend, hl⟩ := hl
  have hcell : ∀ c, (c = first_cell h ∨ ∃ x ∈ l, c = .entry_next x) →
      load ap' c = load ap c := by
    intro c hc
    rcases hc with hc | ⟨x, hx, hc⟩
    · rw [hc]; exact hfirst
    · rw [hc]; exact hnext x hx
  refine ⟨?_, ?_, ?_⟩
  · exact Seg_frame ap ap' _ l hseg (fun c hc => hcell c (mem_rcells _ _ c hc)) hprv
  · rw [hcell _ (end_cell_cases _ l)]; exact hend
  · rw [hlast]; exact hl

theorem IsList_mem_prv (ap : addr_pool) (h : tailq_id) (l1 l2 : List Nat) (e : Nat)
    (hl : IsList ap h (l1 ++ e :: l2)) :
    load ap (end_cell (first_cell h) l1) = some e ∧
      prv ap e = some (end_cell (first_cell h) l1) := by
  have hs := (Seg_append ap _ l1 (e :: l2)).mp hl.1
  exact ⟨hs.2.1, hs.2.2.1⟩

theorem IsList_insert_tail (ap : addr_pool) (h : tailq_id) (l : List Nat) (e : Nat)
    (hl : IsList ap h l) (he : e ∉ l) : IsList (TAILQ_INSERT_TAIL ap h e) h (l ++ [e]) := by
  obtain ⟨hseg, hend, hlast⟩ := hl
  have hq : end_cell (first_cell h) l ≠ .entry_next e := by
    rcases end_cell_cases (first_cell h) l with hc | ⟨x, hx, hc⟩
    · rw [hc]; exact first_cell_ne_entry h e
    · rw [hc]; intro heq; injection heq with heq; exact he (heq ▸ hx)
  refine ⟨?_, ?_, ?_⟩
  · rw [Seg_append]
    constructor
    · apply Seg_frame ap _ _ l hseg
      · intro c hc
        rw [load_insert_tail]
        have h1 : c ≠ tqh_last ap h := by
          rw [hlast]; intro heq
          obtain ⟨x, hx⟩ := rcells_load_some ap _ l hseg c hc
          rw [heq, hend] at hx; cases hx
        have h2 : c ≠ .entry_next e := by
          rcases mem_rcells _ _ c hc with hc | ⟨x, hx, hc⟩
          · rw [hc]; exact first_cell_ne_entry h e
          · rw [hc]; intro heq; injection heq with heq; exact he (heq ▸ hx)
        simp [h1, h2]
      · intro x hx
        rw [prv_insert_tail]
        have : x ≠ e := fun heq => he (heq ▸ hx)
        simp [this]
    · refine ⟨?_, ?_, trivial⟩
      · rw [load_insert_tail, hlast]; simp
      · rw [prv_insert_tail, hlast]; simp
  · rw [end_cell_append, load_insert_tail, hlast]
    simp only [end_cell]
    simp [hq.symm]
  · rw [tqh_last_insert_tail, end_cell_append]; simp [end_cell]

theorem IsList_insert_tail_other (ap : addr_pool) (h h' : tailq_id) (l l' : List Nat) (e : Nat)
    (hl : IsList ap h l) (hl' : IsList ap h' l') (hne : h' ≠ h) (he : e ∉ l')
    (hdisj : ∀ x ∈ l, x ∉ l') : IsList (TAILQ_INSERT_TAIL ap h e) h' l' := by
  have hq : ∀ c, (c = first_cell h' ∨ ∃ x ∈ l', c = .entry_next x) → c ≠ tqh_last ap h := by
    intro c hc heq
    rw [hl.2.2] at heq
    rcases end_cell_cases (first_cell h) l with hc2 | ⟨y, hy, hc2⟩
    · rw [hc2] at heq
      rcases hc with hc | ⟨x, _, hc⟩
      · rw [hc] at heq; exact hne (first_cell_inj _ _ heq)
      · rw [hc] at heq; exact first_cell_ne_entry h x heq.symm
    · rw [hc2] at heq
      rcases hc with hc | ⟨x, hx, hc⟩
      · rw [hc] at heq; exact first_cell_ne_entry h' y heq
      · rw [hc] at heq; injection heq with heq; exact hdisj y hy (heq ▸ hx)
  apply IsList_frame ap _ h' l' hl'
  · rw [load_insert_tail]
    simp [hq _ (Or.inl rfl), first_cell_ne_entry]
  · intro x hx
    rw [load_insert_tail]
    have : x ≠ e := fun heq => he (heq ▸ hx)
    simp [hq _ (Or.inr ⟨x, hx, rfl⟩), this]
  · intro x hx
    rw [prv_insert_tail]
    have : x ≠ e := fun heq => he (heq ▸ hx)
    simp [this]
  · rw [tqh_last_insert_tail]; simp [hne]

theorem end_cell_ne_entry (h : tailq_id) (l : List Nat) (z : Nat) (hz : z ∉ l) :
    end_cell (first_cell h) l ≠ .entry_next z := by
  rcases end_cell_cases (first_cell h) l with hc | ⟨y, hy, hc⟩
  · rw [hc]; exact first_cell_ne_entry h z
  · rw [hc]; intro heq; injection heq with heq; exact hz (heq ▸ hy)

theorem IsList_next (ap : addr_pool) (h : tailq_id) (l1 l2 : List Nat) (e : Nat)
    (hl : IsList ap h (l1 ++ e :: l2)) : load ap (.entry_next e) = l2.head? := by
  cases l2 with
  | nil =>
    have := hl.2.1
    rw [end_cell_append] at this
    simpa [end_cell] using this
  | cons n l2 =>
    have hs := (Seg_append ap _ l1 (e :: n :: l2)).mp hl.1
    simpa using hs.2.2.2.1

theorem IsList_remove (ap ap1 : addr_pool) (h : tailq_id) (l1 l2 : List Nat) (e : Nat)
    (hl : IsList ap h (l1 ++ e :: l2)) (hnd : (l1 ++ e :: l2).Nodup)
    (hr : TAILQ_REMOVE ap h e = some ap1) : IsList ap1 h (l1 ++ l2) := by
  obtain ⟨hload_pe, hprv_e⟩ := IsList_mem_prv ap h l1 l2 e hl
  have hs := (Seg_append ap _ l1 (e :: l2)).mp hl.1
  have hnext := IsList_next ap h l1 l2 e hl
  have L := load_remove ap ap1 h e _ hprv_e hr
  have P := prv_remove ap ap1 h e _ hprv_e hr
  have T := tqh_last_remove ap ap1 h e _ hprv_e hr h
  rw [List.nodup_append] at hnd
  obtain ⟨hnd1, hnd2, hdisj⟩ := hnd
  have hnd2' := List.nodup_cons.mp hnd2
  have hseg1 : Seg ap1 (first_cell h) l1 := by
    apply Seg_frame ap ap1 _ l1 hs.1
    · intro c hc
      rw [L]
      have : c ≠ end_cell (first_cell h) l1 := by
        intro heq
        exact end_cell_not_mem_rcells _ l1 hnd1 (fun x _ => first_cell_ne_entry h x) (heq ▸ hc)
      simp [this]
    · intro x hx
      rw [P, hnext]
      have : l2.head? ≠ some x := by
        intro heq
        exact hdisj hx (List.mem_cons_of_mem _ (List.mem_of_mem_head? heq))
      simp [this]
  cases l2 with
  | nil =>
    simp only [List.head?_nil] at hnext
    simp only [List.append_nil]
    refine ⟨hseg1, ?_, ?_⟩
    · rw [L]; simp [hnext]
    · rw [T]; simp [hnext]
  | cons n l2 =>
    simp only [List.head?_cons] at hnext
    have hn1 : n ∉ l1 := fun hx => hdisj hx (by simp)
    have hnd3 := List.nodup_cons.mp hnd2'.2
    have hpe : ∀ z, z ∉ l1 → .entry_next z ≠ end_cell (first_cell h) l1 :=
      fun z hz => (end_cell_ne_entry h l1 z hz).symm
    refine ⟨?_, ?_, ?_⟩
    · rw [Seg_append]
      refine ⟨hseg1, ?_, ?_, ?_⟩
      · rw [L]; simp [hnext]
      · rw [P]; simp [hnext]
      · apply Seg_frame ap ap1 _ l2 hs.2.2.2.2.2
        · intro c hc
          rw [L]
          have : c ≠ end_cell (first_cell h) l1 := by
            rcases mem_rcells _ _ c hc with hc | ⟨x, hx, hc⟩
            · rw [hc]; exact hpe n hn1
            · rw [hc]; exact hpe x (fun hx1 => hdisj hx1 (by simp [hx]))
          simp [this]
        · intro x hx
          rw [P, hnext]
          have : ¬ n = x := fun heq => hnd3.1 (heq ▸ hx)
          simp [this]
    · have hend := hl.2.1
      rw [end_cell_append] at hend ⊢
      simp only [end_cell] at hend ⊢
      rw [L]
      have : end_cell (.entry_next n) l2 ≠ end_cell (first_cell h) l1 := by
        rcases end_cell_cases (.entry_next n) l2 with hc | ⟨x, hx, hc⟩
        · rw [hc]; exact hpe n hn1
        · rw [hc]; exact hpe x (fun hx1 => hdisj hx1 (by simp [hx]))
      simp [this, hend]
    · have hlast := hl.2.2
      rw [end_cell_append] at hlast ⊢
      simp only [end_cell] at hlast ⊢
      rw [T]; simp [hnext, hlast]

theorem IsList_remove_other (ap ap1 : addr_pool) (h h' : tailq_id) (l1 l2 l' : List Nat)
    (e : Nat) (hl : IsList ap h (l1 ++ e :: l2)) (hl' : IsList ap h' l') (hne : h' ≠ h)
    (hdisj : ∀ x ∈ l1 ++ e :: l2, x ∉ l') (hr : TAILQ_REMOVE ap h e = some ap1) :
    IsList ap1 h' l' := by
  obtain ⟨_, hprv_e⟩ := IsList_mem_prv ap h l1 l2 e hl
  have hnext := IsList_next ap h l1 l2 e hl
  have L := load_remove ap ap1 h e _ hprv_e hr
  have P := prv_remove ap ap1 h e _ hprv_e hr
  have T := tqh_last_remove ap ap1 h e _ hprv_e hr h'
  apply IsList_frame ap ap1 h' l' hl'
  · rw [L]
    have : first_cell h' ≠ end_cell (first_cell h) l1 := by
      rcases end_cell_cases (first_cell h) l1 with hc | ⟨y, _, hc⟩
      · rw [hc]; exact fun heq => hne (first_cell_inj _ _ heq)
      · rw [hc]; exact first_cell_ne_entry h' y
    simp [this]
  · intro x hx
    rw [L]
    have : Link.entry_next x ≠ end_cell (first_cell h) l1 :=
      (end_cell_ne_entry h l1 x (fun hx1 => hdisj x (by simp [hx1]) hx)).symm
    simp [this]
  · intro x hx
    rw [P, hnext]
    have : l2.head? ≠ some x := by
      intro heq
      exact hdisj x (by simp [List.mem_of_mem_head? heq]) hx
    simp [this]
  · rw [T]; simp [hne]

/-- Unlinking `e` from the list it is on and appending it to the other list moves
it, and nothing else, at the level of the represented lists. -/
theorem relink (ap : addr_pool) (h h' : tailq_id) (l1 l2 l' : List Nat) (e : Nat)
    (hne : h' ≠ h) (hl : IsList ap h (l1 ++ e :: l2)) (hl' : IsList ap h' l')
    (hnd : ((l1 ++ e :: l2) ++ l').Nodup) :
    ∃ ap1, TAILQ_REMOVE ap h e = some ap1 ∧
      IsList (TAILQ_INSERT_TAIL ap1 h' e) h (l1 ++ l2) ∧
      IsList (TAILQ_INSERT_TAIL ap1 h' e) h' (l' ++ [e]) := by
  obtain ⟨_, hprv_e⟩ := IsList_mem_prv ap h l1 l2 e hl
  obtain ⟨ap1, hr⟩ := remove_some ap h e _ hprv_e
  rw [List.nodup_append] at hnd
  obtain ⟨hnd1, _, hdisj⟩ := hnd
  have hdisj' : ∀ x ∈ l1 ++ e :: l2, x ∉ l' := fun x hx hx' => hdisj hx hx'
  have h1 := IsList_remove ap ap1 h l1 l2 e hl hnd1 hr
  have h2 := IsList_remove_other ap ap1 h h' l1 l2 l' e hl hl' hne hdisj' hr
  have he' : e ∉ l' := hdisj' e (by simp)
  have he12 : e ∉ l1 ++ l2 := by
    have := List.nodup_middle.mp hnd1
    exact (List.nodup_cons.mp this).1
  refine ⟨ap1, hr, ?_, ?_⟩
  · apply IsList_insert_tail_other ap1 h' h l' (l1 ++ l2) e h2 h1 (fun heq => hne heq.symm) he12
    intro x hx hx12
    have : x ∈ l1 ++ e :: l2 := by
      rcases List.mem_append.mp hx12 with hx1 | hx2
      · simp [hx1]
      · simp [hx2]
    exact hdisj' x this hx
  · exact IsList_insert_tail ap1 h' l' e h2 he'

end chains

/-! ## FetchAddress on a well-linked pool -/

section fetch

theorem load_counters (ap : addr_pool) (a b : Int) (c : Link) :
    load { ap with num_free := a, num_used := b } c = load ap c := by
  cases c <;> rfl

theorem tqh_last_counters (ap : addr_pool) (a b : Int) (h : tailq_id) :
    tqh_last { ap with num_free := a, num_used := b } h = tqh_last ap h := by
  cases h <;> rfl

theorem IsList_counters (ap : addr_pool) (a b : Int) (h : tailq_id) (l : List Nat)
    (hl : IsList ap h l) : IsList { ap with num_free := a, num_used := b } h l :=
  IsList_frame ap _ h l hl (load_counters ap a b _) (fun _ _ => load_counters ap a b _)
    (fun _ _ => rfl) (tqh_last_counters ap a b h)

theorem exists_first {α : Type} (P : α → Prop) (l : List α) (hex : ∃ e ∈ l, P e) :
    ∃ l1 e l2, l = l1 ++ e :: l2 ∧ (∀ x ∈ l1, ¬ P x) ∧ P e := by
  induction l with
  | nil => obtain ⟨e, he, _⟩ := hex; simp at he
  | cons a l ih =>
    by_cases ha : P a
    · exact ⟨[], a, l, rfl, by simp, ha⟩
    · have : ∃ e ∈ l, P e := by
        obtain ⟨e, he, hpe⟩ := hex
        rcases List.mem_cons.mp he with h | h
        · exact absurd (h ▸ hpe) ha
        · exact ⟨e, h, hpe⟩
      obtain ⟨l1, e, l2, hl, hno, hpe⟩ := ih this
      refine ⟨a :: l1, e, l2, by simp [hl], ?_, hpe⟩
      intro x hx
      rcases List.mem_cons.mp hx with h | h
      · exact h ▸ ha
      · exact hno x h

theorem scan_found (G : RSSFn) (ec : Nat) (ap : addr_pool) (core nq : Int) (d : sockaddr_in)
    (p : Link) (l1 l2 : List Nat) (e fuel : Nat) (hs : Seg ap p (l1 ++ e :: l2))
    (hno : ∀ x ∈ l1, ¬ fetch_core G ec ap nq d x = core) (he : fetch_core G ec ap nq d e = core)
    (hfuel : l1.length < fuel) :
    FetchAddress_scan G ec ap core nq d fuel (load ap p) = some (some e) := by
  induction l1 generalizing p fuel with
  | nil =>
    cases fuel with
    | zero => simp at hfuel
    | succ f =>
      have h1 : load ap p = some e := hs.1
      simp [h1, FetchAddress_scan, he]
  | cons a l1 ih =>
    cases fuel with
    | zero => simp at hfuel
    | succ f =>
      have h1 : load ap p = some a := hs.1
      have h2 : ¬ core = fetch_core G ec ap nq d a := fun h => hno a (by simp) h.symm
      rw [h1]
      simp only [FetchAddress_scan, h2, if_false]
      exact ih _ f hs.2.2 (fun x hx => hno x (by simp [hx])) (by simpa using hfuel)

theorem scan_none (G : RSSFn) (ec : Nat) (ap : addr_pool) (core nq : Int) (d : sockaddr_in)
    (p : Link) (l : List Nat) (fuel : Nat) (hs : Seg ap p l)
    (hend : load ap (end_cell p l) = none)
    (hno : ∀ x ∈ l, ¬ fetch_core G ec ap nq d x = core) (hfuel : l.length ≤ fuel) :
    FetchAddress_scan G ec ap core nq d fuel (load ap p) = some none := by
  induction l generalizing p fuel with
  | nil =>
    have h1 : load ap p = none := hend
    rw [h1]; cases fuel <;> rfl
  | cons a l ih =>
    cases fuel with
    | zero => simp at hfuel
    | succ f =>
      have h1 : load ap p = some a := hs.1
      have h2 : ¬ core = fetch_core G ec ap nq d a := fun h => hno a (by simp) h.symm
      rw [h1]
      simp only [FetchAddress_scan, h2, if_false]
      exact ih _ f hs.2.2 hend (fun x hx => hno x (by simp [hx])) (by simpa using hfuel)

/-- What a successful `FetchAddress` does to a well-linked pool. -/
theorem fetch_found (G : RSSFn) (ec fuel : Nat) (ap : addr_pool) (l1 l2 ul : List Nat) (e : Nat)
    (core nq : Int) (d sa : sockaddr_in) (hwf : PoolLists ap (l1 ++ e :: l2) ul)
    (hfuel : (l1 ++ e :: l2).length ≤ fuel)
    (hno : ∀ x ∈ l1, ¬ fetch_core G ec ap nq d x = core)
    (he : fetch_core G ec ap nq d e = core) :
    ∃ ap', FetchAddress G ec fuel ap core nq d sa = some (0, ap', adr ap e) ∧
      PoolLists ap' (l1 ++ l2) (ul ++ [e]) ∧
      ap'.num_free = ap.num_free - 1 ∧ ap'.num_used = ap.num_used + 1 ∧
      ap'.num_entry = ap.num_entry ∧ ap'.mapper = ap.mapper ∧ ap'.addr_base = ap.addr_base ∧
      ap'.num_addr = ap.num_addr ∧ (∀ x, adr ap' x = adr ap x) ∧
      (∀ x, x ≠ e → prv ap x ≠ none → prv ap' x ≠ none) ∧ prv ap' e ≠ none := by
  have hscan := scan_found G ec ap core nq d .free_first l1 l2 e fuel hwf.free.1 hno he
    (by simp at hfuel; omega)
  obtain ⟨ap1, hr, hfree, hused⟩ := relink ap .free_list .used_list l1 l2 ul e (by decide)
    hwf.free hwf.used hwf.nodup
  obtain ⟨p, hp⟩ := remove_prv ap ap1 _ e hr
  refine ⟨{ TAILQ_INSERT_TAIL ap1 .used_list e with
      num_free := (TAILQ_INSERT_TAIL ap1 .used_list e).num_free - 1,
      num_used := (TAILQ_INSERT_TAIL ap1 .used_list e).num_used + 1 }, ?_,
    ⟨IsList_counters _ _ _ _ _ hfree, IsList_counters _ _ _ _ _ hused, ?_⟩,
    ?_, ?_, ?_, ?_, ?_, ?_, ?_, ?_, ?_⟩
  · simp only [FetchAddress, hscan, hr]
  · have h1 := hwf.nodup
    rw [List.append_assoc, List.cons_append] at h1
    have h2 := List.nodup_middle.mp h1
    have h3 := List.nodup_cons.mp h2
    rw [← List.append_assoc] at h3
    rw [← List.append_assoc]
    apply List.Nodup.append h3.2 (List.nodup_singleton e)
    intro x hx hx'
    simp only [List.mem_singleton] at hx'
    exact h3.1 (hx' ▸ hx)
  · simp [num_free_insert_tail, num_free_remove ap ap1 _ e hr]
  · simp [num_used_insert_tail, num_used_remove ap ap1 _ e hr]
  · simp [num_entry_insert_tail, num_entry_remove ap ap1 _ e hr]
  · simp [mapper_insert_tail, mapper_remove ap ap1 _ e hr]
  · simp [addr_base_insert_tail, addr_base_remove ap ap1 _ e hr]
  · simp [num_addr_insert_tail, num_addr_remove ap ap1 _ e hr]
  · intro x
    show adr (TAILQ_INSERT_TAIL ap1 .used_list e) x = adr ap x
    rw [adr_insert_tail, adr_remove ap ap1 _ e hr]
  · intro x hx hpx
    show prv (TAILQ_INSERT_TAIL ap1 .used_list e) x ≠ none
    rw [prv_insert_tail, prv_remove ap ap1 _ e p hp hr]
    simp only [hx, if_false]
    split
    · simp
    · exact hpx
  · show prv (TAILQ_INSERT_TAIL ap1 .used_list e) e ≠ none
    rw [prv_insert_tail]; simp

/-- What `FetchAddress` does when no free entry matches. -/
theorem fetch_not_found (G : RSSFn) (ec fuel : Nat) (ap : addr_pool) (fl ul : List Nat)
    (core nq : Int) (d sa : sockaddr_in) (hwf : PoolLists ap fl ul) (hfuel : fl.length ≤ fuel)
    (hno : ∀ x ∈ fl, ¬ fetch_core G ec ap nq d x = core) :
    FetchAddress G ec fuel ap core nq d sa = some (-1, ap, sa) := by
  have hscan := scan_none G ec ap core nq d .free_first fl fuel hwf.free.1 hwf.free.2.1 hno hfuel
  simp only [FetchAddress, hscan]

end fetch

/-! ## Byte order -/

section bytes

theorem bswap32_bytes (b0 b1 b2 b3 : Nat) (h0 : b0 < 256) (h1 : b1 < 256) (h2 : b2 < 256)
    (h3 : b3 < 256) :
    bswap32 (b0 + 256 * b1 + 65536 * b2 + 16777216 * b3)
      = b3 + 256 * b2 + 65536 * b1 + 16777216 * b0 := by
  unfold bswap32
  omega

theorem bswap32_bswap32 (x : Nat) (hx : x < 4294967296) : bswap32 (bswap32 x) = x := by
  have hx' : x = x % 256 + 256 * (x / 256 % 256) + 65536 * (x / 65536 % 256)
      + 16777216 * (x / 16777216) := by omega
  have h3 : x / 16777216 < 256 := by omega
  rw [hx', bswap32_bytes _ _ _ _ (Nat.mod_lt _ (by norm_num)) (Nat.mod_lt _ (by norm_num))
    (Nat.mod_lt _ (by norm_num)) h3]
  have := bswap32_bytes (x / 16777216) (x / 65536 % 256) (x / 256 % 256) (x % 256) h3
    (Nat.mod_lt _ (by norm_num)) (Nat.mod_lt _ (by norm_num)) (Nat.mod_lt _ (by norm_num))
  rw [← this]

theorem bswap32_lt (x : Nat) : bswap32 x < 4294967296 := by
  unfold bswap32
  omega

theorem bswap16_bytes (b0 b1 : Nat) (h0 : b0 < 256) (h1 : b1 < 256) :
    bswap16 (b0 + 256 * b1) = b1 + 256 * b0 := by
  unfold bswap16
  omega

theorem bswap16_bswap16 (x : Nat) (hx : x < 65536) : bswap16 (bswap16 x) = x := by
  have hx' : x = x % 256 + 256 * (x / 256) := by omega
  have h1 : x / 256 < 256 := by omega
  rw [hx', bswap16_bytes _ _ (Nat.mod_lt _ (by norm_num)) h1]
  have := bswap16_bytes (x / 256) (x % 256) h1 (Nat.mod_lt _ (by norm_num))
  rw [← this]

theorem bswap16_lt (x : Nat) : bswap16 x < 65536 := by
  unfold bswap16
  omega

theorem ntohl_htonl (x : Nat) (hx : x < 4294967296) : ntohl (htonl x) = x := by
  unfold ntohl htonl
  rw [Nat.mod_eq_of_lt hx, Nat.mod_eq_of_lt (bswap32_lt x), bswap32_bswap32 x hx]

theorem ntohs_htons (x : Nat) : ntohs (htons x) = x % 65536 := by
  unfold ntohs htons
  rw [Nat.mod_eq_of_lt (bswap16_lt _), bswap16_bswap16 _ (Nat.mod_lt _ (by norm_num))]

theorem htons_mod (x : Nat) : htons (x % 65536) = htons x := by
  unfold htons
  simp

theorem ntohl_lt (x : Nat) : ntohl x < 4294967296 := bswap32_lt _

theorem map_offset_entry (ap : addr_pool) (f p i : Nat) (hi : i < 4294967296) :
    map_offset ap ⟨f, p, htonl ((ap.addr_base + i) % 4294967296)⟩ = i := by
  unfold map_offset
  simp only
  rw [ntohl_htonl _ (Nat.mod_lt _ (by norm_num))]
  omega

end bytes

/-! ## FreeAddress on a pool in valid use -/

section free

theorem PoolInv_of_frame (ap ap' : addr_pool) (fl ul fl' ul' : List Nat)
    (hinv : PoolInv ap fl ul) (hl : PoolLists ap' fl' ul')
    (hmem : ∀ x, x ∈ fl' ++ ul' ↔ x ∈ fl ++ ul)
    (hfree : ap'.num_free = ((fl'.length : Nat) : Int))
    (hused : ap'.num_used = ((ul'.length : Nat) : Int))
    (hentry : ap'.num_entry = ap.num_entry) (hmap : ap'.mapper = ap.mapper)
    (hbase : ap'.addr_base = ap.addr_base) (hnum : ap'.num_addr = ap.num_addr)
    (hadr : ∀ x, adr ap' x = adr ap x) : PoolInv ap' fl' ul' := by
  refine ⟨hl, ?_, hfree, hused, ?_⟩
  · intro e; rw [hmem, hentry]; exact hinv.mem_iff e
  · obtain ⟨m, hm, hme⟩ := hinv.map_entry
    refine ⟨m, hmap.trans hm, ?_⟩
    intro e he
    rw [hentry] at he
    have := hme e he
    simpa [map_offset, hadr, hbase, hnum] using this

theorem lookup_entry (fuel : Nat) (ap : addr_pool) (fl ul : List Nat) (e : Nat)
    (hinv : PoolInv ap fl ul) (he : ((e : Nat) : Int) < ap.num_entry) :
    FreeAddress_lookup fuel ap (adr ap e) = some (some e) := by
  obtain ⟨m, hm, hme⟩ := hinv.map_entry
  obtain ⟨hoff, hslot⟩ := hme e he
  have hg : FreeAddress_guard (to_int32 (map_offset ap (adr ap e))) ap.num_addr = true := by
    simp only [FreeAddress_guard, Bool.or_eq_true, decide_eq_true_eq]
    by_cases h0 : to_int32 (map_offset ap (adr ap e)) ≥ 0
    · left; exact h0
    · right; omega
  simp only [FreeAddress_lookup, hm, hg, hoff, if_true, hslot]

/-- The call `FreeAddress` on the tuple of an entry of the used list. -/
theorem free_in_use (fuel : Nat) (ap : addr_pool) (fl l1 l2 : List Nat) (e : Nat)
    (hinv : PoolInv ap fl (l1 ++ e :: l2)) :
    ∃ ap', FreeAddress fuel ap (adr ap e) = some (0, ap') ∧
      PoolInv ap' (fl ++ [e]) (l1 ++ l2) ∧
      ap'.num_free = ap.num_free + 1 ∧ ap'.num_used = ap.num_used - 1 ∧
      (∀ x, adr ap' x = adr ap x) := by
  have he : ((e : Nat) : Int) < ap.num_entry := (hinv.mem_iff e).mp (by simp)
  have hlook := lookup_entry fuel ap fl _ e hinv he
  have hnd : ((l1 ++ e :: l2) ++ fl).Nodup := List.nodup_append_comm.mp hinv.lists.nodup
  obtain ⟨ap1, hr, hused, hfree⟩ := relink ap .used_list .free_list l1 l2 fl e (by decide)
    hinv.lists.used hinv.lists.free hnd
  have hnd' : ((fl ++ [e]) ++ (l1 ++ l2)).Nodup := by
    have h1 : (e :: (l1 ++ l2 ++ fl)).Nodup := by
      have := hnd
      rw [List.append_assoc, List.cons_append] at this
      have := List.nodup_middle.mp this
      simpa [List.append_assoc] using this
    have h2 : ((l1 ++ l2) ++ (fl ++ [e])).Nodup := by
      rw [← List.append_assoc]
      have h3 := List.nodup_cons.mp h1
      apply List.Nodup.append h3.2 (List.nodup_singleton e)
      intro x hx hx'
      simp only [List.mem_singleton] at hx'
      exact h3.1 (hx' ▸ hx)
    exact List.nodup_append_comm.mp h2
  refine ⟨{ TAILQ_INSERT_TAIL ap1 .free_list e with
      num_free := (TAILQ_INSERT_TAIL ap1 .free_list e).num_free + 1,
      num_used := (TAILQ_INSERT_TAIL ap1 .free_list e).num_used - 1 }, ?_, ?_, ?_, ?_, ?_⟩
  · simp only [FreeAddress, hlook, hr]
  · apply PoolInv_of_frame ap _ fl (l1 ++ e :: l2) _ _ hinv
      ⟨IsList_counters _ _ _ _ _ hfree, IsList_counters _ _ _ _ _ hused, hnd'⟩
    · intro x; simp only [List.mem_append, List.mem_cons, List.mem_singleton]; tauto
    · simp [num_free_insert_tail, num_free_remove ap ap1 _ e hr, hinv.num_free_eq]
    · simp only [num_used_insert_tail, num_used_remove ap ap1 _ e hr, hinv.num_used_eq]
      simp only [List.length_append, List.length_cons]
      push_cast
      omega
    · simp [num_entry_insert_tail, num_entry_remove ap ap1 _ e hr]
    · simp [mapper_insert_tail, mapper_remove ap ap1 _ e hr]
    · simp [addr_base_insert_tail, addr_base_remove ap ap1 _ e hr]
    · simp [num_addr_insert_tail, num_addr_remove ap ap1 _ e hr]
    · intro x
      show adr (TAILQ_INSERT_TAIL ap1 .free_list e) x = adr ap x
      rw [adr_insert_tail, adr_remove ap ap1 _ e hr]
  · simp [num_free_insert_tail, num_free_remove ap ap1 _ e hr]
  · simp [num_used_insert_tail, num_used_remove ap ap1 _ e hr]
  · intro x
    show adr (TAILQ_INSERT_TAIL ap1 .free_list e) x = adr ap x
    rw [adr_insert_tail, adr_remove ap ap1 _ e hr]

/-- The call `FreeAddress` on the tuple of an entry that is on the free list: the map finds
the entry all the same. -/
theorem free_not_in_use (fuel : Nat) (ap : addr_pool) (l1 l2 ul : List Nat) (e : Nat)
    (hinv : PoolInv ap (l1 ++ e :: l2) ul) :
    ∃ ap', FreeAddress fuel ap (adr ap e) = some (0, ap') ∧
      ap'.num_free = ap.num_free + 1 ∧ ap'.num_used = ap.num_used - 1 := by
  have he : ((e : Nat) : Int) < ap.num_entry := (hinv.mem_iff e).mp (by simp)
  have hlook := lookup_entry fuel ap _ ul e hinv he
  obtain ⟨_, hprv⟩ := IsList_mem_prv ap .free_list l1 l2 e hinv.lists.free
  obtain ⟨ap1, hr⟩ := remove_some ap .used_list e _ hprv
  refine ⟨{ TAILQ_INSERT_TAIL ap1 .free_list e with
      num_free := (TAILQ_INSERT_TAIL ap1 .free_list e).num_free + 1,
      num_used := (TAILQ_INSERT_TAIL ap1 .free_list e).num_used - 1 }, ?_, ?_, ?_⟩
  · simp only [FreeAddress, hlook, hr]
  · simp [num_free_insert_tail, num_free_remove ap ap1 _ e hr]
  · simp [num_used_insert_tail, num_used_remove ap ap1 _ e hr]

end free

/-! ## Filling a pool -/

section build

theorem Built_init (base : Nat) (n : Int) : Built base n [] (init_pool base n) := by
  refine ⟨⟨trivial, rfl, rfl⟩, ⟨trivial, rfl, rfl⟩, ?_, ⟨fun _ _ => none, rfl, ?_⟩, rfl, rfl, ?_⟩
  · intro e i j h; simp at h
  · intro i j e; simp
  · intro e _; exact ⟨rfl, rfl, rfl⟩

theorem Built_add (base : Nat) (n : Int) (ks : List (Nat × Nat)) (ap : addr_pool) (i j : Nat)
    (hb : Built base n ks ap) (hfresh : (i, j) ∉ ks) :
    Built base n (ks ++ [(i, j)])
      (add_entry ap ks.length i j (htonl ((base + i) % 4294967296)) (htons j)) := by
  have hlen : ks.length ∉ List.range ks.length := by simp
  have hfree2 : IsList (set_map (set_addr ap ks.length (htonl ((base + i) % 4294967296))
      (htons j)) i j ks.length) .free_list (List.range ks.length) :=
    IsList_frame ap _ _ _ hb.free (by rw [load_set_map, load_set_addr])
      (fun _ _ => by rw [load_set_map, load_set_addr])
      (fun _ _ => by rw [prv_set_map, prv_set_addr])
      (by rw [tqh_last_set_map, tqh_last_set_addr])
  have hused2 : IsList (set_map (set_addr ap ks.length (htonl ((base + i) % 4294967296))
      (htons j)) i j ks.length) .used_list [] :=
    IsList_frame ap _ _ _ hb.used (by rw [load_set_map, load_set_addr])
      (fun _ _ => by rw [load_set_map, load_set_addr])
      (fun _ _ => by rw [prv_set_map, prv_set_addr])
      (by rw [tqh_last_set_map, tqh_last_set_addr])
  refine ⟨?_, ?_, ?_, ?_, ?_, ?_, ?_⟩
  · have := IsList_insert_tail _ .free_list _ ks.length hfree2 hlen
    simpa [add_entry, List.range_succ] using this
  · exact IsList_insert_tail_other _ .free_list .used_list _ [] ks.length hfree2 hused2
      (by decide) (by simp) (by simp)
  · intro e i' j' he
    simp only [add_entry, adr_insert_tail, adr_set_map, adr_set_addr]
    by_cases hlt : e < ks.length
    · rw [List.getElem?_append_left hlt] at he
      have : e ≠ ks.length := by omega
      simp only [this, if_false]
      exact hb.adr_eq e i' j' he
    · rw [List.getElem?_append_right (by omega)] at he
      have he' : e = ks.length := by
        by_contra hne
        have : 1 ≤ e - ks.length := by omega
        rw [List.getElem?_eq_none (by simpa using this)] at he
        cases he
      subst he'
      simp only [Nat.sub_self, List.getElem?_cons_zero, Option.some.injEq, Prod.mk.injEq] at he
      obtain ⟨rfl, rfl⟩ := he
      simp [(hb.untouched ks.length (le_refl _)).1]
  · obtain ⟨m, hm, hme⟩ := hb.map_eq
    refine ⟨fun a b => if a = i ∧ b = j then some ks.length else m a b, ?_, ?_⟩
    · simp [add_entry, mapper_insert_tail, mapper_set_map, mapper_set_addr, hm]
    · intro i' j' e
      by_cases hij : i' = i ∧ j' = j
      · obtain ⟨rfl, rfl⟩ := hij
        simp only [and_self, if_true, Option.some.injEq]
        constructor
        · intro h; subst h
          rw [List.getElem?_append_right (le_refl _)]; simp
        · intro h
          by_cases hlt : e < ks.length
          · rw [List.getElem?_append_left hlt] at h
            exact absurd (List.mem_iff_getElem?.mpr ⟨e, h⟩) hfresh
          · rw [List.getElem?_append_right (by omega)] at h
            by_contra hne
            have : 1 ≤ e - ks.length := by omega
            rw [List.getElem?_eq_none (by simpa using this)] at h
            cases h
      · simp only [hij, if_false]
        rw [hme]
        by_cases hlt : e < ks.length
        · rw [List.getElem?_append_left hlt]
        · rw [List.getElem?_append_right (by omega), List.getElem?_eq_none_iff.mpr (by omega)]
          constructor
          · intro h; cases h
          · intro h
            have he' : e - ks.length = 0 := by
              by_contra hne
              have : 1 ≤ e - ks.length := by omega
              rw [List.getElem?_eq_none (by simpa using this)] at h
              cases h
            rw [he'] at h
            simp only [List.getElem?_cons_zero, Option.some.injEq, Prod.mk.injEq] at h
            exact absurd ⟨h.1.symm, h.2.symm⟩ hij
  · simp [add_entry, addr_base_insert_tail, addr_base_set_map, addr_base_set_addr, hb.base_eq]
  · simp [add_entry, num_addr_insert_tail, num_addr_set_map, num_addr_set_addr, hb.num_addr_eq]
  · intro e he
    simp only [List.length_append, List.length_singleton] at he
    have hne : e ≠ ks.length := by omega
    obtain ⟨h1, h2, h3⟩ := hb.untouched e (by omega)
    refine ⟨?_, ?_, ?_⟩
    · simp [add_entry, adr_insert_tail, adr_set_map, adr_set_addr, hne, h1]
    · simp only [add_entry, load_insert_tail, load_set_map, load_set_addr, tqh_last_set_map,
        tqh_last_set_addr]
      have h4 : Link.entry_next e ≠ tqh_last ap .free_list := by
        rw [hb.free.2.2]
        exact (end_cell_ne_entry .free_list _ e (by simp; omega)).symm
      simp [h4, hne, h2]
    · simp [add_entry, prv_insert_tail, prv_set_map, prv_set_addr, hne, h3]

theorem fill_append (base : Nat) (s : addr_pool × Nat) (l1 l2 : List (Nat × Nat)) :
    fill base s (l1 ++ l2) = fill base (fill base s l1) l2 := by
  induction l1 generalizing s with
  | nil => rfl
  | cons k l1 ih =>
    obtain ⟨ap, cnt⟩ := s
    obtain ⟨i, j⟩ := k
    simp only [List.cons_append, fill]
    exact ih _

theorem fill_snd (base : Nat) (s : addr_pool × Nat) (l : List (Nat × Nat)) :
    (fill base s l).2 = s.2 + l.length := by
  induction l generalizing s with
  | nil => rfl
  | cons k l ih =>
    obtain ⟨ap, cnt⟩ := s
    obtain ⟨i, j⟩ := k
    simp only [fill, ih, List.length_cons]
    omega

theorem fill_addr_base (base : Nat) (s : addr_pool × Nat) (l : List (Nat × Nat)) :
    (fill base s l).1.addr_base = s.1.addr_base := by
  induction l generalizing s with
  | nil => rfl
  | cons k l ih =>
    obtain ⟨ap, cnt⟩ := s
    obtain ⟨i, j⟩ := k
    simp only [fill, ih, add_entry, addr_base_insert_tail, addr_base_set_map, addr_base_set_addr]

theorem Built_fill (base : Nat) (n : Int) (ks' ks : List (Nat × Nat)) (ap : addr_pool)
    (hb : Built base n ks ap) (hnd : (ks ++ ks').Nodup) :
    Built base n (ks ++ ks') (fill base (ap, ks.length) ks').1 := by
  induction ks' generalizing ks ap with
  | nil => simpa [fill] using hb
  | cons k ks' ih =>
    obtain ⟨i, j⟩ := k
    have hfresh : (i, j) ∉ ks := by
      intro hmem
      have := (List.nodup_append.mp hnd).2.2
      exact this hmem (by simp)
    have h1 := Built_add base n ks ap i j hb hfresh
    have h2 := ih (ks ++ [(i, j)]) _ h1 (by simpa using hnd)
    simpa [fill] using h2

theorem port_count : MAX_PORT - MIN_PORT = 64511 := by decide

theorem length_tuple_rows (k i : Nat) : (tuple_rows k i).length = k * 64511 := by
  induction k generalizing i with
  | zero => simp [tuple_rows]
  | succ k ih =>
    simp only [tuple_rows, List.length_append, List.length_map, List.length_range', ih,
      port_count]
    ring

theorem mem_tuple_rows (k i a b : Nat) :
    (a, b) ∈ tuple_rows k i ↔ (i ≤ a ∧ a < i + k) ∧ 1025 ≤ b ∧ b < 65536 := by
  induction k generalizing i with
  | zero => simp only [tuple_rows, List.not_mem_nil, false_iff]; omega
  | succ k ih =>
    simp only [tuple_rows, List.mem_append, List.mem_map, List.mem_range'_1, Prod.mk.injEq, ih,
      MIN_PORT, MAX_PORT]
    constructor
    · rintro (⟨j, ⟨h1, h2⟩, rfl, rfl⟩ | h)
      · omega
      · omega
    · intro h
      by_cases ha : a = i
      · left; exact ⟨b, by omega, ha.symm, rfl⟩
      · right; omega

theorem nodup_tuple_rows (k i : Nat) : (tuple_rows k i).Nodup := by
  induction k generalizing i with
  | zero => simp [tuple_rows]
  | succ k ih =>
    simp only [tuple_rows]
    apply List.Nodup.append
    · apply List.Nodup.map
      · intro a b hab; simpa using hab
      · exact List.nodup_range' _ _
    · exact ih _
    · intro x hx hx'
      obtain ⟨a, b⟩ := x
      rw [mem_tuple_rows] at hx'
      simp only [List.mem_map, Prod.mk.injEq] at hx
      obtain ⟨_, _, h1, _⟩ := hx
      omega

theorem flat_inner_eq (base : Nat) (num_entry : Int) (i : Nat) (k j : Nat) (ap : addr_pool)
    (cnt : Nat) (hcap : ((cnt + k : Nat) : Int) ≤ num_entry) :
    CreateAddressPool_inner num_entry i (htonl ((base + i) % 4294967296)) k j (ap, cnt)
      = fill base (ap, cnt) ((List.range' j k).map (fun j => (i, j))) := by
  induction k generalizing j ap cnt with
  | zero => rfl
  | succ k ih =>
    simp only [CreateAddressPool_inner, List.range'_succ, List.map_cons, fill]
    split
    · rename_i hge
      have hk : k = 0 := by push_cast at hcap hge; omega
      subst hk
      rfl
    · exact ih _ _ _ (by push_cast at hcap ⊢; omega)

theorem flat_outer_eq (num_entry : Int) (k i : Nat) (s : addr_pool × Nat)
    (hcap : ((s.2 + k * 64511 : Nat) : Int) ≤ num_entry) :
    CreateAddressPool_outer num_entry k i s = fill s.1.addr_base s (tuple_rows k i) := by
  induction k generalizing i s with
  | zero => obtain ⟨ap, cnt⟩ := s; rfl
  | succ k ih =>
    obtain ⟨ap, cnt⟩ := s
    have hcap' : ((cnt + (k + 1) * 64511 : Nat) : Int) ≤ num_entry := hcap
    simp only [CreateAddressPool_outer, tuple_rows, fill_append]
    rw [flat_inner_eq ap.addr_base num_entry i _ _ ap cnt
      (by rw [port_count]; push_cast at hcap' ⊢; linarith)]
    rw [ih]
    · rw [fill_addr_base]
    · rw [fill_snd]
      simp only [List.length_map, List.length_range', port_count]
      push_cast at hcap' ⊢
      linarith

theorem percore_inner_eq (G : RSSFn) (ec : Nat) (core nq : Int) (base daddr_h dport_h : Nat)
    (num_entry : Int) (i k j : Nat) (s : addr_pool × Nat) :
    CreateAddressPoolPerCore_inner G ec core nq daddr_h dport_h num_entry i
        ((base + i) % 4294967296) (htonl ((base + i) % 4294967296)) k j s
      = fill base s ((((List.range' j k).map (fun j => (i, j))).filter
          (keeps G ec core nq base daddr_h dport_h)).take (num_entry.toNat - s.2)) := by
  induction k generalizing j s with
  | zero => obtain ⟨ap, cnt⟩ := s; simp [CreateAddressPoolPerCore_inner, fill]
  | succ k ih =>
    obtain ⟨ap, cnt⟩ := s
    simp only [CreateAddressPoolPerCore_inner, List.range'_succ, List.map_cons]
    split
    · rename_i hge
      have : num_entry.toNat - cnt = 0 := by omega
      rw [this]; rfl
    · rename_i hlt
      obtain ⟨m, hm⟩ : ∃ m, num_entry.toNat - cnt = m + 1 := ⟨num_entry.toNat - cnt - 1, by omega⟩
      split
      · rename_i hne
        have hk : keeps G ec core nq base daddr_h dport_h (i, j) = false := by
          simp [keeps, hne]
        rw [ih, List.filter_cons_of_neg (by simp [hk])]
      · rename_i heq
        have hk : keeps G ec core nq base daddr_h dport_h (i, j) = true := by
          simp only [ne_eq, not_not] at heq
          simp [keeps, heq]
        rw [ih, List.filter_cons_of_pos hk, hm, List.take_succ_cons]
        simp only [fill, htons_mod]
        have : num_entry.toNat - (cnt + 1) = m := by omega
        rw [this]

theorem percore_outer_eq (G : RSSFn) (ec : Nat) (core nq : Int) (daddr_h dport_h : Nat)
    (num_entry : Int) (k i : Nat) (s : addr_pool × Nat) :
    CreateAddressPoolPerCore_outer G ec core nq daddr_h dport_h num_entry k i s
      = fill s.1.addr_base s (((tuple_rows k i).filter
          (keeps G ec core nq s.1.addr_base daddr_h dport_h)).take (num_entry.toNat - s.2)) := by
  induction k generalizing i s with
  | zero => obtain ⟨ap, cnt⟩ := s; simp [CreateAddressPoolPerCore_outer, tuple_rows, fill]
  | succ k ih =>
    obtain ⟨ap, cnt⟩ := s
    simp only [CreateAddressPoolPerCore_outer, tuple_rows, List.filter_append,
      List.take_append_eq_append_take, fill_append]
    rw [percore_inner_eq G ec core nq ap.addr_base, ih, fill_addr_base, fill_snd]
    simp only [List.length_take]
    congr 2
    omega

theorem load_finish (ap : addr_pool) (a b c : Int) (l : Link) :
    load { ap with num_entry := a, num_free := b, num_used := c } l = load ap l := by
  cases l <;> rfl

theorem tqh_last_finish (ap : addr_pool) (a b c : Int) (h : tailq_id) :
    tqh_last { ap with num_entry := a, num_free := b, num_used := c } h = tqh_last ap h := by
  cases h <;> rfl

theorem PoolInv_of_Built (base : Nat) (n : Int) (ks : List (Nat × Nat)) (ap : addr_pool)
    (hb : Built base n ks ap)
    (hkeys : ∀ k ∈ ks, ((k.1 : Nat) : Int) < n ∧ k.1 < 4294967296 ∧ k.2 < 65536)
    (c : Nat) (hc : c = ks.length) :
    PoolInv { ap with num_entry := (c : Int), num_free := (c : Int), num_used := 0 }
      (List.range ks.length) [] := by
  subst hc
  refine ⟨⟨?_, ?_, ?_⟩, ?_, ?_, ?_, ?_⟩
  · exact IsList_frame ap _ _ _ hb.free (load_finish ap _ _ _ _)
      (fun _ _ => load_finish ap _ _ _ _) (fun _ _ => rfl) (tqh_last_finish ap _ _ _ _)
  · exact IsList_frame ap _ _ _ hb.used (load_finish ap _ _ _ _)
      (fun _ _ => load_finish ap _ _ _ _) (fun _ _ => rfl) (tqh_last_finish ap _ _ _ _)
  · simpa using List.nodup_range _
  · intro e; simp
  · simp
  · simp
  · obtain ⟨m, hm, hme⟩ := hb.map_eq
    refine ⟨m, hm, ?_⟩
    intro e he
    have he' : e < ks.length := by simpa using he
    have hget : ks[e]? = some (ks[e].1, ks[e].2) := by
      rw [List.getElem?_eq_getElem he']
    obtain ⟨hk1, hk2, hk3⟩ := hkeys ks[e] (List.getElem_mem he')
    have hadr : adr ap e = ⟨0, htons ks[e].2, htonl ((ap.addr_base + ks[e].1) % 4294967296)⟩ := by
      rw [hb.base_eq]
      exact hb.adr_eq e _ _ hget
    have hoff := map_offset_entry ap 0 (htons ks[e].2) ks[e].1 hk2
    rw [← hadr] at hoff
    show ((map_offset ap (adr ap e) : Nat) : Int) < ap.num_addr ∧
      m (map_offset ap (adr ap e)) (ntohs (adr ap e).sin_port) = some e
    rw [hoff]
    refine ⟨?_, ?_⟩
    · rw [hb.num_addr_eq]; exact hk1
    · rw [hadr]
      simp only [ntohs_htons, Nat.mod_eq_of_lt hk3]
      exact (hme _ _ e).mpr hget

theorem PoolInv_fill (base : Nat) (n : Int) (ks : List (Nat × Nat)) (hnd : ks.Nodup)
    (hkeys : ∀ k ∈ ks, ((k.1 : Nat) : Int) < n ∧ k.1 < 4294967296 ∧ k.2 < 65536) :
    let r := fill base (init_pool base n, 0) ks
    PoolInv { r.1 with num_entry := (r.2 : Int), num_free := (r.2 : Int), num_used := 0 }
      (List.range ks.length) [] := by
  intro r
  have hb := Built_fill base n ks [] _ (Built_init base n) (by simpa using hnd)
  simp only [List.nil_append, List.length_nil] at hb
  exact PoolInv_of_Built _ _ _ _ hb hkeys r.2 (by simp [r, fill_snd])

theorem CreateAddressPool_fill (addr_base : Nat) (n : Int) (h0 : 0 ≤ n) :
    CreateAddressPool_outer (n * ((MAX_PORT : Int) - (MIN_PORT : Int))) n.toNat 0
        (init_pool (ntohl addr_base) n, 0)
      = fill (ntohl addr_base) (init_pool (ntohl addr_base) n, 0) (tuple_rows n.toNat 0) := by
  rw [flat_outer_eq]
  · rfl
  · simp only [MAX_PORT, MIN_PORT]
    push_cast
    rw [Int.toNat_of_nonneg h0]
    norm_num

theorem keys_tuple_rows (n : Int) (ks : List (Nat × Nat))
    (hsub : ∀ k ∈ ks, k ∈ tuple_rows n.toNat 0) (h2 : n * 64511 < 2147483648) :
    ∀ k ∈ ks, ((k.1 : Nat) : Int) < n ∧ k.1 < 4294967296 ∧ k.2 < 65536 := by
  intro k hk
  obtain ⟨a, b⟩ := k
  have := (mem_tuple_rows _ _ a b).mp (hsub _ hk)
  simp only
  omega

theorem CreateAddressPool_inv (addr_base : Nat) (n : Int) (h1 : 1 ≤ n)
    (h2 : n * 64511 < 2147483648) :
    PoolInv (CreateAddressPool addr_base n) (List.range (n.toNat * 64511)) [] ∧
      (CreateAddressPool addr_base n).num_entry = n * 64511 := by
  have hkeys := keys_tuple_rows n (tuple_rows n.toNat 0) (fun _ h => h) h2
  have hinv := PoolInv_fill (ntohl addr_base) n _ (nodup_tuple_rows n.toNat 0) hkeys
  rw [length_tuple_rows] at hinv
  refine ⟨?_, ?_⟩
  · simp only [CreateAddressPool]
    rw [CreateAddressPool_fill addr_base n (by omega)]
    exact hinv
  · simp only [CreateAddressPool]
    rw [CreateAddressPool_fill addr_base n (by omega), fill_snd, length_tuple_rows]
    push_cast
    rw [Int.toNat_of_nonneg (by omega)]
    simp

theorem CreateAddressPoolPerCore_inv (G : RSSFn) (ec : Nat) (core nq : Int) (saddr_base : Nat)
    (n : Int) (daddr dport : Nat) (h2 : n * 64511 < 2147483648) :
    ∃ c, PoolInv (CreateAddressPoolPerCore G ec core nq saddr_base n daddr dport)
      (List.range c) [] := by
  have hsub : ∀ k ∈ ((tuple_rows n.toNat 0).filter
      (keeps G ec core nq (ntohl saddr_base) (ntohl daddr) (ntohs dport))).take
        ((Int.tdiv (n * ((MAX_PORT : Int) - (MIN_PORT : Int))) nq).toNat - 0),
      k ∈ tuple_rows n.toNat 0 :=
    fun k hk => List.mem_of_mem_filter (List.mem_of_mem_take hk)
  have hnd : (((tuple_rows n.toNat 0).filter
      (keeps G ec core nq (ntohl saddr_base) (ntohl daddr) (ntohs dport))).take
        ((Int.tdiv (n * ((MAX_PORT : Int) - (MIN_PORT : Int))) nq).toNat - 0)).Nodup :=
    List.Nodup.sublist ((List.take_sublist _ _).trans (List.filter_sublist _))
      (nodup_tuple_rows _ _)
  have hkeys := keys_tuple_rows n _ hsub h2
  have hinv := PoolInv_fill (ntohl saddr_base) n _ hnd hkeys
  refine ⟨(((tuple_rows n.toNat 0).filter
      (keeps G ec core nq (ntohl saddr_base) (ntohl daddr) (ntohs dport))).take
        ((Int.tdiv (n * ((MAX_PORT : Int) - (MIN_PORT : Int))) nq).toNat - 0)).length, ?_⟩
  simp only [CreateAddressPoolPerCore]
  rw [percore_outer_eq]
  exact hinv

theorem IsBuilt_inv (G : RSSFn) (ec : Nat) (ap0 : addr_pool) (hb : IsBuilt G ec ap0) :
    ∃ c, PoolInv ap0 (List.range c) [] := by
  cases hb with
  | flat addr_base n h1 h2 => exact ⟨_, (CreateAddressPool_inv addr_base n h1 h2).1⟩
  | per_core core nq saddr_base n daddr dport h1 h2 hq =>
    exact CreateAddressPoolPerCore_inv G ec core nq saddr_base n daddr dport h2

end build

/-! ## Runs of calls -/

section runs

theorem scan_mono (G : RSSFn) (ec : Nat) (ap : addr_pool) (core nq : Int) (d : sockaddr_in)
    (f f' : Nat) (w x : Option Nat) (hle : f ≤ f')
    (h : FetchAddress_scan G ec ap core nq d f w = some x) :
    FetchAddress_scan G ec ap core nq d f' w = some x := by
  induction f generalizing f' w with
  | zero =>
    cases w with
    | none => cases f' <;> simpa [FetchAddress_scan] using h
    | some v => simp [FetchAddress_scan] at h
  | succ f ih =>
    cases w with
    | none => cases f' <;> simpa [FetchAddress_scan] using h
    | some v =>
      cases f' with
      | zero => omega
      | succ f' =>
        simp only [FetchAddress_scan] at h ⊢
        split
        · rename_i hc; simpa [hc] using h
        · rename_i hc
          simp only [hc, if_false] at h
          exact ih f' _ (by omega) h

theorem FetchAddress_mono (G : RSSFn) (ec : Nat) (ap : addr_pool) (core nq : Int)
    (d sa : sockaddr_in) (f f' : Nat) (res : Int × addr_pool × sockaddr_in) (hle : f ≤ f')
    (h : FetchAddress G ec f ap core nq d sa = some res) :
    FetchAddress G ec f' ap core nq d sa = some res := by
  unfold FetchAddress at h ⊢
  cases hs : FetchAddress_scan G ec ap core nq d f (load ap .free_first) with
  | none => simp [hs] at h
  | some x =>
    rw [scan_mono G ec ap core nq d f f' _ x hle hs]
    rw [hs] at h
    exact h

/-- The two outcomes of a `FetchAddress` call that returns, on a pool in valid use. -/
theorem fetch_cases (G : RSSFn) (ec fuel : Nat) (ap : addr_pool) (fl ul : List Nat)
    (core nq : Int) (d sa : sockaddr_in) (r : Int) (ap' : addr_pool) (t : sockaddr_in)
    (hinv : PoolInv ap fl ul) (h : FetchAddress G ec fuel ap core nq d sa = some (r, ap', t)) :
    (r = -1 ∧ ap' = ap ∧ t = sa ∧ ∀ x ∈ fl, ¬ fetch_core G ec ap nq d x = core) ∨
    (r = 0 ∧ ∃ l1 e l2, fl = l1 ++ e :: l2 ∧ (∀ x ∈ l1, ¬ fetch_core G ec ap nq d x = core) ∧
      fetch_core G ec ap nq d e = core ∧ t = adr ap e ∧ PoolInv ap' (l1 ++ l2) (ul ++ [e]) ∧
      (∀ x, adr ap' x = adr ap x) ∧
      ap'.num_free = ap.num_free - 1 ∧ ap'.num_used = ap.num_used + 1) := by
  have hbig := FetchAddress_mono G ec ap core nq d sa fuel (max fuel fl.length) _
    (le_max_left _ _) h
  by_cases hex : ∃ e ∈ fl, fetch_core G ec ap nq d e = core
  · right
    obtain ⟨l1, e, l2, hfl, hno, he⟩ := exists_first _ fl hex
    subst hfl
    obtain ⟨ap'', hf, hl, h1, h2, h3, h4, h5, h6, h7, _⟩ :=
      fetch_found G ec (max fuel (l1 ++ e :: l2).length) ap l1 l2 ul e core nq d sa hinv.lists
        (le_max_right _ _) hno he
    rw [hf] at hbig
    simp only [Option.some.injEq, Prod.mk.injEq] at hbig
    obtain ⟨hr, hap, ht⟩ := hbig
    subst hap
    refine ⟨hr.symm, l1, e, l2, rfl, hno, he, ht.symm, ?_, h7, h1, h2⟩
    apply PoolInv_of_frame ap ap'' _ _ _ _ hinv hl _ _ _ h3 h4 h5 h6 h7
    · intro x; simp only [List.mem_append, List.mem_cons, List.mem_singleton]; tauto
    · rw [h1, hinv.num_free_eq]
      simp only [List.length_append, List.length_cons]
      push_cast; omega
    · rw [h2, hinv.num_used_eq]
      simp
  · left
    have hno : ∀ x ∈ fl, ¬ fetch_core G ec ap nq d x = core :=
      fun x hx hc => hex ⟨x, hx, hc⟩
    have hf := fetch_not_found G ec (max fuel fl.length) ap fl ul core nq d sa hinv.lists
      (le_max_right _ _) hno
    rw [hf] at hbig
    simp only [Option.some.injEq, Prod.mk.injEq] at hbig
    exact ⟨hbig.1.symm, hbig.2.1.symm, hbig.2.2.symm, hno⟩

theorem adr_inj (ap : addr_pool) (fl ul : List Nat) (hinv : PoolInv ap fl ul) (e1 e2 : Nat)
    (h1 : e1 ∈ fl ++ ul) (h2 : e2 ∈ fl ++ ul) (heq : adr ap e1 = adr ap e2) : e1 = e2 := by
  obtain ⟨m, _, hme⟩ := hinv.map_entry
  have a1 := (hme e1 ((hinv.mem_iff e1).mp h1)).2
  have a2 := (hme e2 ((hinv.mem_iff e2).mp h2)).2
  rw [heq, a2] at a1
  exact (Option.some.inj a1).symm

theorem erase_map_adr (ap : addr_pool) (fl ul : List Nat) (hinv : PoolInv ap fl ul)
    (l1 l2 : List Nat) (e : Nat) (hul : ul = l1 ++ e :: l2) :
    (ul.map (adr ap)).erase (adr ap e) = (l1 ++ l2).map (adr ap) := by
  subst hul
  have hnd := (List.nodup_append.mp hinv.lists.nodup).2.1
  have hnot : adr ap e ∉ l1.map (adr ap) := by
    intro hmem
    obtain ⟨x, hx, hxe⟩ := List.mem_map.mp hmem
    have : x = e := adr_inj ap fl _ hinv x e (by simp [hx]) (by simp) hxe
    subst this
    have := (List.nodup_append.mp hnd).2.2
    exact this hx (by simp)
  rw [List.map_append, List.map_cons, List.erase_append_right _ hnot, List.erase_cons_head,
    List.map_append]

/-- A tuple in use is the tuple of an entry of the used list, and freeing it moves
that entry to the tail of the free list. -/
theorem free_cases (fuel : Nat) (ap : addr_pool) (fl ul : List Nat) (t : sockaddr_in)
    (hinv : PoolInv ap fl ul) (ht : t ∈ ul.map (adr ap)) :
    ∃ l1 e l2 ap', ul = l1 ++ e :: l2 ∧ adr ap e = t ∧
      FreeAddress fuel ap t = some (0, ap') ∧ PoolInv ap' (fl ++ [e]) (l1 ++ l2) ∧
      ap'.num_free = ap.num_free + 1 ∧ ap'.num_used = ap.num_used - 1 ∧
      (∀ x, adr ap' x = adr ap x) ∧
      (ul.map (adr ap)).erase t = (l1 ++ l2).map (adr ap') := by
  obtain ⟨e, he, hte⟩ := List.mem_map.mp ht
  obtain ⟨l1, l2, hul⟩ := List.append_of_mem he
  subst hul
  obtain ⟨ap', hf, hinv', h1, h2, h3⟩ := free_in_use fuel ap fl l1 l2 e hinv
  refine ⟨l1, e, l2, ap', rfl, hte, hte ▸ hf, hinv', h1, h2, h3, ?_⟩
  rw [← hte, erase_map_adr ap fl _ hinv l1 l2 e rfl]
  exact List.map_congr_left (fun x _ => (h3 x).symm)

/-- Every state of a run in valid use satisfies the pool invariant, and the tuples
in use are the tuples of the used list, in order. -/
theorem ValidRun_inv (G : RSSFn) (ec : Nat) (ap0 ap : addr_pool) (out : List sockaddr_in)
    (h0 : ∃ c, PoolInv ap0 (List.range c) []) (hr : ValidRun G ec ap0 ap out) :
    ∃ fl ul, PoolInv ap fl ul ∧ out = ul.map (adr ap) := by
  induction hr with
  | start =>
    obtain ⟨c, hc⟩ := h0
    exact ⟨_, _, hc, rfl⟩
  | fetch ap out fuel core nq d sa r ap' t _ hf ih =>
    obtain ⟨fl, ul, hinv, hout⟩ := ih
    rcases fetch_cases G ec fuel ap fl ul core nq d sa r ap' t hinv hf with
      ⟨hr, hap, _, _⟩ | ⟨hr, l1, e, l2, _, _, _, ht, hinv', hadr, _, _⟩
    · subst hap
      have : ¬ r = 0 := by omega
      simp only [this, if_false]
      exact ⟨fl, ul, hinv, hout⟩
    · simp only [hr, if_true]
      refine ⟨_, _, hinv', ?_⟩
      rw [hout, ht, List.map_append, List.map_singleton, hadr e]
      congr 1
      exact List.map_congr_left (fun x _ => (hadr x).symm)
  | free ap out fuel t r ap' _ ht hf ih =>
    obtain ⟨fl, ul, hinv, hout⟩ := ih
    subst hout
    obtain ⟨l1, e, l2, ap'', _, _, hf', hinv', _, _, _, herase⟩ :=
      free_cases fuel ap fl ul t hinv ht
    rw [hf'] at hf
    simp only [Option.some.injEq, Prod.mk.injEq] at hf
    obtain ⟨_, hap⟩ := hf
    subst hap
    exact ⟨_, _, hinv', herase⟩

theorem fetch_counters (G : RSSFn) (ec fuel : Nat) (ap : addr_pool) (core nq : Int)
    (d sa : sockaddr_in) (r : Int) (ap' : addr_pool) (t : sockaddr_in)
    (h : FetchAddress G ec fuel ap core nq d sa = some (r, ap', t)) :
    ap'.num_free + ap'.num_used = ap.num_free + ap.num_used ∧ ap'.num_entry = ap.num_entry := by
  unfold FetchAddress at h
  cases hs : FetchAddress_scan G ec ap core nq d fuel (load ap .free_first) with
  | none => simp [hs] at h
  | some x =>
    cases x with
    | none =>
      simp only [hs, Option.some.injEq, Prod.mk.injEq] at h
      obtain ⟨_, hap, _⟩ := h
      subst hap
      exact ⟨rfl, rfl⟩
    | some w =>
      simp only [hs] at h
      cases hrm : TAILQ_REMOVE ap .free_list w with
      | none => simp [hrm] at h
      | some ap1 =>
        simp only [hrm, Option.some.injEq, Prod.mk.injEq] at h
        obtain ⟨_, hap, _⟩ := h
        subst hap
        simp only [num_free_insert_tail, num_used_insert_tail, num_entry_insert_tail,
          num_free_remove ap ap1 _ w hrm, num_used_remove ap ap1 _ w hrm,
          num_entry_remove ap ap1 _ w hrm]
        exact ⟨by ring, trivial⟩

theorem free_counters (fuel : Nat) (ap : addr_pool) (t : sockaddr_in) (r : Int)
    (ap' : addr_pool) (h : FreeAddress fuel ap t = some (r, ap')) :
    ap'.num_free + ap'.num_used = ap.num_free + ap.num_used ∧ ap'.num_entry = ap.num_entry := by
  unfold FreeAddress at h
  cases hs : FreeAddress_lookup fuel ap t with
  | none => simp [hs] at h
  | some x =>
    cases x with
    | none =>
      simp only [hs, Option.some.injEq, Prod.mk.injEq] at h
      obtain ⟨_, hap⟩ := h
      subst hap
      exact ⟨rfl, rfl⟩
    | some w =>
      simp only [hs] at h
      cases hrm : TAILQ_REMOVE ap .used_list w with
      | none => simp [hrm] at h
      | some ap1 =>
        simp only [hrm, Option.some.injEq, Prod.mk.injEq] at h
        obtain ⟨_, hap⟩ := h
        subst hap
        simp only [num_free_insert_tail, num_used_insert_tail, num_entry_insert_tail,
          num_free_remove ap ap1 _ w hrm, num_used_remove ap ap1 _ w hrm,
          num_entry_remove ap ap1 _ w hrm]
        exact ⟨by ring, trivial⟩

theorem Reaches_iff (ap : addr_pool) (p : Link) (l : List Nat) (e : Nat) (hs : Seg ap p l)
    (hend : load ap (end_cell p l) = none) : Reaches ap p e ↔ e ∈ l := by
  induction l generalizing p with
  | nil =>
    have h0 : load ap p = none := hend
    constructor
    · intro h
      cases h with
      | here _ _ h1 => rw [h0] at h1; cases h1
      | next _ x _ h1 _ => rw [h0] at h1; cases h1
    · intro h; simp at h
  | cons a l ih =>
    have h0 : load ap p = some a := hs.1
    constructor
    · intro h
      cases h with
      | here _ _ h1 =>
        rw [h0] at h1
        simp [Option.some.inj h1]
      | next _ x _ h1 h2 =>
        rw [h0] at h1
        have hx : a = x := Option.some.inj h1
        subst hx
        exact List.mem_cons_of_mem _ ((ih _ hs.2.2 hend).mp h2)
    · intro h
      rcases List.mem_cons.mp h with h | h
      · subst h; exact Reaches.here _ _ h0
      · exact Reaches.next _ a _ h0 ((ih _ hs.2.2 hend).mpr h)

theorem Reaches_congr (ap ap' : addr_pool) (hload : ∀ c, load ap' c = load ap c) (p : Link)
    (e : Nat) (h : Reaches ap' p e) : Reaches ap p e := by
  induction h with
  | here c e h1 => exact Reaches.here c e (by rw [← hload]; exact h1)
  | next c x e h1 _ ih => exact Reaches.next c x e (by rw [← hload]; exact h1) ih

theorem OnList_iff (ap : addr_pool) (h : tailq_id) (l : List Nat) (e : Nat)
    (hl : IsList ap h l) : OnList ap h e ↔ e ∈ l :=
  Reaches_iff ap _ l e hl.1 hl.2.1

theorem IsBuilt_counters (G : RSSFn) (ec : Nat) (ap0 : addr_pool) (hb : IsBuilt G ec ap0) :
    ap0.num_free = ap0.num_entry ∧ ap0.num_used = 0 := by
  cases hb <;> exact ⟨rfl, rfl⟩

theorem IsBuilt_num_entry (G : RSSFn) (ec : Nat) (ap0 : addr_pool) (hb : IsBuilt G ec ap0) :
    0 ≤ ap0.num_entry := by
  cases hb <;> exact Int.ofNat_zero_le _

theorem Run_counters (G : RSSFn) (ec : Nat) (ap0 ap : addr_pool) (hr : Run G ec ap0 ap) :
    ap.num_free + ap.num_used = ap0.num_free + ap0.num_used ∧ ap.num_entry = ap0.num_entry := by
  induction hr with
  | start => exact ⟨rfl, rfl⟩
  | fetch ap fuel core nq d sa r ap' t _ hf ih =>
    have := fetch_counters G ec fuel ap core nq d sa r ap' t hf
    exact ⟨this.1.trans ih.1, this.2.trans ih.2⟩
  | free ap fuel t r ap' _ hf ih =>
    have := free_counters fuel ap t r ap' hf
    exact ⟨this.1.trans ih.1, this.2.trans ih.2⟩

theorem fetch_core_congr (G : RSSFn) (ec : Nat) (ap ap' : addr_pool) (nq : Int)
    (d : sockaddr_in) (e : Nat) (h : adr ap' e = adr ap e) :
    fetch_core G ec ap' nq d e = fetch_core G ec ap nq d e := by
  simp only [fetch_core, h]

/-- Fetch, then free the returned tuple, then fetch again, from a pool in valid use. -/
theorem round_trip (G : RSSFn) (ec fuel fuel1 fuel2 : Nat) (ap : addr_pool) (fl ul : List Nat)
    (core nq : Int) (d sa sa2 : sockaddr_in) (ap1 : addr_pool) (t : sockaddr_in)
    (hinv : PoolInv ap fl ul)
    (hf : FetchAddress G ec fuel ap core nq d sa = some (0, ap1, t))
    (hfuel2 : ap.num_free ≤ ((fuel2 : Nat) : Int)) :
    ∃ ap2 e, FreeAddress fuel1 ap1 t = some (0, ap2) ∧
      ap2.num_free = ap.num_free ∧ ap2.num_used = ap.num_used ∧
      adr ap2 e = t ∧ OnList ap2 .free_list e ∧ ¬ OnList ap2 .used_list e ∧
      ∃ ap3 t', FetchAddress G ec fuel2 ap2 core nq d sa2 = some (0, ap3, t') := by
  rcases fetch_cases G ec fuel ap fl ul core nq d sa 0 ap1 t hinv hf with
    ⟨hr, _⟩ | ⟨_, l1, e, l2, hfl, _, he, ht, hinv1, hadr1, hnf1, hnu1⟩
  · omega
  · have hinv1' : PoolInv ap1 (l1 ++ l2) (ul ++ e :: []) := hinv1
    obtain ⟨ap2, hfree, hinv2, hnf2, hnu2, hadr2⟩ :=
      free_in_use fuel1 ap1 (l1 ++ l2) ul [] e hinv1'
    have hte : adr ap1 e = t := by rw [hadr1, ht]
    rw [hte] at hfree
    have hmem : e ∈ l1 ++ l2 ++ [e] := by simp
    have hcore : fetch_core G ec ap2 nq d e = core := by
      rw [fetch_core_congr G ec ap ap2 nq d e (by rw [hadr2, hadr1])]; exact he
    obtain ⟨m1, e', m2, hsplit, hno, he'⟩ :=
      exists_first (fun x => fetch_core G ec ap2 nq d x = core) _ ⟨e, hmem, hcore⟩
    have hlen : (m1 ++ e' :: m2).length ≤ fuel2 := by
      rw [← hsplit]
      have h1 := hinv2.num_free_eq
      have h2 : ap2.num_free = ap.num_free := by rw [hnf2, hnf1]; ring
      rw [h2] at h1
      rw [h1] at hfuel2
      exact_mod_cast hfuel2
    have hl2 := hinv2.lists
    rw [hsplit] at hl2
    obtain ⟨ap3, hf3, _⟩ := fetch_found G ec fuel2 ap2 m1 m2 _ e' core nq d sa2 hl2 hlen hno he'
    refine ⟨ap2, e, hfree, by rw [hnf2, hnf1]; ring, by rw [hnu2, hnu1]; ring, ?_, ?_, ?_,
      ap3, _, hf3⟩
    · rw [hadr2, hte]
    · exact (OnList_iff ap2 _ _ e hinv2.lists.free).mpr hmem
    · rw [OnList_iff ap2 _ _ e hinv2.lists.used]
      intro hmem'
      have := (List.nodup_append.mp hinv2.lists.nodup).2.2
      exact this hmem hmem'

/-- Freeing the tuple of the entry at the tail of the free list: the call succeeds
and the entry ends up on neither list. -/
theorem free_last_free (fuel : Nat) (ap : addr_pool) (l1 ul : List Nat) (e : Nat)
    (hinv : PoolInv ap (l1 ++ [e]) ul) :
    ∃ ap', FreeAddress fuel ap (adr ap e) = some (0, ap') ∧
      ¬ OnList ap' .free_list e ∧ ¬ OnList ap' .used_list e ∧
      ap'.num_entry = ap.num_entry := by
  have he : ((e : Nat) : Int) < ap.num_entry := (hinv.mem_iff e).mp (by simp)
  have hlook := lookup_entry fuel ap _ ul e hinv he
  have hfreeL := hinv.lists.free
  obtain ⟨_, hprv⟩ := IsList_mem_prv ap .free_list l1 [] e hfreeL
  have hnext := IsList_next ap .free_list l1 [] e hfreeL
  simp only [List.head?_nil] at hnext
  obtain ⟨ap1, hr⟩ := remove_some ap .used_list e _ hprv
  have L1 := load_remove ap ap1 .used_list e _ hprv hr
  have P1 := prv_remove ap ap1 .used_list e _ hprv hr
  have T1 := tqh_last_remove ap ap1 .used_list e _ hprv hr .free_list
  have hlast : tqh_last ap1 .free_list = .entry_next e := by
    rw [T1]
    simp only [reduceCtorEq, false_and, if_false]
    rw [hfreeL.2.2, end_cell_append]; rfl
  have hnd := hinv.lists.nodup
  have hnd1 : (l1 ++ [e]).Nodup := (List.nodup_append.mp hnd).1
  have he1 : e ∉ l1 := by
    intro hmem
    exact (List.nodup_append.mp hnd1).2.2 hmem (by simp)
  have heu : e ∉ ul := by
    intro hmem
    exact (List.nodup_append.mp hnd).2.2 (by simp) hmem
  have hpe : end_cell (first_cell .free_list) l1 ≠ .entry_next e :=
    end_cell_ne_entry .free_list l1 e he1
  have L2 : ∀ c, load (TAILQ_INSERT_TAIL ap1 .free_list e) c
      = if c = .entry_next e then some e
        else if c = end_cell (first_cell .free_list) l1 then none else load ap c := by
    intro c
    rw [load_insert_tail, hlast, L1, hnext]
    by_cases hc : c = .entry_next e <;> simp [hc]
  have P2 : ∀ x, x ≠ e → prv (TAILQ_INSERT_TAIL ap1 .free_list e) x = prv ap x := by
    intro x hx
    rw [prv_insert_tail, P1, hnext]
    simp [hx]
  have hseg := (Seg_append ap _ l1 [e]).mp hfreeL.1
  refine ⟨{ TAILQ_INSERT_TAIL ap1 .free_list e with
      num_free := (TAILQ_INSERT_TAIL ap1 .free_list e).num_free + 1,
      num_used := (TAILQ_INSERT_TAIL ap1 .free_list e).num_used - 1 }, ?_, ?_, ?_, ?_⟩
  · simp only [FreeAddress, hlook, hr]
  · have hs : Seg (TAILQ_INSERT_TAIL ap1 .free_list e) (first_cell .free_list) l1 := by
      apply Seg_frame ap _ _ l1 hseg.1
      · intro c hc
        rw [L2]
        have h1 : c ≠ .entry_next e := by
          rcases mem_rcells _ _ c hc with hc | ⟨x, hx, hc⟩
          · rw [hc]; exact first_cell_ne_entry _ e
          · rw [hc]; intro heq; injection heq with heq; exact he1 (heq ▸ hx)
        have h2 : c ≠ end_cell (first_cell .free_list) l1 := by
          intro heq
          exact end_cell_not_mem_rcells _ l1 (List.nodup_append.mp hnd1).1
            (fun x _ => first_cell_ne_entry _ x) (heq ▸ hc)
        simp [h1, h2]
      · intro x hx
        exact P2 x (fun heq => he1 (heq ▸ hx))
    have hend : load (TAILQ_INSERT_TAIL ap1 .free_list e)
        (end_cell (first_cell .free_list) l1) = none := by
      rw [L2]; simp [hpe]
    intro hon
    exact he1 ((Reaches_iff _ _ l1 e hs hend).mp
      (Reaches_congr _ _ (load_counters _ _ _) _ e hon))
  · have hul := hinv.lists.used
    have hcell : ∀ c, (c = first_cell .used_list ∨ ∃ x ∈ ul, c = .entry_next x) →
        load (TAILQ_INSERT_TAIL ap1 .free_list e) c = load ap c := by
      intro c hc
      rw [L2]
      have h1 : c ≠ .entry_next e := by
        rcases hc with hc | ⟨x, hx, hc⟩
        · rw [hc]; exact first_cell_ne_entry _ e
        · rw [hc]; intro heq; injection heq with heq; exact heu (heq ▸ hx)
      have h2 : c ≠ end_cell (first_cell .free_list) l1 := by
        rcases end_cell_cases (first_cell .free_list) l1 with hc2 | ⟨y, hy, hc2⟩
        · rw [hc2]
          rcases hc with hc | ⟨x, _, hc⟩
          · rw [hc]; decide
          · rw [hc]; exact (first_cell_ne_entry _ x).symm
        · rw [hc2]
          rcases hc with hc | ⟨x, hx, hc⟩
          · rw [hc]; exact first_cell_ne_entry _ y
          · rw [hc]; intro heq; injection heq with heq
            exact (List.nodup_append.mp hnd).2.2 (by simp [hy]) (heq ▸ hx)
      simp [h1, h2]
    have hs : Seg (TAILQ_INSERT_TAIL ap1 .free_list e) (first_cell .used_list) ul :=
      Seg_frame ap _ _ ul hul.1 (fun c hc => hcell c (mem_rcells _ _ c hc))
        (fun x hx => P2 x (fun heq => heu (heq ▸ hx)))
    have hend : load (TAILQ_INSERT_TAIL ap1 .free_list e)
        (end_cell (first_cell .used_list) ul) = none := by
      rw [hcell _ (end_cell_cases _ ul)]; exact hul.2.1
    intro hon
    exact heu ((Reaches_iff _ _ ul e hs hend).mp
      (Reaches_congr _ _ (load_counters _ _ _) _ e hon))
  · simp [num_entry_insert_tail, num_entry_remove ap ap1 _ e hr]

theorem CreateAddressPool_fields (b : Nat) (n : Int) (h0 : 0 ≤ n) :
    (CreateAddressPool b n).addr_base = ntohl b ∧ (CreateAddressPool b n).num_addr = n ∧
    (∃ m, (CreateAddressPool b n).mapper = some m ∧
      ∀ i j e, m i j = some e ↔ (tuple_rows n.toNat 0)[e]? = some (i, j)) ∧
    ∀ e i j, (tuple_rows n.toNat 0)[e]? = some (i, j) →
      adr (CreateAddressPool b n) e = ⟨0, htons j, htonl ((ntohl b + i) % 4294967296)⟩ := by
  have hb := Built_fill (ntohl b) n (tuple_rows n.toNat 0) [] _ (Built_init (ntohl b) n)
    (by simpa using nodup_tuple_rows n.toNat 0)
  simp only [List.nil_append, List.length_nil] at hb
  simp only [CreateAddressPool]
  rw [CreateAddressPool_fill b n h0]
  exact ⟨hb.base_eq, hb.num_addr_eq, hb.map_eq, hb.adr_eq⟩

theorem flat_example_inv : PoolInv flat_example (List.range 64511) [] :=
  (CreateAddressPool_inv 0x0100000a 1 (by norm_num) (by norm_num)).1

theorem tuple_rows_one (e : Nat) (he : e < 64511) :
    (tuple_rows (Int.toNat 1) 0)[e]? = some (0, 1025 + e) := by
  have h1 : Int.toNat 1 = 1 := rfl
  rw [h1]
  simp only [tuple_rows, List.append_nil, List.getElem?_map, MIN_PORT, MAX_PORT]
  rw [List.getElem?_range' _ _ (by omega)]
  simp

theorem flat_example_adr (e : Nat) (he : e < 64511) :
    adr flat_example e = ⟨0, htons (1025 + e), 0x0100000a⟩ := by
  have h := (CreateAddressPool_fields 0x0100000a 1 (by norm_num)).2.2.2 e 0 (1025 + e)
    (tuple_rows_one e he)
  have h2 : htonl ((ntohl 0x0100000a + 0) % 4294967296) = 0x0100000a := by decide
  rw [h2] at h
  exact h

theorem small_example_lists : PoolLists small_example [0, 1] [] :=
  ⟨⟨⟨rfl, rfl, rfl, rfl, trivial⟩, rfl, rfl⟩, ⟨trivial, rfl, rfl⟩, by decide⟩

theorem flat_example_built : IsBuilt rss_zero 1 flat_example :=
  IsBuilt.flat 0x0100000a 1 (by norm_num) (by norm_num)

theorem flat_example_counts :
    flat_example.num_entry = 64511 ∧ flat_example.num_free = 64511 ∧
      flat_example.num_used = 0 := by
  have h := (CreateAddressPool_inv 0x0100000a 1 (by norm_num) (by norm_num)).2
  have h1 : flat_example.num_entry = 64511 := by
    unfold flat_example; rw [h]; norm_num
  obtain ⟨h2, h3⟩ := IsBuilt_counters rss_zero 1 flat_example flat_example_built
  exact ⟨h1, h2.trans h1, h3⟩

theorem fetch_core_rss_zero (ec : Nat) (ap : addr_pool) (nq : Int) (d : sockaddr_in) (e : Nat) :
    fetch_core rss_zero ec ap nq d e = 0 := rfl

theorem fetch_example :
    ∃ ap', FetchAddress rss_zero 1 64511 flat_example 0 1 dest_example ⟨0, 0, 0⟩
      = some (0, ap', first_tuple) := by
  have hinv := flat_example_inv
  have hrange : List.range 64511 = [] ++ 0 :: List.range' 1 64510 := by
    rw [List.range_eq_range', List.nil_append]
    exact List.range'_succ 0 64510 1
  rw [hrange] at hinv
  have hlen : ([] ++ 0 :: List.range' 1 64510).length ≤ 64511 := by
    rw [List.nil_append, List.length_cons, List.length_range']
  obtain ⟨ap', hf, _⟩ := fetch_found rss_zero 1 64511 flat_example [] (List.range' 1 64510) []
    0 0 1 dest_example ⟨0, 0, 0⟩ hinv.lists hlen (by simp)
    (fetch_core_rss_zero 1 flat_example 1 dest_example 0)
  have ht : adr flat_example 0 = first_tuple := flat_example_adr 0 (by norm_num)
  rw [ht] at hf
  exact ⟨ap', hf⟩

theorem fetch_example_run (ap' : addr_pool)
    (hf : FetchAddress rss_zero 1 64511 flat_example 0 1 dest_example ⟨0, 0, 0⟩
      = some (0, ap', first_tuple)) :
    ValidRun rss_zero 1 flat_example ap' [first_tuple] := by
  have h := ValidRun.fetch flat_example [] 64511 0 1 dest_example ⟨0, 0, 0⟩ 0 ap'
    first_tuple ValidRun.start hf
  simpa using h

theorem free_out_of_range (fuel : Nat) (ap : addr_pool) (addr : sockaddr_in)
    (m : Nat → Nat → Option Nat) (hm : ap.mapper = some m) (h0 : 0 ≤ ap.num_addr)
    (hoff : ap.num_addr ≤ ((map_offset ap addr : Nat) : Int)) :
    FreeAddress fuel ap addr = none ∧
      FreeAddress_guard (to_int32 (map_offset ap addr)) ap.num_addr = true := by
  have hg : FreeAddress_guard (to_int32 (map_offset ap addr)) ap.num_addr = true := by
    simp only [FreeAddress_guard, Bool.or_eq_true, decide_eq_true_eq]
    by_cases h : to_int32 (map_offset ap addr) ≥ 0
    · left; exact h
    · right; omega
  refine ⟨?_, hg⟩
  have hnot : ¬ ((map_offset ap addr : Nat) : Int) < ap.num_addr := by omega
  simp only [FreeAddress, FreeAddress_lookup, hm, hg, hnot, if_true, if_false]

theorem flat_example_mapper : ∃ m, flat_example.mapper = some m :=
  let ⟨m, hm, _⟩ := (CreateAddressPool_fields 0x0100000a 1 (by norm_num)).2.2.1
  ⟨m, hm⟩

theorem flat_example_num_addr : flat_example.num_addr = 1 :=
  (CreateAddressPool_fields 0x0100000a 1 (by norm_num)).2.1

theorem flat_example_offset (f p a : Nat) :
    map_offset flat_example ⟨f, p, a⟩
      = (ntohl a + 4294967296 - ntohl 0x0100000a % 4294967296) % 4294967296 := by
  have h : flat_example.addr_base = ntohl 0x0100000a :=
    (CreateAddressPool_fields 0x0100000a 1 (by norm_num)).1
  simp only [map_offset, h]

theorem flat_example_out_of_range (t : sockaddr_in)
    (hoff : 1 ≤ (ntohl t.sin_addr + 4294967296 - ntohl 0x0100000a % 4294967296) % 4294967296) :
    FreeAddress 0 flat_example t = none ∧
      FreeAddress_guard (to_int32 (map_offset flat_example t)) flat_example.num_addr = true := by
  obtain ⟨m, hm⟩ := flat_example_mapper
  apply free_out_of_range 0 flat_example t m hm
  · rw [flat_example_num_addr]; norm_num
  · rw [flat_example_num_addr, flat_example_offset]
    exact_mod_cast hoff

/-- After a fetch from a pool in valid use, the returned tuple can be freed once
with success, and a second free of the same tuple succeeds as well and moves the
counters again. -/
theorem free_twice (G : RSSFn) (ec fuel f1 f2 : Nat) (ap : addr_pool) (fl ul : List Nat)
    (core nq : Int) (d sa : sockaddr_in) (ap1 : addr_pool) (t : sockaddr_in)
    (hinv : PoolInv ap fl ul)
    (hf : FetchAddress G ec fuel ap core nq d sa = some (0, ap1, t)) :
    ∃ ap2 ap3, FreeAddress f1 ap1 t = some (0, ap2) ∧
      ap2.num_free = ap.num_free ∧ ap2.num_used = ap.num_used ∧
      FreeAddress f2 ap2 t = some (0, ap3) ∧
      ap3.num_free = ap.num_free + 1 ∧ ap3.num_used = ap.num_used - 1 := by
  rcases fetch_cases G ec fuel ap fl ul core nq d sa 0 ap1 t hinv hf with
    ⟨hr, _⟩ | ⟨_, l1, e, l2, _, _, _, ht, hinv1, hadr1, hnf1, hnu1⟩
  · omega
  · have hinv1' : PoolInv ap1 (l1 ++ l2) (ul ++ e :: []) := hinv1
    obtain ⟨ap2, hfree, hinv2, hnf2, hnu2, hadr2⟩ :=
      free_in_use f1 ap1 (l1 ++ l2) ul [] e hinv1'
    have hte : adr ap1 e = t := by rw [hadr1, ht]
    have hinv2' : PoolInv ap2 ((l1 ++ l2) ++ e :: []) (ul ++ []) := hinv2
    obtain ⟨ap3, hfree2, hnf3, hnu3⟩ := free_not_in_use f2 ap2 (l1 ++ l2) [] (ul ++ []) e hinv2'
    have hte2 : adr ap2 e = t := by rw [hadr2, hte]
    rw [hte] at hfree
    rw [hte2] at hfree2
    refine ⟨ap2, ap3, hfree, ?_, ?_, hfree2, ?_, ?_⟩
    · rw [hnf2, hnf1]; ring
    · rw [hnu2, hnu1]; ring
    · rw [hnf3, hnf2, hnf1]; ring
    · rw [hnu3, hnu2, hnu1]; ring

end runs

/-! ## Calls always return, also after misuse -/

section links

theorem Seg_prv (ap : addr_pool) (p : Link) (l : List Nat) (hs : Seg ap p l) (x : Nat)
    (hx : x ∈ l) : ∃ c ∈ rcells p l, prv ap x = some c := by
  induction l generalizing p with
  | nil => simp at hx
  | cons a l ih =>
    rcases List.mem_cons.mp hx with h | h
    · subst h; exact ⟨p, by simp [rcells], hs.2.1⟩
    · obtain ⟨c, hc, hp⟩ := ih _ hs.2.2 h
      exact ⟨c, by simp [rcells, hc], hp⟩

theorem Seg_load (ap : addr_pool) (p : Link) (l : List Nat) (hs : Seg ap p l)
    (hend : load ap (end_cell p l) = none) (c : Link) (e : Nat)
    (hc : c = p ∨ ∃ x ∈ l, c = .entry_next x) (hload : load ap c = some e) :
    e ∈ l ∧ prv ap e = some c := by
  induction l generalizing p with
  | nil =>
    rcases hc with hc | ⟨x, hx, _⟩
    · subst hc
      have h0 : load ap c = none := hend
      rw [h0] at hload; cases hload
    · simp at hx
  | cons a l ih =>
    rcases hc with hc | ⟨x, hx, hc⟩
    · subst hc
      have h0 : load ap c = some a := hs.1
      rw [h0] at hload
      have : a = e := Option.some.inj hload
      subst this
      exact ⟨by simp, hs.2.1⟩
    · have hc' : c = .entry_next a ∨ ∃ y ∈ l, c = .entry_next y := by
        rcases List.mem_cons.mp hx with h | h
        · left; rw [hc, h]
        · right; exact ⟨x, h, hc⟩
      obtain ⟨h1, h2⟩ := ih _ hs.2.2 hend hc'
      exact ⟨List.mem_cons_of_mem _ h1, h2⟩

theorem Linked_of_Built (base : Nat) (n : Int) (ks : List (Nat × Nat)) (ap : addr_pool)
    (hb : Built base n ks ap) : Linked ap ks.length := by
  refine ⟨?_, ?_, ?_⟩
  · intro c e hload
    cases c with
    | free_first =>
      obtain ⟨h1, h2⟩ := Seg_load ap _ _ hb.free.1 hb.free.2.1 .free_first e (Or.inl rfl) hload
      exact ⟨List.mem_range.mp h1, h2⟩
    | used_first =>
      have h0 : load ap .used_first = none := hb.used.2.1
      rw [h0] at hload; cases hload
    | entry_next x =>
      by_cases hx : x < ks.length
      · obtain ⟨h1, h2⟩ := Seg_load ap _ _ hb.free.1 hb.free.2.1 (.entry_next x) e
          (Or.inr ⟨x, List.mem_range.mpr hx, rfl⟩) hload
        exact ⟨List.mem_range.mp h1, h2⟩
      · rw [(hb.untouched x (by omega)).2.1] at hload; cases hload
  · intro e he
    obtain ⟨c, _, hp⟩ := Seg_prv ap _ _ hb.free.1 e (List.mem_range.mpr he)
    rw [hp]; simp
  · obtain ⟨m, hm, hme⟩ := hb.map_eq
    refine ⟨m, hm, ?_⟩
    intro i j e h
    have := (hme i j e).mp h
    by_contra hlt
    rw [List.getElem?_eq_none (by omega)] at this
    cases this

theorem Linked_congr (ap ap' : addr_pool) (N : Nat) (hload : ∀ c, load ap' c = load ap c)
    (hprv : ∀ e, prv ap' e = prv ap e) (hmap : ap'.mapper = ap.mapper) (hl : Linked ap N) :
    Linked ap' N := by
  refine ⟨?_, ?_, ?_⟩
  · intro c e h
    rw [hload] at h
    rw [hprv]
    exact hl.back c e h
  · intro e he
    rw [hprv]
    exact hl.prev_set e he
  · rw [hmap]; exact hl.map_range

theorem Linked_fill (base : Nat) (n : Int) (ks : List (Nat × Nat)) (hnd : ks.Nodup) :
    let r := fill base (init_pool base n, 0) ks
    Linked { r.1 with num_entry := (r.2 : Int), num_free := (r.2 : Int), num_used := 0 }
      (Int.toNat (r.2 : Int)) := by
  intro r
  have hb := Built_fill base n ks [] _ (Built_init base n) (by simpa using hnd)
  simp only [List.nil_append, List.length_nil] at hb
  have hl := Linked_of_Built _ _ _ _ hb
  have hr : r.2 = ks.length := by simp [r, fill_snd]
  rw [hr, Int.toNat_ofNat]
  exact Linked_congr _ _ _ (load_finish _ _ _ _) (fun _ => rfl) rfl hl

theorem IsBuilt_Linked (G : RSSFn) (ec : Nat) (ap0 : addr_pool) (hb : IsBuilt G ec ap0) :
    Linked ap0 ap0.num_entry.toNat := by
  cases hb with
  | flat addr_base n h1 h2 =>
    have h := Linked_fill (ntohl addr_base) n _ (nodup_tuple_rows n.toNat 0)
    simp only [CreateAddressPool]
    rw [CreateAddressPool_fill addr_base n (by omega)]
    exact h
  | per_core core nq saddr_base n daddr dport h1 h2 hq =>
    have hnd : (((tuple_rows n.toNat 0).filter
        (keeps G ec core nq (ntohl saddr_base) (ntohl daddr) (ntohs dport))).take
          ((Int.tdiv (n * ((MAX_PORT : Int) - (MIN_PORT : Int))) nq).toNat - 0)).Nodup :=
      List.Nodup.sublist ((List.take_sublist _ _).trans (List.filter_sublist _))
        (nodup_tuple_rows _ _)
    have h := Linked_fill (ntohl saddr_base) n _ hnd
    simp only [CreateAddressPoolPerCore]
    rw [percore_outer_eq]
    exact h

/-- Unlinking a slot from whatever list head and appending it to whatever list head
keeps the links locally consistent. -/
theorem Linked_relink (ap ap1 : addr_pool) (N : Nat) (h h' : tailq_id) (elm : Nat)
    (hl : Linked ap N) (he : elm < N) (hr : TAILQ_REMOVE ap h elm = some ap1) :
    Linked (TAILQ_INSERT_TAIL ap1 h' elm) N := by
  obtain ⟨p, hp⟩ := remove_prv ap ap1 h elm hr
  have L1 := load_remove ap ap1 h elm p hp hr
  have P1 := prv_remove ap ap1 h elm p hp hr
  refine ⟨?_, ?_, ?_⟩
  · intro c e hload
    rw [load_insert_tail] at hload
    rw [prv_insert_tail]
    by_cases hc1 : c = tqh_last ap1 h'
    · simp only [hc1, if_true, Option.some.injEq] at hload
      subst hload
      simp [he, hc1]
    · simp only [hc1, if_false] at hload
      by_cases hc2 : c = .entry_next elm
      · simp [hc2] at hload
      · simp only [hc2, if_false] at hload
        rw [L1] at hload
        by_cases hc3 : c = p
        · simp only [hc3, if_true] at hload
          obtain ⟨h1, h2⟩ := hl.back _ e hload
          have hne : e ≠ elm := by
            intro heq
            rw [heq, hp] at h2
            exact hc2 (hc3.trans (Option.some.inj h2))
          refine ⟨h1, ?_⟩
          simp only [hne, if_false]
          rw [P1, hload]
          simp [hc3]
        · simp only [hc3, if_false] at hload
          obtain ⟨h1, h2⟩ := hl.back _ e hload
          have hne : e ≠ elm := by
            intro heq
            rw [heq, hp] at h2
            exact hc3 (Option.some.inj h2).symm
          refine ⟨h1, ?_⟩
          simp only [hne, if_false]
          rw [P1]
          have hnx : ¬ load ap (.entry_next elm) = some e := by
            intro hx
            have := (hl.back _ e hx).2
            rw [h2] at this
            exact hc2 (Option.some.inj this)
          simp only [hnx, if_false]
          exact h2
  · intro e he'
    rw [prv_insert_tail]
    by_cases hx : e = elm
    · simp [hx]
    · simp only [hx, if_false]
      rw [P1]
      split
      · simp
      · exact hl.prev_set e he'
  · rw [mapper_insert_tail, mapper_remove ap ap1 h elm hr]
    exact hl.map_range

theorem scan_some_lt (G : RSSFn) (ec : Nat) (ap : addr_pool) (N : Nat) (core nq : Int)
    (d : sockaddr_in) (hl : Linked ap N) (fuel : Nat) (c : Link) (w : Nat)
    (h : FetchAddress_scan G ec ap core nq d fuel (load ap c) = some (some w)) : w < N := by
  induction fuel generalizing c with
  | zero =>
    cases hc : load ap c with
    | none => simp [hc, FetchAddress_scan] at h
    | some v => simp [hc, FetchAddress_scan] at h
  | succ f ih =>
    cases hc : load ap c with
    | none => simp [hc, FetchAddress_scan] at h
    | some v =>
      rw [hc] at h
      simp only [FetchAddress_scan] at h
      split at h
      · simp only [Option.some.injEq] at h
        subst h
        exact (hl.back c v hc).1
      · exact ih _ h

theorem scan_none_path (G : RSSFn) (ec : Nat) (ap : addr_pool) (N : Nat) (core nq : Int)
    (d : sockaddr_in) (hl : Linked ap N) (fuel : Nat) (c : Link)
    (h : FetchAddress_scan G ec ap core nq d fuel (load ap c) = none) :
    ∃ l, l.length = fuel ∧ Seg ap c l ∧ ∀ x ∈ l, x < N := by
  induction fuel generalizing c with
  | zero => exact ⟨[], rfl, trivial, by simp⟩
  | succ f ih =>
    cases hc : load ap c with
    | none => simp [hc, FetchAddress_scan] at h
    | some v =>
      rw [hc] at h
      simp only [FetchAddress_scan] at h
      split at h
      · cases h
      · obtain ⟨l, hlen, hseg, hlt⟩ := ih _ h
        obtain ⟨h1, h2⟩ := hl.back c v hc
        refine ⟨v :: l, by simp [hlen], ⟨hc, h2, hseg⟩, ?_⟩
        intro x hx
        rcases List.mem_cons.mp hx with hx | hx
        · rw [hx]; exact h1
        · exact hlt x hx

theorem Seg_nodup (ap : addr_pool) (h : tailq_id) (l : List Nat)
    (hs : Seg ap (first_cell h) l) : l.Nodup := by
  induction l using List.reverseRecOn with
  | nil => simp
  | append_singleton l x ih =>
    have hs' := (Seg_append ap _ l [x]).mp hs
    have hnd := ih hs'.1
    rw [List.nodup_append]
    refine ⟨hnd, List.nodup_singleton x, ?_⟩
    intro a ha hx
    simp only [List.mem_singleton] at hx
    subst hx
    obtain ⟨c, hc, hp⟩ := Seg_prv ap _ l hs'.1 a ha
    have hp' : prv ap a = some (end_cell (first_cell h) l) := hs'.2.2.1
    rw [hp] at hp'
    have : c = end_cell (first_cell h) l := Option.some.inj hp'
    exact end_cell_not_mem_rcells _ l hnd (fun y _ => first_cell_ne_entry h y) (this ▸ hc)

/-- On locally consistent links the scan of `FetchAddress` ends within `N` steps. -/
theorem scan_total (G : RSSFn) (ec : Nat) (ap : addr_pool) (N : Nat) (core nq : Int)
    (d : sockaddr_in) (hl : Linked ap N) (fuel : Nat) (hfuel : N < fuel) :
    ∃ w, FetchAddress_scan G ec ap core nq d fuel (load ap .free_first) = some w := by
  cases hs : FetchAddress_scan G ec ap core nq d fuel (load ap .free_first) with
  | some w => exact ⟨w, rfl⟩
  | none =>
    exfalso
    obtain ⟨l, hlen, hseg, hlt⟩ := scan_none_path G ec ap N core nq d hl fuel .free_first hs
    have hnd := Seg_nodup ap .free_list l hseg
    have hsub : l ⊆ List.range N := fun x hx => List.mem_range.mpr (hlt x hx)
    have := (List.subperm_of_subset hnd hsub).length_le
    rw [List.length_range, hlen] at this
    omega

theorem fetch_total (G : RSSFn) (ec : Nat) (ap : addr_pool) (N : Nat) (core nq : Int)
    (d sa : sockaddr_in) (hl : Linked ap N) (fuel : Nat) (hfuel : N < fuel) :
    ∃ r ap' t, FetchAddress G ec fuel ap core nq d sa = some (r, ap', t) := by
  obtain ⟨w, hw⟩ := scan_total G ec ap N core nq d hl fuel hfuel
  cases w with
  | none => exact ⟨-1, ap, sa, by simp only [FetchAddress, hw]⟩
  | some w =>
    have hlt := scan_some_lt G ec ap N core nq d hl fuel .free_first w hw
    cases hp : prv ap w with
    | none => exact absurd hp (hl.prev_set w hlt)
    | some p =>
      obtain ⟨ap1, hr⟩ := remove_some ap .free_list w p hp
      have hsome : (FetchAddress G ec fuel ap core nq d sa).isSome = true := by
        simp only [FetchAddress, hw, hr]
        rfl
      obtain ⟨⟨r, ap', t⟩, hres⟩ := Option.isSome_iff_exists.mp hsome
      exact ⟨r, ap', t, hres⟩

theorem free_total (ap : addr_pool) (N : Nat) (hl : Linked ap N) (fuel : Nat) (t : sockaddr_in)
    (hoff : ((map_offset ap t : Nat) : Int) < ap.num_addr) :
    ∃ r ap', FreeAddress fuel ap t = some (r, ap') := by
  obtain ⟨m, hm, hme⟩ := hl.map_range
  have hg : FreeAddress_guard (to_int32 (map_offset ap t)) ap.num_addr = true := by
    simp only [FreeAddress_guard, Bool.or_eq_true, decide_eq_true_eq]
    by_cases h0 : to_int32 (map_offset ap t) ≥ 0
    · left; exact h0
    · right; omega
  have hlook : FreeAddress_lookup fuel ap t = some (m (map_offset ap t) (ntohs t.sin_port)) := by
    simp only [FreeAddress_lookup, hm, hg, hoff, if_true]
  cases hw : m (map_offset ap t) (ntohs t.sin_port) with
  | none => exact ⟨-1, ap, by simp only [FreeAddress, hlook, hw]⟩
  | some w =>
    have hlt := hme _ _ w hw
    cases hp : prv ap w with
    | none => exact absurd hp (hl.prev_set w hlt)
    | some p =>
      obtain ⟨ap1, hr⟩ := remove_some ap .used_list w p hp
      have hsome : (FreeAddress fuel ap t).isSome = true := by
        simp only [FreeAddress, hlook, hw, hr]
        rfl
      obtain ⟨⟨r, ap'⟩, hres⟩ := Option.isSome_iff_exists.mp hsome
      exact ⟨r, ap', hres⟩

theorem fetch_Linked (G : RSSFn) (ec fuel : Nat) (ap : addr_pool) (N : Nat) (core nq : Int)
    (d sa : sockaddr_in) (r : Int) (ap' : addr_pool) (t : sockaddr_in) (hl : Linked ap N)
    (h : FetchAddress G ec fuel ap core nq d sa = some (r, ap', t)) : Linked ap' N := by
  unfold FetchAddress at h
  cases hs : FetchAddress_scan G ec ap core nq d fuel (load ap .free_first) with
  | none => simp [hs] at h
  | some x =>
    cases x with
    | none =>
      simp only [hs, Option.some.injEq, Prod.mk.injEq] at h
      obtain ⟨_, hap, _⟩ := h
      subst hap
      exact hl
    | some w =>
      have hlt := scan_some_lt G ec ap N core nq d hl fuel .free_first w hs
      simp only [hs] at h
      cases hrm : TAILQ_REMOVE ap .free_list w with
      | none => simp [hrm] at h
      | some ap1 =>
        simp only [hrm, Option.some.injEq, Prod.mk.injEq] at h
        obtain ⟨_, hap, _⟩ := h
        subst hap
        exact Linked_congr _ _ _ (load_counters _ _ _) (fun _ => rfl) rfl
          (Linked_relink ap ap1 N .free_list .used_list w hl hlt hrm)

theorem free_Linked (fuel : Nat) (ap : addr_pool) (N : Nat) (t : sockaddr_in) (r : Int)
    (ap' : addr_pool) (hl : Linked ap N) (h : FreeAddress fuel ap t = some (r, ap')) :
    Linked ap' N := by
  obtain ⟨m, hm, hme⟩ := hl.map_range
  unfold FreeAddress at h
  cases hs : FreeAddress_lookup fuel ap t with
  | none => simp [hs] at h
  | some x =>
    cases x with
    | none =>
      simp only [hs, Option.some.injEq, Prod.mk.injEq] at h
      obtain ⟨_, hap⟩ := h
      subst hap
      exact hl
    | some w =>
      have hlt : w < N := by
        simp only [FreeAddress_lookup, hm] at hs
        split at hs
        · split at hs
          · simp only [Option.some.injEq] at hs
            exact hme _ _ w hs
          · cases hs
        · simp at hs
      simp only [hs] at h
      cases hrm : TAILQ_REMOVE ap .used_list w with
      | none => simp [hrm] at h
      | some ap1 =>
        simp only [hrm, Option.some.injEq, Prod.mk.injEq] at h
        obtain ⟨_, hap⟩ := h
        subst hap
        exact Linked_congr _ _ _ (load_counters _ _ _) (fun _ => rfl) rfl
          (Linked_relink ap ap1 N .used_list .free_list w hl hlt hrm)

theorem Run_Linked (G : RSSFn) (ec : Nat) (ap0 ap : addr_pool) (hb : IsBuilt G ec ap0)
    (hr : Run G ec ap0 ap) : Linked ap ap.num_entry.toNat := by
  have h0 := IsBuilt_Linked G ec ap0 hb
  rw [(Run_counters G ec ap0 ap hr).2]
  induction hr with
  | start => exact h0
  | fetch ap fuel core nq d sa r ap' t _ hf ih =>
    exact fetch_Linked G ec fuel ap _ core nq d sa r ap' t ih hf
  | free ap fuel t r ap' _ hf ih =>
    exact free_Linked fuel ap _ t r ap' ih hf

end links

/-! ## Content of the built pools and what the calls leave alone -/

section content

theorem fetch_frame (G : RSSFn) (ec fuel : Nat) (ap : addr_pool) (core nq : Int)
    (d sa : sockaddr_in) (r : Int) (ap' : addr_pool) (t : sockaddr_in)
    (h : FetchAddress G ec fuel ap core nq d sa = some (r, ap', t)) : SameContent ap ap' := by
  unfold FetchAddress at h
  cases hs : FetchAddress_scan G ec ap core nq d fuel (load ap .free_first) with
  | none => simp [hs] at h
  | some x =>
    cases x with
    | none =>
      simp only [hs, Option.some.injEq, Prod.mk.injEq] at h
      obtain ⟨_, hap, _⟩ := h
      subst hap
      exact ⟨rfl, rfl, rfl, rfl, fun _ => rfl⟩
    | some w =>
      simp only [hs] at h
      cases hrm : TAILQ_REMOVE ap .free_list w with
      | none => simp [hrm] at h
      | some ap1 =>
        simp only [hrm, Option.some.injEq, Prod.mk.injEq] at h
        obtain ⟨_, hap, _⟩ := h
        subst hap
        refine ⟨?_, ?_, ?_, ?_, ?_⟩
        · simp [addr_base_insert_tail, addr_base_remove ap ap1 _ w hrm]
        · simp [num_addr_insert_tail, num_addr_remove ap ap1 _ w hrm]
        · simp [num_entry_insert_tail, num_entry_remove ap ap1 _ w hrm]
        · simp [mapper_insert_tail, mapper_remove ap ap1 _ w hrm]
        · intro x
          show adr (TAILQ_INSERT_TAIL ap1 .used_list w) x = adr ap x
          rw [adr_insert_tail, adr_remove ap ap1 _ w hrm]

theorem free_frame (fuel : Nat) (ap : addr_pool) (t : sockaddr_in) (r : Int)
    (ap' : addr_pool) (h : FreeAddress fuel ap t = some (r, ap')) : SameContent ap ap' := by
  unfold FreeAddress at h
  cases hs : FreeAddress_lookup fuel ap t with
  | none => simp [hs] at h
  | some x =>
    cases x with
    | none =>
      simp only [hs, Option.some.injEq, Prod.mk.injEq] at h
      obtain ⟨_, hap⟩ := h
      subst hap
      exact ⟨rfl, rfl, rfl, rfl, fun _ => rfl⟩
    | some w =>
      simp only [hs] at h
      cases hrm : TAILQ_REMOVE ap .used_list w with
      | none => simp [hrm] at h
      | some ap1 =>
        simp only [hrm, Option.some.injEq, Prod.mk.injEq] at h
        obtain ⟨_, hap⟩ := h
        subst hap
        refine ⟨?_, ?_, ?_, ?_, ?_⟩
        · simp [addr_base_insert_tail, addr_base_remove ap ap1 _ w hrm]
        · simp [num_addr_insert_tail, num_addr_remove ap ap1 _ w hrm]
        · simp [num_entry_insert_tail, num_entry_remove ap ap1 _ w hrm]
        · simp [mapper_insert_tail, mapper_remove ap ap1 _ w hrm]
        · intro x
          show adr (TAILQ_INSERT_TAIL ap1 .free_list w) x = adr ap x
          rw [adr_insert_tail, adr_remove ap ap1 _ w hrm]

theorem SameContent_trans (a b c : addr_pool) (h1 : SameContent a b) (h2 : SameContent b c) :
    SameContent a c :=
  ⟨h2.addr_base_eq.trans h1.addr_base_eq, h2.num_addr_eq.trans h1.num_addr_eq,
    h2.num_entry_eq.trans h1.num_entry_eq, h2.mapper_eq.trans h1.mapper_eq,
    fun x => (h2.adr_eq x).trans (h1.adr_eq x)⟩

theorem Run_frame (G : RSSFn) (ec : Nat) (ap0 ap : addr_pool) (hr : Run G ec ap0 ap) :
    SameContent ap0 ap := by
  induction hr with
  | start => exact ⟨rfl, rfl, rfl, rfl, fun _ => rfl⟩
  | fetch ap fuel core nq d sa r ap' t _ hf ih =>
    exact SameContent_trans _ _ _ ih (fetch_frame G ec fuel ap core nq d sa r ap' t hf)
  | free ap fuel t r ap' _ hf ih =>
    exact SameContent_trans _ _ _ ih (free_frame fuel ap t r ap' hf)

theorem Built_finish (base : Nat) (n : Int) (ks : List (Nat × Nat)) (ap : addr_pool)
    (hb : Built base n ks ap) (a b c : Int) :
    Built base n ks { ap with num_entry := a, num_free := b, num_used := c } := by
  refine ⟨?_, ?_, hb.adr_eq, hb.map_eq, hb.base_eq, hb.num_addr_eq, ?_⟩
  · exact IsList_frame ap _ _ _ hb.free (load_finish ap _ _ _ _)
      (fun _ _ => load_finish ap _ _ _ _) (fun _ _ => rfl) (tqh_last_finish ap _ _ _ _)
  · exact IsList_frame ap _ _ _ hb.used (load_finish ap _ _ _ _)
      (fun _ _ => load_finish ap _ _ _ _) (fun _ _ => rfl) (tqh_last_finish ap _ _ _ _)
  · intro e he
    obtain ⟨h1, h2, h3⟩ := hb.untouched e he
    exact ⟨h1, (load_finish ap _ _ _ _).trans h2, h3⟩

theorem Built_of_fill (base : Nat) (n : Int) (ks : List (Nat × Nat)) (hnd : ks.Nodup) :
    let r := fill base (init_pool base n, 0) ks
    Built base n ks { r.1 with num_entry := (r.2 : Int), num_free := (r.2 : Int), num_used := 0 }
      ∧ r.2 = ks.length := by
  intro r
  have hb := Built_fill base n ks [] _ (Built_init base n) (by simpa using hnd)
  simp only [List.nil_append, List.length_nil] at hb
  exact ⟨Built_finish _ _ _ _ hb _ _ _, by simp [r, fill_snd]⟩

theorem CreateAddressPool_Built (b : Nat) (n : Int) (h0 : 0 ≤ n) :
    Built (ntohl b) n (tuple_rows n.toNat 0) (CreateAddressPool b n) ∧
      (CreateAddressPool b n).num_entry = (((tuple_rows n.toNat 0).length : Nat) : Int) := by
  have h := Built_of_fill (ntohl b) n _ (nodup_tuple_rows n.toNat 0)
  simp only [CreateAddressPool]
  rw [CreateAddressPool_fill b n h0]
  exact ⟨h.1, congrArg _ h.2⟩

theorem nodup_kept_tuples (G : RSSFn) (ec : Nat) (core nq : Int) (sb : Nat) (n : Int)
    (d dp : Nat) : (kept_tuples G ec core nq sb n d dp).Nodup :=
  List.Nodup.sublist ((List.take_sublist _ _).trans (List.filter_sublist _))
    (nodup_tuple_rows _ _)

theorem CreateAddressPoolPerCore_Built (G : RSSFn) (ec : Nat) (core nq : Int) (sb : Nat)
    (n : Int) (d dp : Nat) :
    Built (ntohl sb) n (kept_tuples G ec core nq sb n d dp)
        (CreateAddressPoolPerCore G ec core nq sb n d dp) ∧
      (CreateAddressPoolPerCore G ec core nq sb n d dp).num_entry
        = (((kept_tuples G ec core nq sb n d dp).length : Nat) : Int) := by
  have h := Built_of_fill (ntohl sb) n _ (nodup_kept_tuples G ec core nq sb n d dp)
  simp only [CreateAddressPoolPerCore]
  rw [percore_outer_eq]
  simp only [Nat.sub_zero]
  exact ⟨h.1, congrArg _ h.2⟩

theorem tuple_rows_get (k i0 e : Nat) (he : e < k * 64511) :
    (tuple_rows k i0)[e]? = some (i0 + e / 64511, 1025 + e % 64511) := by
  induction k generalizing i0 e with
  | zero => omega
  | succ k ih =>
    simp only [tuple_rows, MIN_PORT, MAX_PORT]
    by_cases h : e < 64511
    · rw [List.getElem?_append_left (by simpa using h), List.getElem?_map,
        List.getElem?_range' _ _ (by omega)]
      simp only [Option.map_some', Option.some.injEq, Prod.mk.injEq]
      omega
    · rw [List.getElem?_append_right (by simp; omega)]
      simp only [List.length_map, List.length_range']
      have h3 : 65535 + 1 - 1025 = 64511 := by norm_num
      rw [h3, ih (i0 + 1) (e - 64511) (by omega)]
      simp only [Option.some.injEq, Prod.mk.injEq]
      omega

theorem htonl_mod (x : Nat) : htonl (x % 4294967296) = htonl x := by
  unfold htonl
  simp

theorem ntohl_htonl_mod (x : Nat) : ntohl (htonl x) = x % 4294967296 := by
  rw [← htonl_mod, ntohl_htonl _ (Nat.mod_lt _ (by norm_num))]

theorem ntohs_lt (x : Nat) : ntohs x < 65536 := bswap16_lt _

theorem getElem?_lt {α : Type} (l : List α) (e : Nat) (a : α) (h : l[e]? = some a) :
    e < l.length := by
  by_contra hlt
  rw [List.getElem?_eq_none (by omega)] at h
  cases h

theorem getElem?_mem' {α : Type} (l : List α) (e : Nat) (a : α) (h : l[e]? = some a) :
    a ∈ l :=
  List.mem_iff_getElem?.mpr ⟨e, h⟩

/-- What every built pool looks like: it is filled with a duplicate-free list of
pairs of the scanned space. -/
theorem IsBuilt_Built (G : RSSFn) (ec : Nat) (ap0 : addr_pool) (hb : IsBuilt G ec ap0) :
    ∃ base n ks, Built base n ks ap0 ∧ ap0.num_entry = ((ks.length : Nat) : Int) ∧
      (∀ k ∈ ks, k ∈ tuple_rows n.toNat 0) ∧ base < 4294967296 ∧
      1 ≤ n ∧ n * 64511 < 2147483648 := by
  cases hb with
  | flat b n h1 h2 =>
    obtain ⟨hB, hn⟩ := CreateAddressPool_Built b n (by omega)
    exact ⟨ntohl b, n, _, hB, hn, fun k hk => hk, ntohl_lt _, h1, h2⟩
  | per_core core nq sb n d dp h1 h2 hq =>
    obtain ⟨hB, hn⟩ := CreateAddressPoolPerCore_Built G ec core nq sb n d dp
    exact ⟨ntohl sb, n, _, hB, hn,
      fun k hk => List.mem_of_mem_filter (List.mem_of_mem_take hk), ntohl_lt _, h1, h2⟩

theorem lookup_in_range (fuel : Nat) (ap : addr_pool) (t : sockaddr_in)
    (m : Nat → Nat → Option Nat) (hm : ap.mapper = some m)
    (hoff : ((map_offset ap t : Nat) : Int) < ap.num_addr) :
    FreeAddress_lookup fuel ap t = some (m (map_offset ap t) (ntohs t.sin_port)) := by
  have hg : FreeAddress_guard (to_int32 (map_offset ap t)) ap.num_addr = true := by
    simp only [FreeAddress_guard, Bool.or_eq_true, decide_eq_true_eq]
    by_cases h0 : to_int32 (map_offset ap t) ≥ 0
    · left; exact h0
    · right; omega
  simp only [FreeAddress_lookup, hm, hg, hoff, if_true]

theorem free_empty_slot (fuel : Nat) (ap : addr_pool) (t : sockaddr_in)
    (m : Nat → Nat → Option Nat) (hm : ap.mapper = some m)
    (hoff : ((map_offset ap t : Nat) : Int) < ap.num_addr)
    (hslot : m (map_offset ap t) (ntohs t.sin_port) = none) :
    FreeAddress fuel ap t = some (-1, ap) := by
  have h := lookup_in_range fuel ap t m hm hoff
  rw [hslot] at h
  simp only [FreeAddress, h]

/-- The map and the slots of a pool filled with pairs of the scanned space. -/
theorem Built_map_facts (base : Nat) (n : Int) (ks : List (Nat × Nat)) (ap : addr_pool)
    (hb : Built base n ks ap) (hkeys : ∀ k ∈ ks, k ∈ tuple_rows n.toNat 0)
    (h2 : n * 64511 < 2147483648) :
    ∃ m, ap.mapper = some m ∧
      (∀ e, e < ks.length →
        ((map_offset ap (adr ap e) : Nat) : Int) < ap.num_addr ∧
        m (map_offset ap (adr ap e)) (ntohs (adr ap e).sin_port) = some e) ∧
      (∀ i j e, m i j = some e → e < ks.length ∧ ks[e]? = some (i, j) ∧
        adr ap e = ⟨0, htons j, htonl (ap.addr_base + i)⟩ ∧ ((i : Nat) : Int) < n ∧
        1025 ≤ j ∧ j ≤ 65535) := by
  obtain ⟨m, hm, hme⟩ := hb.map_eq
  have hk := keys_tuple_rows n ks hkeys h2
  refine ⟨m, hm, ?_, ?_⟩
  · intro e he
    have hget : ks[e]? = some (ks[e].1, ks[e].2) := by rw [List.getElem?_eq_getElem he]
    obtain ⟨hk1, hk2, hk3⟩ := hk ks[e] (List.getElem_mem he)
    have hadr : adr ap e = ⟨0, htons ks[e].2, htonl ((ap.addr_base + ks[e].1) % 4294967296)⟩ := by
      rw [hb.base_eq]; exact hb.adr_eq e _ _ hget
    have hoff := map_offset_entry ap 0 (htons ks[e].2) ks[e].1 hk2
    rw [← hadr] at hoff
    rw [hoff]
    refine ⟨by rw [hb.num_addr_eq]; exact hk1, ?_⟩
    rw [hadr]
    simp only [ntohs_htons, Nat.mod_eq_of_lt hk3]
    exact (hme _ _ e).mpr hget
  · intro i j e h
    have hget := (hme i j e).mp h
    have hmem := hkeys _ (getElem?_mem' ks e _ hget)
    rw [mem_tuple_rows] at hmem
    obtain ⟨hk1, _, _⟩ := hk _ (getElem?_mem' ks e _ hget)
    refine ⟨getElem?_lt ks e _ hget, hget, ?_, hk1, hmem.2.1, by omega⟩
    rw [hb.base_eq, ← htonl_mod]
    exact hb.adr_eq e i j hget

theorem map_offset_frame (ap ap' : addr_pool) (h : SameContent ap ap') (t : sockaddr_in) :
    map_offset ap' t = map_offset ap t := by
  simp only [map_offset, h.addr_base_eq]

/-- The map and the slots in every state of a run from a built pool. -/
theorem Run_map_facts (G : RSSFn) (ec : Nat) (ap0 ap : addr_pool) (hb : IsBuilt G ec ap0)
    (hr : Run G ec ap0 ap) :
    ∃ m, ap.mapper = some m ∧
      (∀ e : Nat, ((e : Nat) : Int) < ap.num_entry →
        ((map_offset ap (adr ap e) : Nat) : Int) < ap.num_addr ∧
        m (map_offset ap (adr ap e)) (ntohs (adr ap e).sin_port) = some e) ∧
      (∀ i j e, m i j = some e → ((e : Nat) : Int) < ap.num_entry ∧
        adr ap e = ⟨0, htons j, htonl (ap.addr_base + i)⟩ ∧ ((i : Nat) : Int) < ap.num_addr ∧
        1025 ≤ j ∧ j ≤ 65535) := by
  obtain ⟨base, n, ks, hB, hne, hkeys, _, _, h2⟩ := IsBuilt_Built G ec ap0 hb
  obtain ⟨m, hm, hf1, hf2⟩ := Built_map_facts base n ks ap0 hB hkeys h2
  have hsc := Run_frame G ec ap0 ap hr
  refine ⟨m, by rw [hsc.mapper_eq, hm], ?_, ?_⟩
  · intro e he
    rw [hsc.num_entry_eq, hne] at he
    rw [map_offset_frame ap0 ap hsc, hsc.adr_eq, hsc.num_addr_eq]
    exact hf1 e (by exact_mod_cast he)
  · intro i j e h
    obtain ⟨h1, _, h3, h4, h5, h6⟩ := hf2 i j e h
    rw [hsc.num_entry_eq, hne, hsc.adr_eq, hsc.addr_base_eq, hsc.num_addr_eq, hB.num_addr_eq]
    exact ⟨by exact_mod_cast h1, h3, h4, h5, h6⟩

/-- A successful `FetchAddress` returns the tuple of one of the `N` slots. -/
theorem fetch_returns_entry (G : RSSFn) (ec fuel : Nat) (ap : addr_pool) (N : Nat)
    (core nq : Int) (d sa : sockaddr_in) (ap' : addr_pool) (t : sockaddr_in)
    (hl : Linked ap N) (h : FetchAddress G ec fuel ap core nq d sa = some (0, ap', t)) :
    ∃ e, e < N ∧ t = adr ap e := by
  unfold FetchAddress at h
  cases hs : FetchAddress_scan G ec ap core nq d fuel (load ap .free_first) with
  | none => simp [hs] at h
  | some x =>
    cases x with
    | none => simp [hs] at h
    | some w =>
      simp only [hs] at h
      cases hrm : TAILQ_REMOVE ap .free_list w with
      | none => simp [hrm] at h
      | some ap1 =>
        simp only [hrm, Option.some.injEq, Prod.mk.injEq] at h
        exact ⟨w, scan_some_lt G ec ap N core nq d hl fuel .free_first w hs, h.2.2.symm⟩

theorem kept_mem (G : RSSFn) (ec : Nat) (core nq : Int) (sb : Nat) (n : Int) (d dp : Nat)
    (i j : Nat) (h : (i, j) ∈ kept_tuples G ec core nq sb n d dp) :
    (i, j) ∈ tuple_rows n.toNat 0 ∧
      G (ntohl d) ((ntohl sb + i) % 4294967296) (ntohs dp) j nq ec = core := by
  have hf := List.mem_of_mem_take h
  rw [List.mem_filter] at hf
  obtain ⟨hmem, hk⟩ := hf
  refine ⟨hmem, ?_⟩
  have hj := (mem_tuple_rows _ _ _ _).mp hmem
  simp only [keeps, decide_eq_true_eq] at hk
  rw [Nat.mod_eq_of_lt (show j < 65536 by omega)] at hk
  exact hk

theorem pool_eq_calloc (ap : addr_pool) (e : Nat)
    (h : adr ap e = ⟨0, 0, 0⟩ ∧ load ap (.entry_next e) = none ∧ prv ap e = none) :
    ap.pool e = calloc_entry := by
  obtain ⟨h1, h2, h3⟩ := h
  simp only [adr, load, prv] at h1 h2 h3
  cases hp : ap.pool e with
  | mk a nx pv =>
    rw [hp] at h1 h2 h3
    simp only at h1 h2 h3
    rw [h1, h2, h3]
    rfl

theorem port_count_int : ((MAX_PORT : Int) - (MIN_PORT : Int)) = 64511 := by decide

theorem length_kept_tuples_le (G : RSSFn) (ec : Nat) (core nq : Int) (sb : Nat) (n : Int)
    (d dp : Nat) :
    (kept_tuples G ec core nq sb n d dp).length ≤ (Int.tdiv (n * 64511) nq).toNat := by
  unfold kept_tuples
  rw [port_count_int]
  exact List.length_take_le _ _

/-- When every pair passes the test, the kept tuples are the scanned space cut at
the capacity. -/
theorem kept_all (G : RSSFn) (ec : Nat) (core nq : Int) (sb : Nat) (n : Int) (d dp : Nat)
    (hall : ∀ k, keeps G ec core nq (ntohl sb) (ntohl d) (ntohs dp) k = true) :
    kept_tuples G ec core nq sb n d dp
      = (tuple_rows n.toNat 0).take (Int.tdiv (n * 64511) nq).toNat := by
  unfold kept_tuples
  rw [port_count_int, List.filter_eq_self.mpr (fun k _ => hall k)]

theorem half_rows_get (e : Nat) (he : e < 32255) :
    ((tuple_rows 1 0).take 32255)[e]? = some (0, 1025 + e) := by
  rw [List.getElem?_take_of_lt he, tuple_rows_get 1 0 e (by omega)]
  simp only [Option.some.injEq, Prod.mk.injEq]
  omega

theorem half_rows_length : ((tuple_rows 1 0).take 32255).length = 32255 := by
  rw [List.length_take, length_tuple_rows]
  decide

theorem half_cap : (Int.tdiv ((1 : Int) * 64511) 2).toNat = 32255 := by decide

theorem range_split (c : Nat) : List.range (c + 2) = [0] ++ 1 :: List.range' 2 c := by
  rw [List.range_eq_range']
  exact (List.range'_succ 0 (c + 1) 1).trans (congrArg (List.cons 0) (List.range'_succ 1 c 1))

theorem fetch_core_rss_parity (ec : Nat) (ap : addr_pool) (nq : Int) (d : sockaddr_in)
    (e : Nat) :
    fetch_core rss_parity ec ap nq d e = (((ntohs (adr ap e).sin_port % 2 : Nat)) : Int) := rfl

theorem keeps_parity_example (k : Nat × Nat) :
    keeps rss_parity 1 0 2 (ntohl 0x0100000a) (ntohl 0x0101a8c0) (ntohs (htons 80)) k = true := by
  show decide ((((ntohs (htons 80) % 2 : Nat)) : Int) = 0) = true
  decide

theorem keeps_half_example (k : Nat × Nat) :
    keeps rss_zero 1 0 2 (ntohl 0x0100000a) (ntohl 0x0101a8c0) (ntohs (htons 80)) k = true := by
  simp only [keeps, rss_zero]
  decide

theorem parity_example_Built :
    Built (ntohl 0x0100000a) 1 ((tuple_rows 1 0).take 32255) parity_example ∧
      parity_example.num_entry = 32255 := by
  have h := CreateAddressPoolPerCore_Built rss_parity 1 0 2 0x0100000a 1 0x0101a8c0 (htons 80)
  rw [kept_all rss_parity 1 0 2 0x0100000a 1 0x0101a8c0 (htons 80) keeps_parity_example,
    half_cap] at h
  have h1 : Int.toNat 1 = 1 := rfl
  rw [h1, half_rows_length] at h
  exact ⟨h.1, h.2⟩

theorem half_example_Built :
    Built (ntohl 0x0100000a) 1 ((tuple_rows 1 0).take 32255) half_example ∧
      half_example.num_entry = 32255 := by
  have h := CreateAddressPoolPerCore_Built rss_zero 1 0 2 0x0100000a 1 0x0101a8c0 (htons 80)
  rw [kept_all rss_zero 1 0 2 0x0100000a 1 0x0101a8c0 (htons 80) keeps_half_example,
    half_cap] at h
  have h1 : Int.toNat 1 = 1 := rfl
  rw [h1, half_rows_length] at h
  exact ⟨h.1, h.2⟩

theorem half_adr (ap : addr_pool)
    (hB : Built (ntohl 0x0100000a) 1 ((tuple_rows 1 0).take 32255) ap) (e : Nat)
    (he : e < 32255) : adr ap e = ⟨0, htons (1025 + e), 0x0100000a⟩ := by
  have h := hB.adr_eq e 0 (1025 + e) (half_rows_get e he)
  have h2 : htonl ((ntohl 0x0100000a + 0) % 4294967296) = 0x0100000a := by decide
  rw [h2] at h
  exact h

theorem parity_example_built : IsBuilt rss_parity 1 parity_example :=
  IsBuilt.per_core 0 2 0x0100000a 1 0x0101a8c0 (htons 80) (by norm_num) (by norm_num)
    (by norm_num)

theorem kept_eq_take (G : RSSFn) (ec : Nat) (core nq : Int) (sb : Nat) (n : Int) (d dp : Nat) :
    kept_tuples G ec core nq sb n d dp
      = (matching_tuples G ec core nq sb n d dp).take (Int.tdiv (n * 64511) nq).toNat := by
  unfold kept_tuples matching_tuples
  rw [port_count_int]

theorem mem_matching_tuples (G : RSSFn) (ec : Nat) (core nq : Int) (sb : Nat) (n : Int)
    (d dp : Nat) (i j : Nat) :
    (i, j) ∈ matching_tuples G ec core nq sb n d dp ↔
      ((i : Nat) : Int) < n ∧ 1025 ≤ j ∧ j ≤ 65535 ∧
        G (ntohl d) ((ntohl sb + i) % 4294967296) (ntohs dp) j nq ec = core := by
  unfold matching_tuples
  rw [List.mem_filter, mem_tuple_rows]
  simp only [keeps, decide_eq_true_eq]
  constructor
  · rintro ⟨h1, h2⟩
    rw [Nat.mod_eq_of_lt (show j < 65536 by omega)] at h2
    exact ⟨by omega, by omega, by omega, h2⟩
  · rintro ⟨h1, h2, h3, h4⟩
    rw [Nat.mod_eq_of_lt (show j < 65536 by omega)]
    exact ⟨by omega, h4⟩

theorem per_core_counts (G : RSSFn) (ec : Nat) (core nq : Int) (sb : Nat) (n : Int)
    (d dp : Nat) :
    (CreateAddressPoolPerCore G ec core nq sb n d dp).num_free
        = (CreateAddressPoolPerCore G ec core nq sb n d dp).num_entry ∧
      (CreateAddressPoolPerCore G ec core nq sb n d dp).num_used = 0 :=
  ⟨rfl, rfl⟩

theorem htons_inj (a b : Nat) (ha : a < 65536) (hb : b < 65536) (h : htons a = htons b) :
    a = b := by
  have h2 := congrArg ntohs h
  rw [ntohs_htons, ntohs_htons, Nat.mod_eq_of_lt ha, Nat.mod_eq_of_lt hb] at h2
  exact h2

/-- In a pool filled with the first 32255 pairs of the row of 10.0.0.1, no slot holds
10.0.0.1:65535 and the map slot of port 65535 is empty. -/
theorem half_no_last (ap : addr_pool)
    (hB : Built (ntohl 0x0100000a) 1 ((tuple_rows 1 0).take 32255) ap) :
    (∀ e, adr ap e ≠ last_tuple) ∧ ∃ m, ap.mapper = some m ∧ m 0 65535 = none := by
  constructor
  · intro e h
    by_cases he : e < 32255
    · rw [half_adr ap hB e he] at h
      have hp : htons (1025 + e) = htons 65535 := congrArg sockaddr_in.sin_port h
      have := htons_inj _ _ (by omega) (by omega) hp
      omega
    · have hu := (hB.untouched e (by rw [half_rows_length]; omega)).1
      rw [hu] at h
      have ha : (0 : Nat) = 0x0100000a := congrArg sockaddr_in.sin_addr h
      omega
  · obtain ⟨m, hm, hme⟩ := hB.map_eq
    refine ⟨m, hm, ?_⟩
    cases hs : m 0 65535 with
    | none => rfl
    | some e =>
      exfalso
      have hget := (hme 0 65535 e).mp hs
      have hlt := getElem?_lt _ e _ hget
      rw [half_rows_length] at hlt
      rw [half_rows_get e hlt] at hget
      simp only [Option.some.injEq, Prod.mk.injEq] at hget
      omega

end content

/-! ## What FreeAddress decides on, list lengths and the order of reuse -/

section reuse

/-- With a map and a row inside it, a `FreeAddress` call that returns has decided on
the map slot alone. -/
theorem free_slot_result (fuel : Nat) (ap : addr_pool) (t : sockaddr_in)
    (m : Nat → Nat → Option Nat) (hm : ap.mapper = some m)
    (hoff : ((map_offset ap t : Nat) : Int) < ap.num_addr) (r : Int) (ap' : addr_pool)
    (h : FreeAddress fuel ap t = some (r, ap')) :
    (r = 0 ∨ r = -1) ∧ (r = 0 ↔ m (map_offset ap t) (ntohs t.sin_port) ≠ none) ∧
      (r = 0 → ap'.num_free = ap.num_free + 1 ∧ ap'.num_used = ap.num_used - 1) ∧
      (r = -1 → ap' = ap) := by
  have hlook := lookup_in_range fuel ap t m hm hoff
  unfold FreeAddress at h
  rw [hlook] at h
  cases hs : m (map_offset ap t) (ntohs t.sin_port) with
  | none =>
    simp only [hs, Option.some.injEq, Prod.mk.injEq] at h
    obtain ⟨hr, hap⟩ := h
    subst hr
    refine ⟨Or.inr rfl, ?_, ?_, fun _ => hap.symm⟩
    · simp
    · intro h0; omega
  | some w =>
    simp only [hs] at h
    cases hrm : TAILQ_REMOVE ap .used_list w with
    | none => simp [hrm] at h
    | some ap1 =>
      simp only [hrm, Option.some.injEq, Prod.mk.injEq] at h
      obtain ⟨hr, hap⟩ := h
      subst hr
      subst hap
      refine ⟨Or.inl rfl, ?_, ?_, ?_⟩
      · simp
      · intro _
        simp [num_free_insert_tail, num_used_insert_tail, num_free_remove ap ap1 _ w hrm,
          num_used_remove ap ap1 _ w hrm]
      · intro h0; omega

/-- With a map and a row inside it, a non-empty slot whose entry has a `tqe_prev`
makes `FreeAddress` succeed. -/
theorem free_slot_some (fuel : Nat) (ap : addr_pool) (t : sockaddr_in)
    (m : Nat → Nat → Option Nat) (hm : ap.mapper = some m)
    (hoff : ((map_offset ap t : Nat) : Int) < ap.num_addr) (e : Nat)
    (hs : m (map_offset ap t) (ntohs t.sin_port) = some e) (hp : prv ap e ≠ none) :
    ∃ ap', FreeAddress fuel ap t = some (0, ap') := by
  have hlook := lookup_in_range fuel ap t m hm hoff
  cases hpe : prv ap e with
  | none => exact absurd hpe hp
  | some p =>
    obtain ⟨ap1, hr⟩ := remove_some ap .used_list e p hpe
    have hsome : (FreeAddress fuel ap t).isSome = true := by
      simp only [FreeAddress, hlook, hs, hr]
      rfl
    obtain ⟨⟨r, ap'⟩, hres⟩ := Option.isSome_iff_exists.mp hsome
    have h0 := (free_slot_result fuel ap t m hm hoff r ap' hres).2.1.mpr (by rw [hs]; simp)
    subst h0
    exact ⟨ap', hres⟩

theorem Seg_unique (ap : addr_pool) (p : Link) (l1 l2 : List Nat) (h1 : Seg ap p l1)
    (e1 : load ap (end_cell p l1) = none) (h2 : Seg ap p l2)
    (e2 : load ap (end_cell p l2) = none) : l1 = l2 := by
  induction l1 generalizing p l2 with
  | nil =>
    cases l2 with
    | nil => rfl
    | cons b l2 =>
      simp only [end_cell] at e1
      have := h2.1
      rw [e1] at this
      cases this
  | cons a l1 ih =>
    cases l2 with
    | nil =>
      simp only [end_cell] at e2
      have := h1.1
      rw [e2] at this
      cases this
    | cons b l2 =>
      have ha := h1.1
      have hb := h2.1
      rw [ha] at hb
      have hab : a = b := Option.some.inj hb
      subst hab
      rw [ih (.entry_next a) l2 h1.2.2 e1 h2.2.2 e2]

/-- A list head represents at most one list. -/
theorem IsList_unique (ap : addr_pool) (h : tailq_id) (l1 l2 : List Nat)
    (h1 : IsList ap h l1) (h2 : IsList ap h l2) : l1 = l2 :=
  Seg_unique ap _ l1 l2 h1.1 h1.2.1 h2.1 h2.2.1

theorem length_of_mem_iff (l : List Nat) (N : Nat) (hnd : l.Nodup)
    (hmem : ∀ e, e ∈ l ↔ e < N) : l.length = N := by
  have hp : l.Perm (List.range N) :=
    (List.perm_ext_iff_of_nodup hnd (List.nodup_range N)).mpr
      (fun e => by rw [hmem, List.mem_range])
  rw [hp.length_eq, List.length_range]

/-- The counters of a pool in valid use are the list lengths, which add up to
`num_entry` when that is not negative. -/
theorem PoolInv_lengths (ap : addr_pool) (fl ul : List Nat) (hinv : PoolInv ap fl ul)
    (h0 : 0 ≤ ap.num_entry) :
    ap.num_free = ((fl.length : Nat) : Int) ∧ ap.num_used = ((ul.length : Nat) : Int) ∧
      ((fl.length : Nat) : Int) + ((ul.length : Nat) : Int) = ap.num_entry := by
  refine ⟨hinv.num_free_eq, hinv.num_used_eq, ?_⟩
  have hlen := length_of_mem_iff (fl ++ ul) ap.num_entry.toNat hinv.lists.nodup
    (fun e => by rw [hinv.mem_iff]; omega)
  rw [List.length_append] at hlen
  omega

/-- On a pool in valid use a `FetchAddress` call with fuel for the free list returns. -/
theorem fetch_returns (G : RSSFn) (ec fuel : Nat) (ap : addr_pool) (fl ul : List Nat)
    (core nq : Int) (d sa : sockaddr_in) (hinv : PoolInv ap fl ul)
    (hfuel : ap.num_free ≤ ((fuel : Nat) : Int)) :
    ∃ r ap' t, FetchAddress G ec fuel ap core nq d sa = some (r, ap', t) := by
  have hlen : fl.length ≤ fuel := by
    have := hinv.num_free_eq
    omega
  by_cases hex : ∃ e ∈ fl, fetch_core G ec ap nq d e = core
  · obtain ⟨l1, e, l2, hfl, hno, he⟩ := exists_first _ fl hex
    subst hfl
    obtain ⟨ap', hf, _⟩ := fetch_found G ec fuel ap l1 l2 ul e core nq d sa hinv.lists hlen hno he
    exact ⟨0, ap', _, hf⟩
  · have hno : ∀ x ∈ fl, ¬ fetch_core G ec ap nq d x = core := fun x hx hc => hex ⟨x, hx, hc⟩
    exact ⟨-1, ap, sa, fetch_not_found G ec fuel ap fl ul core nq d sa hinv.lists hlen hno⟩

/-- The tuple of a successful fetch from a pool in valid use is not the tuple of an
entry of the used list. -/
theorem fetch_fresh (G : RSSFn) (ec fuel : Nat) (ap : addr_pool) (fl ul : List Nat)
    (core nq : Int) (d sa : sockaddr_in) (ap' : addr_pool) (t : sockaddr_in)
    (hinv : PoolInv ap fl ul) (h : FetchAddress G ec fuel ap core nq d sa = some (0, ap', t)) :
    t ∉ ul.map (adr ap) := by
  rcases fetch_cases G ec fuel ap fl ul core nq d sa 0 ap' t hinv h with
    ⟨hr, _⟩ | ⟨_, l1, e, l2, hfl, _, _, ht, _⟩
  · omega
  · intro hmem
    obtain ⟨x, hx, hxe⟩ := List.mem_map.mp hmem
    have he : e ∈ fl := by rw [hfl]; simp
    have hxe' : x = e := adr_inj ap fl ul hinv x e (List.mem_append.mpr (Or.inr hx))
      (List.mem_append.mpr (Or.inl he)) (hxe.trans ht)
    subst hxe'
    exact (List.nodup_append.mp hinv.lists.nodup).2.2 he hx

theorem used_tuples_nodup (ap : addr_pool) (fl ul : List Nat) (hinv : PoolInv ap fl ul) :
    (ul.map (adr ap)).Nodup := by
  apply List.Nodup.map_on _ (List.nodup_append.mp hinv.lists.nodup).2.1
  intro x hx y hy hxy
  exact adr_inj ap fl ul hinv x y (List.mem_append.mpr (Or.inr hx))
    (List.mem_append.mpr (Or.inr hy)) hxy

/-- Fetch, free the returned tuple, fetch again: the entry goes to the tail of the free
list, and the second fetch takes another entry when another free entry matches. -/
theorem fifo_reuse (G : RSSFn) (ec fuel fuel1 fuel2 : Nat) (ap : addr_pool) (fl ul : List Nat)
    (core nq : Int) (d sa sa2 : sockaddr_in) (ap1 : addr_pool) (t : sockaddr_in)
    (hinv : PoolInv ap fl ul)
    (hf : FetchAddress G ec fuel ap core nq d sa = some (0, ap1, t))
    (hfuel2 : ap.num_free ≤ ((fuel2 : Nat) : Int)) :
    ∃ l1 e l2 ap2, fl = l1 ++ e :: l2 ∧ t = adr ap e ∧
      PoolLists ap1 (l1 ++ l2) (ul ++ [e]) ∧
      FreeAddress fuel1 ap1 t = some (0, ap2) ∧
      PoolLists ap2 (l1 ++ l2 ++ [e]) ul ∧
      ap2.num_free = ap.num_free ∧ ap2.num_used = ap.num_used ∧
      (∀ x, adr ap2 x = adr ap x) ∧
      ((∃ x ∈ l1 ++ l2, fetch_core G ec ap2 nq d x = core) →
        ∃ ap3 t', FetchAddress G ec fuel2 ap2 core nq d sa2 = some (0, ap3, t') ∧ t' ≠ t) := by
  rcases fetch_cases G ec fuel ap fl ul core nq d sa 0 ap1 t hinv hf with
    ⟨hr, _⟩ | ⟨_, l1, e, l2, hfl, _, he, ht, hinv1, hadr1, hnf1, hnu1⟩
  · omega
  · have hinv1' : PoolInv ap1 (l1 ++ l2) (ul ++ e :: []) := hinv1
    obtain ⟨ap2, hfree, hinv2, hnf2, hnu2, hadr2⟩ :=
      free_in_use fuel1 ap1 (l1 ++ l2) ul [] e hinv1'
    have hte : adr ap1 e = t := by rw [hadr1, ht]
    rw [hte] at hfree
    have hl2 : PoolLists ap2 (l1 ++ l2 ++ [e]) ul := by
      have := hinv2.lists
      rw [List.append_nil] at this
      exact this
    have hadr : ∀ x, adr ap2 x = adr ap x := fun x => (hadr2 x).trans (hadr1 x)
    refine ⟨l1, e, l2, ap2, hfl, ht, hinv1.lists, hfree, hl2, by rw [hnf2, hnf1]; ring,
      by rw [hnu2, hnu1]; ring, hadr, ?_⟩
    intro hex
    obtain ⟨m1, e', m2, hsplit, hno, he'⟩ :=
      exists_first (fun x => fetch_core G ec ap2 nq d x = core) _ hex
    have hl3 : PoolLists ap2 (m1 ++ e' :: (m2 ++ [e])) ul := by
      have h := hl2
      rw [hsplit, List.append_assoc, List.cons_append] at h
      exact h
    have hlen : (m1 ++ e' :: (m2 ++ [e])).length ≤ fuel2 := by
      have h1 := hinv.num_free_eq
      rw [hfl] at h1
      have h2 : (m1 ++ e' :: (m2 ++ [e])).length = (l1 ++ e :: l2).length := by
        have := congrArg List.length hsplit
        simp only [List.length_append, List.length_cons, List.length_nil] at this ⊢
        omega
      rw [h2]
      omega
    obtain ⟨ap3, hf3, _⟩ :=
      fetch_found G ec fuel2 ap2 m1 (m2 ++ [e]) ul e' core nq d sa2 hl3 hlen hno he'
    refine ⟨ap3, _, hf3, ?_⟩
    intro heq
    have hmem' : e' ∈ l1 ++ l2 := by rw [hsplit]; simp
    have hmem1 : e' ∈ (l1 ++ l2 ++ [e]) ++ (ul ++ []) := by
      simp only [List.mem_append] at hmem' ⊢
      tauto
    have hmem2 : e ∈ (l1 ++ l2 ++ [e]) ++ (ul ++ []) := by simp
    have hee : e' = e := adr_inj ap2 _ _ hinv2 e' e hmem1 hmem2
      (by rw [heq, ht, hadr e])
    have hnd := (List.nodup_append.mp hl2.nodup).1
    have hdis := (List.nodup_append.mp hnd).2.2
    exact hdis hmem' (by simp [hee])

theorem ValidRun_Run (G : RSSFn) (ec : Nat) (ap0 ap : addr_pool) (out : List sockaddr_in)
    (hr : ValidRun G ec ap0 ap out) : Run G ec ap0 ap := by
  induction hr with
  | start => exact Run.start
  | fetch ap out fuel core nq d sa r ap' t _ hf ih =>
    exact Run.fetch ap fuel core nq d sa r ap' t ih hf
  | free ap out fuel t r ap' _ _ hf ih =>
    exact Run.free ap fuel t r ap' ih hf

/-- Every entry of a per-core pool, in every state of a run, passes the test of the
constructor. -/
theorem per_core_entry_core (G : RSSFn) (ec : Nat) (core nq : Int) (sb : Nat) (n : Int)
    (d dp : Nat) (ap : addr_pool)
    (hr : Run G ec (CreateAddressPoolPerCore G ec core nq sb n d dp) ap) (e : Nat)
    (he : ((e : Nat) : Int) < ap.num_entry) :
    G (ntohl d) (ntohl (adr ap e).sin_addr) (ntohs dp) (ntohs (adr ap e).sin_port) nq ec
      = core := by
  obtain ⟨hB, hne⟩ := CreateAddressPoolPerCore_Built G ec core nq sb n d dp
  have hsc := Run_frame G ec _ ap hr
  rw [hsc.num_entry_eq, hne] at he
  have he' : e < (kept_tuples G ec core nq sb n d dp).length := by exact_mod_cast he
  obtain ⟨⟨i, j⟩, hget⟩ : ∃ k, (kept_tuples G ec core nq sb n d dp)[e]? = some k :=
    ⟨_, List.getElem?_eq_getElem he'⟩
  obtain ⟨hmem, hG⟩ := kept_mem G ec core nq sb n d dp i j (getElem?_mem' _ e _ hget)
  have hj := (mem_tuple_rows _ _ _ _).mp hmem
  rw [hsc.adr_eq, hB.adr_eq e i j hget]
  simp only
  rw [ntohl_htonl _ (Nat.mod_lt _ (by norm_num)), ntohs_htons,
    Nat.mod_eq_of_lt (show j < 65536 by omega)]
  exact hG

/-- When the entry at the head of the free list passes the test of `FetchAddress`, the
call takes it, whatever the rest of the list. -/
theorem fetch_head (G : RSSFn) (ec fuel : Nat) (ap : addr_pool) (N : Nat) (core nq : Int)
    (d sa : sockaddr_in) (e : Nat) (hl : Linked ap N)
    (hhead : load ap .free_first = some e) (hcore : fetch_core G ec ap nq d e = core)
    (hfuel : 1 ≤ fuel) :
    ∃ ap', FetchAddress G ec fuel ap core nq d sa = some (0, ap', adr ap e) ∧
      ap'.num_free = ap.num_free - 1 ∧ ap'.num_used = ap.num_used + 1 ∧
      ∀ l2 ul, PoolLists ap (e :: l2) ul → PoolLists ap' l2 (ul ++ [e]) := by
  obtain ⟨f, hf⟩ : ∃ f, fuel = f + 1 := ⟨fuel - 1, by omega⟩
  subst hf
  have hscan : FetchAddress_scan G ec ap core nq d (f + 1) (load ap .free_first)
      = some (some e) := by
    simp [hhead, FetchAddress_scan, hcore]
  obtain ⟨hlt, hprv⟩ := hl.back _ e hhead
  obtain ⟨ap1, hrm⟩ := remove_some ap .free_list e _ hprv
  have hres : FetchAddress G ec (f + 1) ap core nq d sa
      = some (0, { TAILQ_INSERT_TAIL ap1 .used_list e with
        num_free := (TAILQ_INSERT_TAIL ap1 .used_list e).num_free - 1,
        num_used := (TAILQ_INSERT_TAIL ap1 .used_list e).num_used + 1 }, adr ap e) := by
    simp only [FetchAddress, hscan, hrm]
  refine ⟨_, hres, ?_, ?_, ?_⟩
  · simp [num_free_insert_tail, num_free_remove ap ap1 _ e hrm]
  · simp [num_used_insert_tail, num_used_remove ap ap1 _ e hrm]
  · intro l2 ul hlists
    have hlists' : PoolLists ap ([] ++ e :: l2) ul := hlists
    obtain ⟨ap'', hf'', hl'', _⟩ := fetch_found G ec (max (f + 1) ([] ++ e :: l2).length) ap []
      l2 ul e core nq d sa hlists' (le_max_right _ _) (by simp) hcore
    have hbig := FetchAddress_mono G ec ap core nq d sa (f + 1)
      (max (f + 1) ([] ++ e :: l2).length) _ (le_max_left _ _) hres
    rw [hf''] at hbig
    simp only [Option.some.injEq, Prod.mk.injEq] at hbig
    rw [← hbig.2.1]
    exact hl''

/-- The free list of a pool filled with at least one pair starts at slot 0. -/
theorem Built_head (base : Nat) (n : Int) (ks : List (Nat × Nat)) (ap : addr_pool)
    (hb : Built base n ks ap) (hpos : 0 < ks.length) : load ap .free_first = some 0 := by
  obtain ⟨c, hc⟩ : ∃ c, ks.length = c + 1 := ⟨ks.length - 1, by omega⟩
  have hfree := hb.free
  rw [hc, List.range_eq_range', List.range'_succ] at hfree
  exact hfree.1.1

theorem rss_port_sum_symm (a b p q : Nat) (nq : Int) (ec : Nat) :
    rss_port_sum a b p q nq ec = rss_port_sum b a q p nq ec := by
  simp only [rss_port_sum, Nat.add_comm]

theorem tuple_rows_one_start :
    tuple_rows 1 0 = (0, 1025) :: (0, 1026) ::
      ((List.range' 1027 64509).map (fun j => (0, j)) ++ tuple_rows 0 1) := by
  have hr : List.range' MIN_PORT (MAX_PORT - MIN_PORT) = 1025 :: 1026 :: List.range' 1027 64509 :=
    (List.range'_succ 1025 64510 1).trans
      (congrArg (List.cons 1025) (List.range'_succ 1026 64509 1))
  show (List.range' MIN_PORT (MAX_PORT - MIN_PORT)).map (fun j => (0, j)) ++ tuple_rows 0 1 = _
  rw [hr]
  rfl

/-- The first tuple that `sum_example` keeps is 10.0.0.1:1026. -/
theorem sum_example_kept :
    ∃ rest, kept_tuples rss_port_sum 1 0 2 0x0100000a 1 0x0101a8c0 (htons 80)
      = (0, 1026) :: rest := by
  rw [kept_eq_take, half_cap]
  unfold matching_tuples
  have h1 : Int.toNat 1 = 1 := rfl
  rw [h1, tuple_rows_one_start]
  have hk1 : keeps rss_port_sum 1 0 2 (ntohl 0x0100000a) (ntohl 0x0101a8c0) (ntohs (htons 80))
      (0, 1025) = false := by decide
  have hk2 : keeps rss_port_sum 1 0 2 (ntohl 0x0100000a) (ntohl 0x0101a8c0) (ntohs (htons 80))
      (0, 1026) = true := by decide
  rw [List.filter_cons_of_neg (by rw [hk1]; simp), List.filter_cons_of_pos hk2]
  exact ⟨_, List.take_succ_cons⟩

theorem sum_example_first :
    load sum_example .free_first = some 0 ∧
      adr sum_example 0 = ⟨0, htons 1026, 0x0100000a⟩ := by
  obtain ⟨hB, _⟩ :=
    CreateAddressPoolPerCore_Built rss_port_sum 1 0 2 0x0100000a 1 0x0101a8c0 (htons 80)
  obtain ⟨rest, hk⟩ := sum_example_kept
  rw [hk] at hB
  refine ⟨Built_head _ _ _ _ hB (by simp), ?_⟩
  have h := hB.adr_eq 0 0 1026 (by simp)
  have h2 : htonl ((ntohl 0x0100000a + 0) % 4294967296) = 0x0100000a := by decide
  rw [h2] at h
  exact h

end reuse

/-! ## The claims -/

section claims

/-- C1: on a pool whose free list is `fl` and whose used list is `ul`, if some entry
of the free list has a computed RSS core equal to `core`, then `FetchAddress`
(with fuel for the whole free list) returns 0; the entry `e` it selects is the
first such entry in free-list order (`fl = l1 ++ e :: l2` with no match in `l1`);
the output is the tuple of `e`; afterwards the free list is `l1 ++ l2`, the used
list is `ul ++ [e]`, `num_free` is one less and `num_used` one more. -/
theorem FetchAddress_takes_first_match (G : RSSFn) (ec fuel : Nat) (ap : addr_pool)
    (fl ul : List Nat) (core nq : Int) (d sa : sockaddr_in) (hwf : PoolLists ap fl ul)
    (hfuel : fl.length ≤ fuel) (hex : ∃ e ∈ fl, fetch_core G ec ap nq d e = core) :
    ∃ l1 e l2 ap', fl = l1 ++ e :: l2 ∧ (∀ x ∈ l1, fetch_core G ec ap nq d x ≠ core) ∧
      fetch_core G ec ap nq d e = core ∧
      FetchAddress G ec fuel ap core nq d sa = some (0, ap', adr ap e) ∧
      PoolLists ap' (l1 ++ l2) (ul ++ [e]) ∧
      ap'.num_free = ap.num_free - 1 ∧ ap'.num_used = ap.num_used + 1 := by
  obtain ⟨l1, e, l2, hfl, hno, he⟩ := exists_first _ fl hex
  subst hfl
  obtain ⟨ap', hf, hl, h1, h2, _⟩ :=
    fetch_found G ec fuel ap l1 l2 ul e core nq d sa hwf hfuel hno he
  exact ⟨l1, e, l2, ap', rfl, hno, he, hf, hl, h1, h2⟩

/-- C2: on a pool whose free list is `fl` and whose used list is `ul`, `FetchAddress`
(with fuel for the whole free list) returns, its result is 0 or -1, it is -1 if
and only if no entry of the free list has a computed RSS core equal to `core`,
and in that case the pool and the output location are returned unchanged. -/
theorem FetchAddress_fails_iff_no_match (G : RSSFn) (ec fuel : Nat) (ap : addr_pool)
    (fl ul : List Nat) (core nq : Int) (d sa : sockaddr_in) (hwf : PoolLists ap fl ul)
    (hfuel : fl.length ≤ fuel) :
    (∃ r ap' sa', FetchAddress G ec fuel ap core nq d sa = some (r, ap', sa') ∧
      (r = 0 ∨ r = -1)) ∧
    ((∃ ap' sa', FetchAddress G ec fuel ap core nq d sa = some (-1, ap', sa')) ↔
      ∀ e ∈ fl, fetch_core G ec ap nq d e ≠ core) ∧
    ((∀ e ∈ fl, fetch_core G ec ap nq d e ≠ core) →
      FetchAddress G ec fuel ap core nq d sa = some (-1, ap, sa)) := by
  have hfail : (∀ e ∈ fl, fetch_core G ec ap nq d e ≠ core) →
      FetchAddress G ec fuel ap core nq d sa = some (-1, ap, sa) :=
    fun hno => fetch_not_found G ec fuel ap fl ul core nq d sa hwf hfuel hno
  have hok : (∃ e ∈ fl, fetch_core G ec ap nq d e = core) →
      ∃ ap' sa', FetchAddress G ec fuel ap core nq d sa = some (0, ap', sa') := by
    intro hex
    obtain ⟨l1, e, l2, hfl, hno, he⟩ := exists_first _ fl hex
    subst hfl
    obtain ⟨ap', hf, _⟩ := fetch_found G ec fuel ap l1 l2 ul e core nq d sa hwf hfuel hno he
    exact ⟨ap', _, hf⟩
  refine ⟨?_, ⟨?_, ?_⟩, hfail⟩
  · by_cases hex : ∃ e ∈ fl, fetch_core G ec ap nq d e = core
    · obtain ⟨ap', sa', hf⟩ := hok hex
      exact ⟨0, ap', sa', hf, Or.inl rfl⟩
    · exact ⟨-1, ap, sa, hfail (fun e he hc => hex ⟨e, he, hc⟩), Or.inr rfl⟩
  · rintro ⟨ap', sa', hf⟩ e he hc
    obtain ⟨ap'', sa'', hf'⟩ := hok ⟨e, he, hc⟩
    rw [hf] at hf'
    simp at hf'
  · intro hno
    exact ⟨ap, sa, hfail hno⟩

/-- C10: for every base address and every `num_addr = n` with `1 ≤ n` and
`n * 64511` inside the range of `int`, `CreateAddressPool` yields a pool with
`num_entry = n * 64511`, `num_free = num_entry` and `num_used = 0`. -/
theorem CreateAddressPool_counts (addr_base : Nat) (n : Int) (h1 : 1 ≤ n)
    (h2 : n * 64511 < 2147483648) :
    (CreateAddressPool addr_base n).num_entry = n * 64511 ∧
    (CreateAddressPool addr_base n).num_free = (CreateAddressPool addr_base n).num_entry ∧
    (CreateAddressPool addr_base n).num_used = 0 :=
  ⟨(CreateAddressPool_inv addr_base n h1 h2).2, rfl, rfl⟩

/-- Witness of C1 on the two-slot pool: for core 0 under the parity function the scan
skips slot 0 (port 1025) and takes slot 1 (port 1026). -/
theorem FetchAddress_takes_first_match_witness :
    PoolLists small_example [0, 1] [] ∧
    (∃ e ∈ [0, 1], fetch_core rss_parity 1 small_example 4 dest_example e = 0) ∧
    ∃ l1 e l2 ap', [0, 1] = l1 ++ e :: l2 ∧
      (∀ x ∈ l1, fetch_core rss_parity 1 small_example 4 dest_example x ≠ 0) ∧
      fetch_core rss_parity 1 small_example 4 dest_example e = 0 ∧
      FetchAddress rss_parity 1 2 small_example 0 4 dest_example ⟨0, 0, 0⟩
        = some (0, ap', adr small_example e) ∧
      PoolLists ap' (l1 ++ l2) ([] ++ [e]) ∧
      ap'.num_free = small_example.num_free - 1 ∧ ap'.num_used = small_example.num_used + 1 :=
  ⟨small_example_lists, ⟨1, by decide, by decide⟩,
    FetchAddress_takes_first_match rss_parity 1 2 small_example [0, 1] [] 0 4 dest_example
      ⟨0, 0, 0⟩ small_example_lists (by decide) ⟨1, by decide, by decide⟩⟩

/-- Witness of C2 on the two-slot pool: no slot is steered to core 5, the call
returns -1 and changes nothing. -/
theorem FetchAddress_fails_iff_no_match_witness :
    PoolLists small_example [0, 1] [] ∧
    (∀ e ∈ [0, 1], fetch_core rss_parity 1 small_example 4 dest_example e ≠ 5) ∧
    FetchAddress rss_parity 1 2 small_example 5 4 dest_example ⟨0, 0, 0⟩
      = some (-1, small_example, ⟨0, 0, 0⟩) :=
  ⟨small_example_lists, by decide,
    (FetchAddress_fails_iff_no_match rss_parity 1 2 small_example [0, 1] [] 5 4 dest_example
      ⟨0, 0, 0⟩ small_example_lists (by decide)).2.2 (by decide)⟩

/-- Witness of C10: the flat pool of 10.0.0.1 (`num_addr = 1`) has
`num_entry = num_free = 64511` and `num_used = 0`. -/
theorem CreateAddressPool_counts_witness :
    (1 : Int) ≤ 1 ∧ (1 : Int) * 64511 < 2147483648 ∧
    (CreateAddressPool 0x0100000a 1).num_entry = 64511 ∧
    (CreateAddressPool 0x0100000a 1).num_free = 64511 ∧
    (CreateAddressPool 0x0100000a 1).num_used = 0 := by
  obtain ⟨h1, h2, h3⟩ := CreateAddressPool_counts 0x0100000a 1 (by decide) (by decide)
  have h4 : (CreateAddressPool 0x0100000a 1).num_entry = 64511 := by rw [h1]; norm_num
  exact ⟨by decide, by decide, h4, h2.trans h4, h3⟩

/-- C3: for a pool built by either constructor and driven by a run in valid use,
and for every tuple `t` in use, `FreeAddress` on `t` returns 0; `t` is held by
exactly one entry `e`, which is on the used list (`l1 ++ e :: l2`); afterwards the
used list is `l1 ++ l2`, the free list is the old free list with `e` appended,
`num_used` is one less and `num_free` one more. -/
theorem FreeAddress_in_use_succeeds (G : RSSFn) (ec fuel : Nat) (ap0 ap : addr_pool)
    (out : List sockaddr_in) (t : sockaddr_in) (hb : IsBuilt G ec ap0)
    (hr : ValidRun G ec ap0 ap out) (ht : t ∈ out) :
    ∃ fl l1 e l2 ap', PoolLists ap fl (l1 ++ e :: l2) ∧ adr ap e = t ∧
      (∀ x ∈ fl ++ (l1 ++ l2), adr ap x ≠ t) ∧
      FreeAddress fuel ap t = some (0, ap') ∧
      PoolLists ap' (fl ++ [e]) (l1 ++ l2) ∧
      ap'.num_used = ap.num_used - 1 ∧ ap'.num_free = ap.num_free + 1 := by
  obtain ⟨fl, ul, hinv, hout⟩ := ValidRun_inv G ec ap0 ap out (IsBuilt_inv G ec ap0 hb) hr
  subst hout
  obtain ⟨l1, e, l2, ap', hul, hte, hf, hinv', h1, h2, _, _⟩ :=
    free_cases fuel ap fl ul t hinv ht
  subst hul
  refine ⟨fl, l1, e, l2, ap', hinv.lists, hte, ?_, hf, hinv'.lists, h2, h1⟩
  intro x hx hxt
  have hxe : x = e := adr_inj ap fl _ hinv x e
    (by
      simp only [List.mem_append, List.mem_cons] at hx ⊢
      tauto)
    (by simp) (hxt.trans hte.symm)
  subst hxe
  have hnd := hinv.lists.nodup
  rw [List.nodup_append] at hnd
  obtain ⟨_, hnd2, hdisj⟩ := hnd
  rcases List.mem_append.mp hx with h | h
  · exact hdisj h (by simp)
  · have := List.nodup_middle.mp hnd2
    exact (List.nodup_cons.mp this).1 h

/-- Witness of C3: after one fetch on the flat pool of 10.0.0.1 the tuple
10.0.0.1:1025 is in use and freeing it succeeds. -/
theorem FreeAddress_in_use_succeeds_witness :
    IsBuilt rss_zero 1 flat_example ∧
    ∃ ap, ValidRun rss_zero 1 flat_example ap [first_tuple] ∧
      ∃ fl l1 e l2 ap', PoolLists ap fl (l1 ++ e :: l2) ∧ adr ap e = first_tuple ∧
        (∀ x ∈ fl ++ (l1 ++ l2), adr ap x ≠ first_tuple) ∧
        FreeAddress 0 ap first_tuple = some (0, ap') ∧
        PoolLists ap' (fl ++ [e]) (l1 ++ l2) ∧
        ap'.num_used = ap.num_used - 1 ∧ ap'.num_free = ap.num_free + 1 :=
  ⟨flat_example_built, fetch_example.elim fun ap hf =>
    ⟨ap, fetch_example_run ap hf,
      FreeAddress_in_use_succeeds rss_zero 1 0 flat_example ap [first_tuple] first_tuple
        flat_example_built (fetch_example_run ap hf) (List.mem_singleton.mpr rfl)⟩⟩

/-- C4: for a pool built by either constructor and any run of `FetchAddress` /
`FreeAddress` calls with arbitrary arguments, `num_free + num_used = num_entry`
holds after construction and after every call of the run.  The calls of a run
are not chosen to return: from every state of a run, every `FetchAddress` call
(with fuel above `num_entry`) returns, and so does every `FreeAddress` call
whose IP offset lies inside `[0, num_addr)`, and the sum holds after it. -/
theorem counters_sum_invariant (G : RSSFn) (ec : Nat) (ap0 ap : addr_pool)
    (hb : IsBuilt G ec ap0) (hr : Run G ec ap0 ap) :
    ap.num_free + ap.num_used = ap.num_entry ∧
    (∀ (fuel : Nat) (core nq : Int) (d sa : sockaddr_in), ap.num_entry < ((fuel : Nat) : Int) →
      ∃ r ap' t, FetchAddress G ec fuel ap core nq d sa = some (r, ap', t) ∧
        ap'.num_free + ap'.num_used = ap'.num_entry) ∧
    (∀ (fuel : Nat) (t : sockaddr_in), ((map_offset ap t : Nat) : Int) < ap.num_addr →
      ∃ r ap', FreeAddress fuel ap t = some (r, ap') ∧
        ap'.num_free + ap'.num_used = ap'.num_entry) := by
  have hsum : ∀ ap, Run G ec ap0 ap → ap.num_free + ap.num_used = ap.num_entry := by
    intro ap hr
    obtain ⟨h1, h2⟩ := Run_counters G ec ap0 ap hr
    obtain ⟨h3, h4⟩ := IsBuilt_counters G ec ap0 hb
    rw [h1, h2, h3, h4]; ring
  have hl := Run_Linked G ec ap0 ap hb hr
  refine ⟨hsum ap hr, ?_, ?_⟩
  · intro fuel core nq d sa hfuel
    have h0 := IsBuilt_num_entry G ec ap0 hb
    rw [← (Run_counters G ec ap0 ap hr).2] at h0
    obtain ⟨r, ap', t, hf⟩ := fetch_total G ec ap _ core nq d sa hl fuel (by omega)
    exact ⟨r, ap', t, hf, hsum ap' (Run.fetch ap fuel core nq d sa r ap' t hr hf)⟩
  · intro fuel t hoff
    obtain ⟨r, ap', hf⟩ := free_total ap _ hl fuel t hoff
    exact ⟨r, ap', hf, hsum ap' (Run.free ap fuel t r ap' hr hf)⟩

/-- Witness of C4: on the flat pool of 10.0.0.1 a `FreeAddress` of the never fetched
tuple 10.0.0.1:1025 is a run; it leaves `num_free = 64512` and `num_used = -1`,
whose sum is still `num_entry`. -/
theorem counters_sum_invariant_witness :
    IsBuilt rss_zero 1 flat_example ∧
    ∃ ap, Run rss_zero 1 flat_example ap ∧ ap.num_free = 64512 ∧ ap.num_used = -1 ∧
      ap.num_free + ap.num_used = ap.num_entry := by
  have hinv : PoolInv flat_example ([] ++ 0 :: List.range' 1 64510) [] := by
    have h := flat_example_inv
    have hrange : List.range 64511 = [] ++ 0 :: List.range' 1 64510 := by
      rw [List.range_eq_range', List.nil_append]
      exact List.range'_succ 0 64510 1
    rw [hrange] at h
    exact h
  obtain ⟨ap, hf, h1, h2⟩ := free_not_in_use 0 flat_example [] _ [] 0 hinv
  have hrun : Run rss_zero 1 flat_example ap :=
    Run.free flat_example 0 _ 0 ap Run.start hf
  obtain ⟨_, c2, c3⟩ := flat_example_counts
  exact ⟨flat_example_built, ap, hrun, by rw [h1, c2]; norm_num, by rw [h2, c3]; norm_num,
    (counters_sum_invariant rss_zero 1 flat_example ap flat_example_built hrun).1⟩

/-- C5 (failing input): on the fresh flat pool of 10.0.0.1, `FreeAddress` of the never
fetched tuple 10.0.0.1:65535 returns 0, and afterwards entry 64510, one of the
`num_entry = 64511` entries, is on neither the free list nor the used list. -/
theorem free_of_last_tuple_orphans_entry :
    ∃ ap', FreeAddress 0 flat_example last_tuple = some (0, ap') ∧
      ap'.num_entry = 64511 ∧
      ¬ OnList ap' .free_list 64510 ∧ ¬ OnList ap' .used_list 64510 := by
  have hinv : PoolInv flat_example (List.range 64510 ++ [64510]) [] := by
    have h := flat_example_inv
    rw [List.range_succ] at h
    exact h
  obtain ⟨ap', hf, h1, h2, h3⟩ := free_last_free 0 flat_example _ [] 64510 hinv
  have ht : adr flat_example 64510 = last_tuple := flat_example_adr 64510 (by norm_num)
  rw [ht] at hf
  exact ⟨ap', hf, by rw [h3]; exact flat_example_counts.1, h1, h2⟩

/-- C6 (failing input): on the flat pool of 10.0.0.1, fetch for core 0 (every flow
steered to core 0) returns 10.0.0.1:1025; the first `FreeAddress` of it returns 0
and restores 64511/0; the second `FreeAddress` of it returns 0 again and leaves
`num_free = 64512`, `num_used = -1`. -/
theorem double_free_succeeds :
    ∃ ap1 ap2 ap3,
      FetchAddress rss_zero 1 64511 flat_example 0 1 dest_example ⟨0, 0, 0⟩
        = some (0, ap1, first_tuple) ∧
      FreeAddress 0 ap1 first_tuple = some (0, ap2) ∧
      ap2.num_free = 64511 ∧ ap2.num_used = 0 ∧
      FreeAddress 0 ap2 first_tuple = some (0, ap3) ∧
      ap3.num_free = 64512 ∧ ap3.num_used = -1 := by
  obtain ⟨ap1, hf⟩ := fetch_example
  obtain ⟨ap2, ap3, h1, h2, h3, h4, h5, h6⟩ := free_twice rss_zero 1 64511 0 0 flat_example _ _
    0 1 dest_example ⟨0, 0, 0⟩ ap1 first_tuple flat_example_inv hf
  obtain ⟨_, c2, c3⟩ := flat_example_counts
  exact ⟨ap1, ap2, ap3, hf, h1, h2.trans c2, h3.trans c3, h4, by rw [h5, c2]; norm_num,
    by rw [h6, c3]; norm_num⟩

/-- C7 (failing input): on the fresh flat pool of 10.0.0.1 (64511 free, 0 used),
`FreeAddress` of the never fetched tuple 10.0.0.1:1025 returns 0 and leaves
`num_free = 64512`, `num_used = -1`. -/
theorem free_of_never_fetched_succeeds :
    flat_example.num_free = 64511 ∧ flat_example.num_used = 0 ∧
    ∃ ap', FreeAddress 0 flat_example first_tuple = some (0, ap') ∧
      ap'.num_free = 64512 ∧ ap'.num_used = -1 := by
  have hinv : PoolInv flat_example ([] ++ 0 :: List.range' 1 64510) [] := by
    have h := flat_example_inv
    have hrange : List.range 64511 = [] ++ 0 :: List.range' 1 64510 := by
      rw [List.range_eq_range', List.nil_append]
      exact List.range'_succ 0 64510 1
    rw [hrange] at h
    exact h
  obtain ⟨ap, hf, h1, h2⟩ := free_not_in_use 0 flat_example [] _ [] 0 hinv
  have ht : adr flat_example 0 = first_tuple := flat_example_adr 0 (by norm_num)
  rw [ht] at hf
  obtain ⟨_, c2, c3⟩ := flat_example_counts
  exact ⟨c2, c3, ap, hf, by rw [h1, c2]; norm_num, by rw [h2, c3]; norm_num⟩

/-- C8 (failing input): on the flat pool of 10.0.0.1 (`num_addr = 1`), for the tuples
10.0.0.2:1025 (above the range) and 10.0.0.0:1025 (below it) the test
`index >= 0 || index < num_addr` is true, so the code indexes the map at a row
outside its allocation: the call has no defined result (`none`) instead of
returning -1 on an unchanged pool. -/
theorem free_out_of_range_indexes_map :
    FreeAddress_guard (to_int32 (map_offset flat_example ⟨0, htons 1025, 0x0200000a⟩))
      flat_example.num_addr = true ∧
    FreeAddress 0 flat_example ⟨0, htons 1025, 0x0200000a⟩ = none ∧
    FreeAddress_guard (to_int32 (map_offset flat_example ⟨0, htons 1025, 0x0000000a⟩))
      flat_example.num_addr = true ∧
    FreeAddress 0 flat_example ⟨0, htons 1025, 0x0000000a⟩ = none ∧
    FreeAddress 0 flat_example ⟨0, htons 1025, 0x0200000a⟩ ≠ some (-1, flat_example) :=
  have h1 := flat_example_out_of_range ⟨0, htons 1025, 0x0200000a⟩ (by decide)
  have h2 := flat_example_out_of_range ⟨0, htons 1025, 0x0000000a⟩ (by decide)
  ⟨h1.2, h1.1, h2.2, h2.1, by rw [h1.1]; exact Option.noConfusion⟩

/-- C9: for a pool built by either constructor and driven by a run in valid use, if
`FetchAddress` succeeds and returns the tuple `t`, then a following `FreeAddress`
of `t` returns 0, `num_free` and `num_used` are back at their values before the
fetch, the entry of `t` is on the free list (and not on the used list), and a
further `FetchAddress` with the same core, queue count and destination (and
fuel for `num_free` entries) returns 0. -/
theorem fetch_free_round_trip (G : RSSFn) (ec fuel fuel1 fuel2 : Nat) (ap0 ap : addr_pool)
    (out : List sockaddr_in) (core nq : Int) (d sa sa2 : sockaddr_in) (ap1 : addr_pool)
    (t : sockaddr_in) (hb : IsBuilt G ec ap0) (hr : ValidRun G ec ap0 ap out)
    (hf : FetchAddress G ec fuel ap core nq d sa = some (0, ap1, t))
    (hfuel2 : ap.num_free ≤ ((fuel2 : Nat) : Int)) :
    ∃ ap2 e, FreeAddress fuel1 ap1 t = some (0, ap2) ∧
      ap2.num_free = ap.num_free ∧ ap2.num_used = ap.num_used ∧
      adr ap2 e = t ∧ OnList ap2 .free_list e ∧ ¬ OnList ap2 .used_list e ∧
      ∃ ap3 t', FetchAddress G ec fuel2 ap2 core nq d sa2 = some (0, ap3, t') := by
  obtain ⟨fl, ul, hinv, _⟩ := ValidRun_inv G ec ap0 ap out (IsBuilt_inv G ec ap0 hb) hr
  exact round_trip G ec fuel fuel1 fuel2 ap fl ul core nq d sa sa2 ap1 t hinv hf hfuel2

/-- Witness of C9 on the flat pool of 10.0.0.1: the counters go
64511/0 -> 64510/1 -> 64511/0 and the tuple can be fetched again. -/
theorem fetch_free_round_trip_witness :
    IsBuilt rss_zero 1 flat_example ∧ ValidRun rss_zero 1 flat_example flat_example [] ∧
    flat_example.num_free = 64511 ∧ flat_example.num_used = 0 ∧
    ∃ ap1, FetchAddress rss_zero 1 64511 flat_example 0 1 dest_example ⟨0, 0, 0⟩
        = some (0, ap1, first_tuple) ∧
      ap1.num_free = 64510 ∧ ap1.num_used = 1 ∧
      ∃ ap2 e, FreeAddress 0 ap1 first_tuple = some (0, ap2) ∧
        ap2.num_free = flat_example.num_free ∧ ap2.num_used = flat_example.num_used ∧
        adr ap2 e = first_tuple ∧ OnList ap2 .free_list e ∧ ¬ OnList ap2 .used_list e ∧
        ∃ ap3 t', FetchAddress rss_zero 1 64511 ap2 0 1 dest_example ⟨0, 0, 0⟩
          = some (0, ap3, t') := by
  obtain ⟨ap1, hf⟩ := fetch_example
  obtain ⟨_, c2, c3⟩ := flat_example_counts
  have hcnt : ap1.num_free = 64510 ∧ ap1.num_used = 1 := by
    rcases fetch_cases rss_zero 1 64511 flat_example _ _ 0 1 dest_example ⟨0, 0, 0⟩ 0 ap1
      first_tuple flat_example_inv hf with ⟨hr, _⟩ | ⟨_, _, _, _, _, _, _, _, _, _, h1, h2⟩
    · omega
    · exact ⟨by rw [h1, c2]; norm_num, by rw [h2, c3]; norm_num⟩
  exact ⟨flat_example_built, ValidRun.start, c2, c3, ap1, hf, hcnt.1, hcnt.2,
    fetch_free_round_trip rss_zero 1 64511 0 64511 flat_example flat_example [] 0 1
      dest_example ⟨0, 0, 0⟩ ⟨0, 0, 0⟩ ap1 first_tuple flat_example_built ValidRun.start hf
      (by rw [c2]; norm_num)⟩

/-- C16: for every base address and `num_addr = n` with `1 ≤ n` and `n * 64511` inside
the range of `int`, the pool built by `CreateAddressPool` has the free list
`0, 1, ..., n * 64511 - 1` (the slots of the backing array in order) and an empty
used list; slot `e` stores IP `htonl(ntohl(base) + e / 64511)` and port
`htons(1025 + e % 64511)`, so the pair `(i, j)` with `i < n` and
`1025 ≤ j ≤ 65535` is stored exactly at slot `i * 64511 + (j - 1025)`: pairs come
ordered by `i`, then by `j`, and no two slots store the same tuple. -/
theorem CreateAddressPool_content (b n : Nat) (h1 : 1 ≤ n) (h2 : n * 64511 < 2147483648) :
    PoolLists (CreateAddressPool b (n : Int)) (List.range (n * 64511)) [] ∧
    (∀ e, e < n * 64511 → adr (CreateAddressPool b (n : Int)) e
      = ⟨0, htons (1025 + e % 64511), htonl (ntohl b + e / 64511)⟩) ∧
    (∀ i j, i < n → 1025 ≤ j → j ≤ 65535 →
      i * 64511 + (j - 1025) < n * 64511 ∧
      adr (CreateAddressPool b (n : Int)) (i * 64511 + (j - 1025))
        = ⟨0, htons j, htonl (ntohl b + i)⟩) ∧
    (∀ e1 e2, e1 < n * 64511 → e2 < n * 64511 →
      adr (CreateAddressPool b (n : Int)) e1 = adr (CreateAddressPool b (n : Int)) e2 →
      e1 = e2) := by
  have hn : ((n : Nat) : Int).toNat = n := Int.toNat_ofNat n
  have hinv := (CreateAddressPool_inv b (n : Int) (by exact_mod_cast h1)
    (by exact_mod_cast h2)).1
  rw [hn] at hinv
  obtain ⟨hB, _⟩ := CreateAddressPool_Built b (n : Int) (Int.ofNat_zero_le n)
  rw [hn] at hB
  have hadr : ∀ e, e < n * 64511 → adr (CreateAddressPool b (n : Int)) e
      = ⟨0, htons (1025 + e % 64511), htonl (ntohl b + e / 64511)⟩ := by
    intro e he
    have := hB.adr_eq e _ _ (tuple_rows_get n 0 e he)
    rw [htonl_mod, Nat.zero_add] at this
    exact this
  refine ⟨hinv.lists, hadr, ?_, ?_⟩
  · intro i j hi hj1 hj2
    have hlt : i * 64511 + (j - 1025) < n * 64511 := by
      have : (i + 1) * 64511 ≤ n * 64511 := Nat.mul_le_mul_right _ hi
      omega
    refine ⟨hlt, ?_⟩
    rw [hadr _ hlt]
    have e1 : (i * 64511 + (j - 1025)) % 64511 = j - 1025 := by
      rw [Nat.add_comm, Nat.add_mul_mod_self_right]
      exact Nat.mod_eq_of_lt (by omega)
    have e2 : (i * 64511 + (j - 1025)) / 64511 = i := by
      rw [Nat.add_comm, Nat.add_mul_div_right _ _ (by norm_num)]
      rw [Nat.div_eq_of_lt (by omega)]
      simp
    rw [e1, e2]
    have : 1025 + (j - 1025) = j := by omega
    rw [this]
  · intro e1 e2 he1 he2 heq
    exact adr_inj _ _ _ hinv e1 e2 (by simpa using he1) (by simpa using he2) heq

/-- Witness of C16 on the flat pool of 10.0.0.1: slot 64510, the last one, stores
10.0.0.1:65535. -/
theorem CreateAddressPool_content_witness :
    (1 : Nat) ≤ 1 ∧ 1 * 64511 < 2147483648 ∧
    PoolLists (CreateAddressPool 0x0100000a ((1 : Nat) : Int)) (List.range (1 * 64511)) [] ∧
    adr (CreateAddressPool 0x0100000a ((1 : Nat) : Int)) (0 * 64511 + (65535 - 1025))
      = ⟨0, htons 65535, htonl (ntohl 0x0100000a + 0)⟩ :=
  have h := CreateAddressPool_content 0x0100000a 1 (by decide) (by decide)
  ⟨by decide, by decide, h.1, (h.2.2.1 0 65535 (by decide) (by decide) (by decide)).2⟩

/-- C17: in every state `ap` of a run of calls from a pool built by either constructor
(the built pool itself included) the map is consistent with the entries:
(1) for every entry `e < num_entry` the IP offset `(ntohl(e.IP) - addr_base) mod 2^32`
lies below `num_addr`, the map slot at that offset and port `ntohs(e.port)` holds `e`,
and the lookup of `FreeAddress` on the tuple of `e` finds `e`; every tuple returned by
a successful `FetchAddress` is the tuple of such an entry and the lookup of
`FreeAddress` in the state after the fetch finds that entry;
(2) every non-empty map slot `[i][j]` holds an entry `e < num_entry` whose tuple is
`(htonl(addr_base + i), htons(j))`;
(3) in a pool built by `CreateAddressPool(b, n)` every slot `[i][j]` with `i < n` and
`1025 ≤ j ≤ 65535` is non-empty and every slot with `j ≤ 1024` is empty. -/
theorem map_entry_consistency (G : RSSFn) (ec : Nat) (ap0 ap : addr_pool)
    (hb : IsBuilt G ec ap0) (hr : Run G ec ap0 ap) :
    ∃ m, ap.mapper = some m ∧
      (∀ e : Nat, ((e : Nat) : Int) < ap.num_entry →
        ((map_offset ap (adr ap e) : Nat) : Int) < ap.num_addr ∧
        m (map_offset ap (adr ap e)) (ntohs (adr ap e).sin_port) = some e ∧
        ∀ fuel, FreeAddress_lookup fuel ap (adr ap e) = some (some e)) ∧
      (∀ (fuel fuel' : Nat) (core nq : Int) (d sa : sockaddr_in) (ap' : addr_pool)
        (t : sockaddr_in), FetchAddress G ec fuel ap core nq d sa = some (0, ap', t) →
        ∃ e : Nat, ((e : Nat) : Int) < ap.num_entry ∧ t = adr ap e ∧
          FreeAddress_lookup fuel' ap' t = some (some e)) ∧
      (∀ i j e, m i j = some e → ((e : Nat) : Int) < ap.num_entry ∧
        adr ap e = ⟨0, htons j, htonl (ap.addr_base + i)⟩) ∧
      (∀ (b : Nat) (n : Int), ap0 = CreateAddressPool b n → 1 ≤ n →
        n * 64511 < 2147483648 → ∀ i j : Nat,
          (((i : Nat) : Int) < n → 1025 ≤ j → j ≤ 65535 → ∃ e, m i j = some e) ∧
          (j ≤ 1024 → m i j = none)) := by
  have hlook : ∀ ap, Run G ec ap0 ap → ∀ e : Nat, ((e : Nat) : Int) < ap.num_entry →
      ∀ fuel, FreeAddress_lookup fuel ap (adr ap e) = some (some e) := by
    intro ap hr e he fuel
    obtain ⟨m, hm, hf1, _⟩ := Run_map_facts G ec ap0 ap hb hr
    obtain ⟨ho, hs⟩ := hf1 e he
    rw [lookup_in_range fuel ap _ m hm ho, hs]
  obtain ⟨m, hm, hf1, hf2⟩ := Run_map_facts G ec ap0 ap hb hr
  refine ⟨m, hm, ?_, ?_, ?_, ?_⟩
  · intro e he
    exact ⟨(hf1 e he).1, (hf1 e he).2, hlook ap hr e he⟩
  · intro fuel fuel' core nq d sa ap' t hf
    have hl := Run_Linked G ec ap0 ap hb hr
    obtain ⟨e, he, ht⟩ := fetch_returns_entry G ec fuel ap _ core nq d sa ap' t hl hf
    have he' : ((e : Nat) : Int) < ap.num_entry := by omega
    have hsc := fetch_frame G ec fuel ap core nq d sa 0 ap' t hf
    refine ⟨e, he', ht, ?_⟩
    have hr' := Run.fetch ap fuel core nq d sa 0 ap' t hr hf
    have h := hlook ap' hr' e (by rw [hsc.num_entry_eq]; exact he') fuel'
    rw [hsc.adr_eq, ← ht] at h
    exact h
  · intro i j e h
    exact ⟨(hf2 i j e h).1, (hf2 i j e h).2.1⟩
  · intro b n hap h1 h2 i j
    constructor
    · intro hi hj1 hj2
      obtain ⟨hB, _⟩ := CreateAddressPool_Built b n (by omega)
      obtain ⟨m', hm', hme⟩ := hB.map_eq
      have hmm : m = m' := by
        have h := (Run_frame G ec ap0 ap hr).mapper_eq
        rw [hm, hap, hm'] at h
        exact Option.some.inj h
      have hmem : (i, j) ∈ tuple_rows n.toNat 0 := by
        rw [mem_tuple_rows]
        omega
      obtain ⟨e, he⟩ := List.mem_iff_getElem?.mp hmem
      exact ⟨e, by rw [hmm]; exact (hme i j e).mpr he⟩
    · intro hj
      cases hs : m i j with
      | none => rfl
      | some e =>
        have := (hf2 i j e hs).2.2.2.1
        omega

/-- Witness of C17 on the fresh flat pool of 10.0.0.1: the lookup of `FreeAddress` on the
tuple stored in slot 0 finds slot 0. -/
theorem map_entry_consistency_witness :
    IsBuilt rss_zero 1 flat_example ∧ Run rss_zero 1 flat_example flat_example ∧
    FreeAddress_lookup 0 flat_example (adr flat_example 0) = some (some 0) :=
  ⟨flat_example_built, Run.start,
    (map_entry_consistency rss_zero 1 flat_example flat_example flat_example_built
      Run.start).elim fun _ h =>
        (h.2.1 0 (by rw [flat_example_counts.1]; norm_num)).2.2 0⟩

/-- C14: in every state `ap` of a run of calls from a pool built by either constructor,
for a tuple `t` whose IP offset lies in `[0, num_addr)`: when the map slot
`[offset][ntohs(t.port)]` is empty, `FreeAddress(ap, t)` returns `-1` and the pool
afterwards is the pool before (both lists, `num_free` and `num_used` included).  The
slot is empty for every port `0 .. 1024`, and in a pool built by
`CreateAddressPoolPerCore` it is empty for every tuple that `GetRSSCPUCore`, called as
the constructor calls it, does not send to the core of the pool. -/
theorem FreeAddress_empty_slot_fails (G : RSSFn) (ec : Nat) (ap0 ap : addr_pool)
    (hb : IsBuilt G ec ap0) (hr : Run G ec ap0 ap) (fuel : Nat) (t : sockaddr_in)
    (hoff : ((map_offset ap t : Nat) : Int) < ap.num_addr) :
    ∃ m, ap.mapper = some m ∧
      (m (map_offset ap t) (ntohs t.sin_port) = none → FreeAddress fuel ap t = some (-1, ap)) ∧
      (ntohs t.sin_port ≤ 1024 → m (map_offset ap t) (ntohs t.sin_port) = none) ∧
      (∀ (core nq : Int) (sb : Nat) (n : Int) (d dp : Nat),
        ap0 = CreateAddressPoolPerCore G ec core nq sb n d dp →
        G (ntohl d) (ntohl t.sin_addr) (ntohs dp) (ntohs t.sin_port) nq ec ≠ core →
        m (map_offset ap t) (ntohs t.sin_port) = none) := by
  obtain ⟨m, hm, _, hf2⟩ := Run_map_facts G ec ap0 ap hb hr
  refine ⟨m, hm, free_empty_slot fuel ap t m hm hoff, ?_, ?_⟩
  · intro hp
    cases hs : m (map_offset ap t) (ntohs t.sin_port) with
    | none => rfl
    | some e =>
      have := (hf2 _ _ e hs).2.2.2.1
      omega
  · intro core nq sb n d dp hap hne
    cases hs : m (map_offset ap t) (ntohs t.sin_port) with
    | none => rfl
    | some e =>
      exfalso
      apply hne
      obtain ⟨hB, _⟩ := CreateAddressPoolPerCore_Built G ec core nq sb n d dp
      obtain ⟨m', hm', hme⟩ := hB.map_eq
      have hsc := Run_frame G ec ap0 ap hr
      have hmm : m = m' := by
        have h := hsc.mapper_eq
        rw [hm, hap, hm'] at h
        exact Option.some.inj h
      rw [hmm] at hs
      have hget := (hme _ _ e).mp hs
      obtain ⟨_, hG⟩ := kept_mem G ec core nq sb n d dp _ _ (getElem?_mem' _ e _ hget)
      have hbase : ap.addr_base = ntohl sb := by
        rw [hsc.addr_base_eq, hap]; exact hB.base_eq
      have hoffs : (ntohl sb + map_offset ap t) % 4294967296 = ntohl t.sin_addr := by
        have h1 := ntohl_lt sb
        have h2 := ntohl_lt t.sin_addr
        simp only [map_offset, hbase]
        omega
      rw [hoffs] at hG
      exact hG

/-- Witness of C14 on the fresh flat pool of 10.0.0.1: `FreeAddress` of 10.0.0.1:80 returns
`-1` and leaves the pool as it was. -/
theorem FreeAddress_empty_slot_fails_witness :
    IsBuilt rss_zero 1 flat_example ∧ Run rss_zero 1 flat_example flat_example ∧
    ((map_offset flat_example ⟨0, htons 80, 0x0100000a⟩ : Nat) : Int) < flat_example.num_addr ∧
    FreeAddress 0 flat_example ⟨0, htons 80, 0x0100000a⟩ = some (-1, flat_example) :=
  have hoff : ((map_offset flat_example ⟨0, htons 80, 0x0100000a⟩ : Nat) : Int)
      < flat_example.num_addr := by
    rw [flat_example_num_addr, flat_example_offset]
    decide
  ⟨flat_example_built, Run.start, hoff,
    (FreeAddress_empty_slot_fails rss_zero 1 flat_example flat_example flat_example_built
      Run.start 0 ⟨0, htons 80, 0x0100000a⟩ hoff).elim fun _ h =>
        h.2.1 (h.2.2.1 (by decide))⟩

/-- C11: for every core `k`, queue count `q ≥ 1`, base address, `num_addr`, destination
and every function `GetRSSCPUCore`, in the pool built by `CreateAddressPoolPerCore` and
in every state reached from it by `FetchAddress` / `FreeAddress` calls, every entry
`e < num_entry` satisfies `GetRSSCPUCore(dIP, entry IP, dPort, entry port, q, flag) = k`
with the four values in host byte order. -/
theorem per_core_entries_hash_to_core (G : RSSFn) (ec : Nat) (core nq : Int) (sb : Nat)
    (n : Int) (d dp : Nat) (ap : addr_pool) (hq : 1 ≤ nq)
    (hr : Run G ec (CreateAddressPoolPerCore G ec core nq sb n d dp) ap) (e : Nat)
    (he : ((e : Nat) : Int) < ap.num_entry) :
    G (ntohl d) (ntohl (adr ap e).sin_addr) (ntohs dp) (ntohs (adr ap e).sin_port) nq ec
      = core := by
  have _ := hq
  obtain ⟨hB, hne⟩ := CreateAddressPoolPerCore_Built G ec core nq sb n d dp
  have hsc := Run_frame G ec _ ap hr
  rw [hsc.num_entry_eq, hne] at he
  have he' : e < (kept_tuples G ec core nq sb n d dp).length := by exact_mod_cast he
  obtain ⟨⟨i, j⟩, hget⟩ : ∃ k, (kept_tuples G ec core nq sb n d dp)[e]? = some k :=
    ⟨_, List.getElem?_eq_getElem he'⟩
  obtain ⟨hmem, hG⟩ := kept_mem G ec core nq sb n d dp i j (getElem?_mem' _ e _ hget)
  have hj := (mem_tuple_rows _ _ _ _).mp hmem
  rw [hsc.adr_eq, hB.adr_eq e i j hget]
  simp only
  rw [ntohl_htonl _ (Nat.mod_lt _ (by norm_num)), ntohs_htons,
    Nat.mod_eq_of_lt (show j < 65536 by omega)]
  exact hG

/-- Witness of C11 on the per-core pool of 10.0.0.1 for core 0 of two queues under the
parity function: the entry in slot 0 is steered to core 0 when the destination comes
first. -/
theorem per_core_entries_hash_to_core_witness :
    (1 : Int) ≤ 2 ∧ Run rss_parity 1 parity_example parity_example ∧
    (((0 : Nat) : Nat) : Int) < parity_example.num_entry ∧
    rss_parity (ntohl 0x0101a8c0) (ntohl (adr parity_example 0).sin_addr) (ntohs (htons 80))
      (ntohs (adr parity_example 0).sin_port) 2 1 = 0 :=
  have he : (((0 : Nat) : Nat) : Int) < parity_example.num_entry := by
    rw [parity_example_Built.2]; norm_num
  ⟨by decide, Run.start, he,
    per_core_entries_hash_to_core rss_parity 1 0 2 0x0100000a 1 0x0101a8c0 (htons 80)
      parity_example (by decide) Run.start 0 he⟩

/-- C18: for every pool state `ap` and all arguments, a `FetchAddress` call and a
`FreeAddress` call that return, with success or with failure, leave `addr_base`,
`num_addr`, `num_entry`, the map and the tuple stored in every slot as they were; a
call that fails returns the pool itself. -/
theorem calls_leave_content (G : RSSFn) (ec : Nat) (ap : addr_pool) :
    (∀ (fuel : Nat) (core nq : Int) (d sa : sockaddr_in) (r : Int) (ap' : addr_pool)
      (t : sockaddr_in), FetchAddress G ec fuel ap core nq d sa = some (r, ap', t) →
      ap'.addr_base = ap.addr_base ∧ ap'.num_addr = ap.num_addr ∧
      ap'.num_entry = ap.num_entry ∧ ap'.mapper = ap.mapper ∧
      (∀ x, adr ap' x = adr ap x) ∧ (r ≠ 0 → ap' = ap)) ∧
    (∀ (fuel : Nat) (t : sockaddr_in) (r : Int) (ap' : addr_pool),
      FreeAddress fuel ap t = some (r, ap') →
      ap'.addr_base = ap.addr_base ∧ ap'.num_addr = ap.num_addr ∧
      ap'.num_entry = ap.num_entry ∧ ap'.mapper = ap.mapper ∧
      (∀ x, adr ap' x = adr ap x) ∧ (r ≠ 0 → ap' = ap)) := by
  constructor
  · intro fuel core nq d sa r ap' t h
    have hsc := fetch_frame G ec fuel ap core nq d sa r ap' t h
    refine ⟨hsc.addr_base_eq, hsc.num_addr_eq, hsc.num_entry_eq, hsc.mapper_eq, hsc.adr_eq, ?_⟩
    intro hr
    unfold FetchAddress at h
    cases hs : FetchAddress_scan G ec ap core nq d fuel (load ap .free_first) with
    | none => simp [hs] at h
    | some x =>
      cases x with
      | none =>
        simp only [hs, Option.some.injEq, Prod.mk.injEq] at h
        exact h.2.1.symm
      | some w =>
        simp only [hs] at h
        cases hrm : TAILQ_REMOVE ap .free_list w with
        | none => simp [hrm] at h
        | some ap1 =>
          simp only [hrm, Option.some.injEq, Prod.mk.injEq] at h
          exact absurd h.1.symm hr
  · intro fuel t r ap' h
    have hsc := free_frame fuel ap t r ap' h
    refine ⟨hsc.addr_base_eq, hsc.num_addr_eq, hsc.num_entry_eq, hsc.mapper_eq, hsc.adr_eq, ?_⟩
    intro hr
    unfold FreeAddress at h
    cases hs : FreeAddress_lookup fuel ap t with
    | none => simp [hs] at h
    | some x =>
      cases x with
      | none =>
        simp only [hs, Option.some.injEq, Prod.mk.injEq] at h
        exact h.2.symm
      | some w =>
        simp only [hs] at h
        cases hrm : TAILQ_REMOVE ap .used_list w with
        | none => simp [hrm] at h
        | some ap1 =>
          simp only [hrm, Option.some.injEq, Prod.mk.injEq] at h
          exact absurd h.1.symm hr

/-- Witness of C18 on the two-slot pool: the fetch for core 0 under the parity function
succeeds and the pool afterwards has the map and the tuples of the pool before. -/
theorem calls_leave_content_witness :
    ∃ ap', FetchAddress rss_parity 1 2 small_example 0 4 dest_example ⟨0, 0, 0⟩
        = some (0, ap', adr small_example 1) ∧
      ap'.mapper = small_example.mapper ∧ ∀ x, adr ap' x = adr small_example x :=
  (fetch_found rss_parity 1 2 small_example [0] [] [] 1 0 4 dest_example ⟨0, 0, 0⟩
    small_example_lists (by decide) (by decide) (by decide)).elim fun ap' h =>
    have hc := (calls_leave_content rss_parity 1 small_example).1 2 0 4 dest_example
      ⟨0, 0, 0⟩ 0 ap' (adr small_example 1) h.1
    ⟨ap', h.1, hc.2.2.2.1, hc.2.2.2.2.1⟩

/-- C19: for every core, queue count `q ≥ 1`, base address, `num_addr = n ≥ 0` with
`n * 64511` inside the range of `int`, destination and every function `GetRSSCPUCore`,
the pool built by `CreateAddressPoolPerCore` has `0 ≤ num_entry ≤ n * 64511 / q` (the
allocated capacity), `num_free = num_entry`, `num_used = 0`, the free list
`0, 1, ..., num_entry - 1` and an empty used list; every slot of the backing array from
index `num_entry` on, so every slot from the capacity on, is as `calloc` left it; and
every map slot that was written lies inside the map allocation and refers to an entry
below `num_entry`. -/
theorem CreateAddressPoolPerCore_within_capacity (G : RSSFn) (ec : Nat) (core nq : Int)
    (sb : Nat) (n : Int) (d dp : Nat) (hq : 1 ≤ nq) (h0 : 0 ≤ n)
    (h2 : n * 64511 < 2147483648) :
    0 ≤ (CreateAddressPoolPerCore G ec core nq sb n d dp).num_entry ∧
    (CreateAddressPoolPerCore G ec core nq sb n d dp).num_entry ≤ Int.tdiv (n * 64511) nq ∧
    (CreateAddressPoolPerCore G ec core nq sb n d dp).num_free
      = (CreateAddressPoolPerCore G ec core nq sb n d dp).num_entry ∧
    (CreateAddressPoolPerCore G ec core nq sb n d dp).num_used = 0 ∧
    PoolLists (CreateAddressPoolPerCore G ec core nq sb n d dp)
      (List.range (CreateAddressPoolPerCore G ec core nq sb n d dp).num_entry.toNat) [] ∧
    (∀ e : Nat, (CreateAddressPoolPerCore G ec core nq sb n d dp).num_entry ≤ ((e : Nat) : Int) →
      (CreateAddressPoolPerCore G ec core nq sb n d dp).pool e = calloc_entry) ∧
    (∀ e : Nat, Int.tdiv (n * 64511) nq ≤ ((e : Nat) : Int) →
      (CreateAddressPoolPerCore G ec core nq sb n d dp).pool e = calloc_entry) ∧
    (∃ m, (CreateAddressPoolPerCore G ec core nq sb n d dp).mapper = some m ∧
      ∀ i j e, m i j = some e →
        ((e : Nat) : Int) < (CreateAddressPoolPerCore G ec core nq sb n d dp).num_entry ∧
        ((i : Nat) : Int) < n ∧ j ≤ 65535) := by
  obtain ⟨hB, hne⟩ := CreateAddressPoolPerCore_Built G ec core nq sb n d dp
  have hlen := length_kept_tuples_le G ec core nq sb n d dp
  have hcap : 0 ≤ Int.tdiv (n * 64511) nq :=
    Int.tdiv_nonneg (Int.mul_nonneg h0 (by norm_num)) (by omega)
  have hle : (CreateAddressPoolPerCore G ec core nq sb n d dp).num_entry
      ≤ Int.tdiv (n * 64511) nq := by
    rw [hne, ← Int.toNat_of_nonneg hcap]
    exact_mod_cast hlen
  have hun : ∀ e : Nat,
      (CreateAddressPoolPerCore G ec core nq sb n d dp).num_entry ≤ ((e : Nat) : Int) →
      (CreateAddressPoolPerCore G ec core nq sb n d dp).pool e = calloc_entry := by
    intro e he
    rw [hne] at he
    exact pool_eq_calloc _ e (hB.untouched e (by exact_mod_cast he))
  have hkeys : ∀ k ∈ kept_tuples G ec core nq sb n d dp, k ∈ tuple_rows n.toNat 0 :=
    fun k hk => List.mem_of_mem_filter (List.mem_of_mem_take hk)
  obtain ⟨m, hm, _, hf2⟩ := Built_map_facts _ n _ _ hB hkeys h2
  refine ⟨by rw [hne]; exact Int.ofNat_zero_le _, hle, rfl, rfl, ?_, hun,
    fun e he => hun e (le_trans hle he), m, hm, ?_⟩
  · rw [hne, Int.toNat_ofNat]
    exact ⟨hB.free, hB.used, by simpa using List.nodup_range _⟩
  · intro i j e h
    obtain ⟨h1, _, _, h4, _, h6⟩ := hf2 i j e h
    exact ⟨by rw [hne]; exact_mod_cast h1, h4, h6⟩

/-- Witness of C19 on the per-core pool of 10.0.0.1 for core 0 of two queues when every
flow is steered to core 0: `num_entry` is at most the capacity `64511 / 2`. -/
theorem CreateAddressPoolPerCore_within_capacity_witness :
    (1 : Int) ≤ 2 ∧ (0 : Int) ≤ 1 ∧ (1 : Int) * 64511 < 2147483648 ∧
    (CreateAddressPoolPerCore rss_zero 1 0 2 0x0100000a 1 0x0101a8c0 (htons 80)).num_entry
      ≤ Int.tdiv (1 * 64511) 2 :=
  ⟨by decide, by decide, by decide,
    (CreateAddressPoolPerCore_within_capacity rss_zero 1 0 2 0x0100000a 1 0x0101a8c0 (htons 80)
      (by decide) (by decide) (by decide)).2.1⟩

/-- C20: `CreateAddressPoolPerCore` writes the capacity warning to `stderr` if and only if
the `num_entry` of the pool it built is strictly smaller than `CONFIG.max_concurrency`;
when it warns it prints `num_entry` and the maximum concurrency once; and with or
without the warning the pool it returns is the same pool (same lists, same counters,
every field). -/
theorem capacity_warning_iff (max_concurrency : Int) (G : RSSFn) (ec : Nat) (core nq : Int)
    (sb : Nat) (n : Int) (d dp : Nat) :
    ((CreateAddressPoolPerCore_stderr max_concurrency G ec core nq sb n d dp).2 ≠ [] ↔
      (CreateAddressPoolPerCore G ec core nq sb n d dp).num_entry < max_concurrency) ∧
    ((CreateAddressPoolPerCore G ec core nq sb n d dp).num_entry < max_concurrency →
      (CreateAddressPoolPerCore_stderr max_concurrency G ec core nq sb n d dp).2
        = [((CreateAddressPoolPerCore G ec core nq sb n d dp).num_entry, max_concurrency)]) ∧
    (CreateAddressPoolPerCore_stderr max_concurrency G ec core nq sb n d dp).1
      = CreateAddressPoolPerCore G ec core nq sb n d dp := by
  unfold CreateAddressPoolPerCore_stderr
  by_cases h : (CreateAddressPoolPerCore G ec core nq sb n d dp).num_entry < max_concurrency
  · simp [h]
  · simp [h]

/-- C13 (counterexample): the pool built by
`CreateAddressPoolPerCore(0, 2, 10.0.0.1, 1, 192.168.1.1, 80)` under the parity function
has the free list `0, 1, ..., 32254` with 10.0.0.1:1025 in slot 0 at its head, a tuple
that passed the check of the constructor (destination first); `FetchAddress` for the
same core, queue count and destination computes core 1 for that head (entry first),
skips it and returns 10.0.0.1:1026 from slot 1, leaving slot 0 on the free list. -/
theorem fetch_on_per_core_pool_skips_head :
    IsBuilt rss_parity 1 parity_example ∧
    PoolLists parity_example (List.range 32255) [] ∧
    load parity_example .free_first = some 0 ∧
    adr parity_example 0 = first_tuple ∧
    rss_parity (ntohl 0x0101a8c0) (ntohl first_tuple.sin_addr) (ntohs (htons 80))
      (ntohs first_tuple.sin_port) 2 1 = 0 ∧
    fetch_core rss_parity 1 parity_example 2 dest_example 0 = 1 ∧
    ∃ ap', FetchAddress rss_parity 1 32255 parity_example 0 2 dest_example ⟨0, 0, 0⟩
        = some (0, ap', ⟨0, htons 1026, 0x0100000a⟩) ∧
      PoolLists ap' ([0] ++ List.range' 2 32253) ([] ++ [1]) := by
  obtain ⟨hB, _⟩ := parity_example_Built
  have hfree := hB.free
  rw [half_rows_length] at hfree
  have hlists : PoolLists parity_example (List.range 32255) [] :=
    ⟨hfree, hB.used, by simpa using List.nodup_range _⟩
  have hsplit : List.range 32255 = [0] ++ 1 :: List.range' 2 32253 := range_split 32253
  have hlists2 := hlists
  rw [hsplit] at hlists2
  have hhead : load parity_example .free_first = some 0 := hlists2.free.1.1
  have h0 : fetch_core rss_parity 1 parity_example 2 dest_example 0 = 1 := by
    rw [fetch_core_rss_parity, half_adr _ hB 0 (by norm_num)]
    decide
  have h1 : fetch_core rss_parity 1 parity_example 2 dest_example 1 = 0 := by
    rw [fetch_core_rss_parity, half_adr _ hB 1 (by norm_num)]
    decide
  have hlen : ([0] ++ 1 :: List.range' 2 32253).length ≤ 32255 := by
    rw [List.length_append, List.length_cons, List.length_cons, List.length_nil,
      List.length_range']
  obtain ⟨ap', hf, hl', _⟩ := fetch_found rss_parity 1 32255 parity_example [0]
    (List.range' 2 32253) [] 1 0 2 dest_example ⟨0, 0, 0⟩ hlists2 hlen
    (by
      intro x hx
      rw [List.mem_singleton] at hx
      rw [hx, h0]
      decide) h1
  rw [half_adr _ hB 1 (by norm_num)] at hf
  exact ⟨parity_example_built, hlists, hhead, half_adr _ hB 0 (by norm_num), by decide, h0,
    ap', hf, hl'⟩

/-- C12 (counterexample): under the function that steers every flow to core 0, all 64511
tuples of 10.0.0.1 hash to core 0, yet the pool built by
`CreateAddressPoolPerCore(0, 2, 10.0.0.1, 1, 192.168.1.1, 80)` has
`num_entry = num_free = 32255`; the tuple 10.0.0.1:65535 hashes to core 0 and is in no
slot of the backing array and in no map slot. -/
theorem per_core_pool_drops_matching_tuple :
    half_example.num_entry = 32255 ∧ half_example.num_free = 32255 ∧
    (matching_tuples rss_zero 1 0 2 0x0100000a 1 0x0101a8c0 (htons 80)).length = 64511 ∧
    (0, 65535) ∈ matching_tuples rss_zero 1 0 2 0x0100000a 1 0x0101a8c0 (htons 80) ∧
    rss_zero (ntohl 0x0101a8c0) (ntohl 0x0100000a + 0) (ntohs (htons 80)) 65535 2 1 = 0 ∧
    (∀ e, adr half_example e ≠ last_tuple) ∧
    ∃ m, half_example.mapper = some m ∧ m 0 65535 = none := by
  obtain ⟨hB, hne⟩ := half_example_Built
  have hc := (per_core_counts rss_zero 1 0 2 0x0100000a 1 0x0101a8c0 (htons 80)).1
  have hnf : half_example.num_free = 32255 := hc.trans hne
  have hlen : (matching_tuples rss_zero 1 0 2 0x0100000a 1 0x0101a8c0 (htons 80)).length
      = 64511 := by
    unfold matching_tuples
    rw [List.filter_eq_self.mpr (fun k _ => keeps_half_example k), length_tuple_rows]
    rfl
  have hmem : (0, 65535) ∈ matching_tuples rss_zero 1 0 2 0x0100000a 1 0x0101a8c0 (htons 80) :=
    (mem_matching_tuples rss_zero 1 0 2 0x0100000a 1 0x0101a8c0 (htons 80) 0 65535).mpr
      ⟨by decide, by decide, by decide, rfl⟩
  exact ⟨hne, hnf, hlen, hmem, rfl, (half_no_last _ hB).1, (half_no_last _ hB).2⟩

/-- C12 (amended): for every core `k`, queue count `q ≥ 1`, base address, `num_addr = n ≥ 0`,
destination and every function `GetRSSCPUCore`, let the matching tuples be the pairs
`(i, j)` with `0 ≤ i < n` and `1025 ≤ j ≤ 65535` whose computed core is `k`, in scan
order.  The pool built by `CreateAddressPoolPerCore` has
`num_entry = num_free = min(number of matching tuples, n * 64511 / q)`, slot `e` holds
the `e`-th matching tuple for every `e < num_entry`, and when the number of matching
tuples is at most `n * 64511 / q` the pool holds every matching tuple and `num_entry`
is their number. -/
theorem per_core_keeps_first_matching (G : RSSFn) (ec : Nat) (core nq : Int) (sb : Nat)
    (n : Int) (d dp : Nat) (hq : 1 ≤ nq) (h0 : 0 ≤ n) :
    (∀ i j, (i, j) ∈ matching_tuples G ec core nq sb n d dp ↔
      ((i : Nat) : Int) < n ∧ 1025 ≤ j ∧ j ≤ 65535 ∧
        G (ntohl d) ((ntohl sb + i) % 4294967296) (ntohs dp) j nq ec = core) ∧
    (CreateAddressPoolPerCore G ec core nq sb n d dp).num_entry
      = min (((matching_tuples G ec core nq sb n d dp).length : Nat) : Int)
          (Int.tdiv (n * 64511) nq) ∧
    (CreateAddressPoolPerCore G ec core nq sb n d dp).num_free
      = (CreateAddressPoolPerCore G ec core nq sb n d dp).num_entry ∧
    (∀ e : Nat, ((e : Nat) : Int) < (CreateAddressPoolPerCore G ec core nq sb n d dp).num_entry →
      ∃ i j, (matching_tuples G ec core nq sb n d dp)[e]? = some (i, j) ∧
        adr (CreateAddressPoolPerCore G ec core nq sb n d dp) e
          = ⟨0, htons j, htonl (ntohl sb + i)⟩) ∧
    ((((matching_tuples G ec core nq sb n d dp).length : Nat) : Int) ≤ Int.tdiv (n * 64511) nq →
      (CreateAddressPoolPerCore G ec core nq sb n d dp).num_entry
        = (((matching_tuples G ec core nq sb n d dp).length : Nat) : Int) ∧
      ∀ i j, (i, j) ∈ matching_tuples G ec core nq sb n d dp →
        ∃ e : Nat, ((e : Nat) : Int) < (CreateAddressPoolPerCore G ec core nq sb n d dp).num_entry ∧
          adr (CreateAddressPoolPerCore G ec core nq sb n d dp) e
            = ⟨0, htons j, htonl (ntohl sb + i)⟩) := by
  obtain ⟨hB, hne⟩ := CreateAddressPoolPerCore_Built G ec core nq sb n d dp
  rw [kept_eq_take] at hB hne
  have hcap : 0 ≤ Int.tdiv (n * 64511) nq :=
    Int.tdiv_nonneg (Int.mul_nonneg h0 (by norm_num)) (by omega)
  have hcap' := Int.toNat_of_nonneg hcap
  have hadr : ∀ e i j,
      ((matching_tuples G ec core nq sb n d dp).take (Int.tdiv (n * 64511) nq).toNat)[e]?
        = some (i, j) →
      adr (CreateAddressPoolPerCore G ec core nq sb n d dp) e
        = ⟨0, htons j, htonl (ntohl sb + i)⟩ := by
    intro e i j h
    rw [← htonl_mod]
    exact hB.adr_eq e i j h
  rw [List.length_take] at hne
  refine ⟨mem_matching_tuples G ec core nq sb n d dp, ?_, rfl, ?_, ?_⟩
  · rw [hne]
    omega
  · intro e he
    rw [hne] at he
    have he1 : e < (Int.tdiv (n * 64511) nq).toNat := by omega
    have he2 : e < (matching_tuples G ec core nq sb n d dp).length := by omega
    obtain ⟨⟨i, j⟩, hget⟩ : ∃ k, (matching_tuples G ec core nq sb n d dp)[e]? = some k :=
      ⟨_, List.getElem?_eq_getElem he2⟩
    refine ⟨i, j, hget, hadr e i j ?_⟩
    rw [List.getElem?_take_of_lt he1]
    exact hget
  · intro hle
    refine ⟨by rw [hne]; omega, ?_⟩
    intro i j hmem
    obtain ⟨e, hget⟩ := List.mem_iff_getElem?.mp hmem
    have he2 := getElem?_lt _ e _ hget
    refine ⟨e, by rw [hne]; omega, hadr e i j ?_⟩
    rw [List.getElem?_take_of_lt (by omega)]
    exact hget

/-- Witness of C12 (amended) on the per-core pool of 10.0.0.1 for core 0 of two queues
when every flow is steered to core 0: `num_entry` is the smaller of the number of
matching tuples and the capacity. -/
theorem per_core_keeps_first_matching_witness :
    (1 : Int) ≤ 2 ∧ (0 : Int) ≤ 1 ∧
    (CreateAddressPoolPerCore rss_zero 1 0 2 0x0100000a 1 0x0101a8c0 (htons 80)).num_entry
      = min (((matching_tuples rss_zero 1 0 2 0x0100000a 1 0x0101a8c0 (htons 80)).length : Nat) :
          Int) (Int.tdiv (1 * 64511) 2) :=
  ⟨by decide, by decide,
    (per_core_keeps_first_matching rss_zero 1 0 2 0x0100000a 1 0x0101a8c0 (htons 80)
      (by decide) (by decide)).2.1⟩

/-- C21: for every pool with an address map `m` and every tuple `t` whose IP offset lies
in `[0, num_addr)`, a `FreeAddress(ap, t)` call that returns gives 0 or -1, and 0 if and
only if the map slot `[offset][ntohs(t.port)]` is non-empty, whatever list the entry of
the slot is on; when it gives 0, `num_free` is one more and `num_used` one less, and
when it gives -1 the pool is unchanged.  An empty slot always gives -1; a non-empty slot
gives 0 as soon as the entry of the slot has a non-NULL `tqe_prev`; and in every state
of a run of calls from a pool built by either constructor the call returns. -/
theorem FreeAddress_decides_on_map_slot (fuel : Nat) (ap : addr_pool) (t : sockaddr_in)
    (m : Nat → Nat → Option Nat) (hm : ap.mapper = some m)
    (hoff : ((map_offset ap t : Nat) : Int) < ap.num_addr) :
    (∀ (r : Int) (ap' : addr_pool), FreeAddress fuel ap t = some (r, ap') →
      (r = 0 ∨ r = -1) ∧ (r = 0 ↔ m (map_offset ap t) (ntohs t.sin_port) ≠ none) ∧
      (r = 0 → ap'.num_free = ap.num_free + 1 ∧ ap'.num_used = ap.num_used - 1) ∧
      (r = -1 → ap' = ap)) ∧
    (m (map_offset ap t) (ntohs t.sin_port) = none → FreeAddress fuel ap t = some (-1, ap)) ∧
    (∀ e, m (map_offset ap t) (ntohs t.sin_port) = some e → prv ap e ≠ none →
      ∃ ap', FreeAddress fuel ap t = some (0, ap')) ∧
    (∀ (G : RSSFn) (ec : Nat) (ap0 : addr_pool), IsBuilt G ec ap0 → Run G ec ap0 ap →
      ∃ r ap', FreeAddress fuel ap t = some (r, ap')) :=
  ⟨fun r ap' h => free_slot_result fuel ap t m hm hoff r ap' h,
    free_empty_slot fuel ap t m hm hoff,
    fun e hs hp => free_slot_some fuel ap t m hm hoff e hs hp,
    fun G ec ap0 hb hr => free_total ap _ (Run_Linked G ec ap0 ap hb hr) fuel t hoff⟩

/-- Witness of C21 on the fresh flat pool of 10.0.0.1 and the never fetched tuple
10.0.0.1:1025: the call returns, and it returns 0 exactly when the map slot is
non-empty. -/
theorem FreeAddress_decides_on_map_slot_witness :
    ∃ m, flat_example.mapper = some m ∧
      ((map_offset flat_example ⟨0, htons 1025, 0x0100000a⟩ : Nat) : Int)
        < flat_example.num_addr ∧
      ∃ r ap', FreeAddress 0 flat_example ⟨0, htons 1025, 0x0100000a⟩ = some (r, ap') ∧
        (r = 0 ↔ m (map_offset flat_example ⟨0, htons 1025, 0x0100000a⟩) (ntohs (htons 1025))
          ≠ none) :=
  have hoff : ((map_offset flat_example ⟨0, htons 1025, 0x0100000a⟩ : Nat) : Int)
      < flat_example.num_addr := by
    rw [flat_example_num_addr, flat_example_offset]
    decide
  flat_example_mapper.elim fun m hm =>
    have h := FreeAddress_decides_on_map_slot 0 flat_example ⟨0, htons 1025, 0x0100000a⟩ m hm
      hoff
    (h.2.2.2 rss_zero 1 flat_example flat_example_built Run.start).elim fun r hr =>
      hr.elim fun ap' hres => ⟨m, hm, hoff, r, ap', hres, (h.1 r ap' hres).2.1⟩

/-- C22: for a pool built by either constructor and every state `ap` of a run in valid
use (any `FetchAddress` call, `FreeAddress` only on tuples in use), the two heads
represent lists `fl` and `ul` (and no other lists) with `num_free = length fl`,
`num_used = length ul`, `0 ≤ num_free ≤ num_entry`, `0 ≤ num_used ≤ num_entry` and
`num_free + num_used = num_entry`.  From such a state every `FetchAddress` call with
fuel for `num_free` entries returns and every `FreeAddress` of a tuple in use returns
0, so the state after the call is a state of such a run again. -/
theorem counters_track_list_lengths (G : RSSFn) (ec : Nat) (ap0 ap : addr_pool)
    (out : List sockaddr_in) (hb : IsBuilt G ec ap0) (hr : ValidRun G ec ap0 ap out) :
    (∃ fl ul, PoolLists ap fl ul ∧
      (∀ fl', IsList ap .free_list fl' → fl' = fl) ∧
      (∀ ul', IsList ap .used_list ul' → ul' = ul) ∧
      ap.num_free = ((fl.length : Nat) : Int) ∧ ap.num_used = ((ul.length : Nat) : Int)) ∧
    0 ≤ ap.num_free ∧ ap.num_free ≤ ap.num_entry ∧
    0 ≤ ap.num_used ∧ ap.num_used ≤ ap.num_entry ∧
    ap.num_free + ap.num_used = ap.num_entry ∧
    (∀ (fuel : Nat) (core nq : Int) (d sa : sockaddr_in), ap.num_free ≤ ((fuel : Nat) : Int) →
      ∃ r ap' t, FetchAddress G ec fuel ap core nq d sa = some (r, ap', t) ∧
        ValidRun G ec ap0 ap' (if r = 0 then out ++ [t] else out)) ∧
    (∀ (fuel : Nat) (t : sockaddr_in), t ∈ out →
      ∃ ap', FreeAddress fuel ap t = some (0, ap') ∧ ValidRun G ec ap0 ap' (out.erase t)) := by
  obtain ⟨fl, ul, hinv, hout⟩ := ValidRun_inv G ec ap0 ap out (IsBuilt_inv G ec ap0 hb) hr
  have h0 : 0 ≤ ap.num_entry := by
    rw [(Run_counters G ec ap0 ap (ValidRun_Run G ec ap0 ap out hr)).2]
    exact IsBuilt_num_entry G ec ap0 hb
  obtain ⟨h1, h2, h3⟩ := PoolInv_lengths ap fl ul hinv h0
  refine ⟨⟨fl, ul, hinv.lists, fun fl' h => IsList_unique ap _ _ _ h hinv.lists.free,
    fun ul' h => IsList_unique ap _ _ _ h hinv.lists.used, h1, h2⟩,
    by omega, by omega, by omega, by omega, by omega, ?_, ?_⟩
  · intro fuel core nq d sa hfuel
    obtain ⟨r, ap', t, hf⟩ := fetch_returns G ec fuel ap fl ul core nq d sa hinv hfuel
    exact ⟨r, ap', t, hf, ValidRun.fetch ap out fuel core nq d sa r ap' t hr hf⟩
  · intro fuel t ht
    have ht' : t ∈ ul.map (adr ap) := hout ▸ ht
    obtain ⟨_, _, _, ap', _, _, hf, _⟩ := free_cases fuel ap fl ul t hinv ht'
    exact ⟨ap', hf, ValidRun.free ap out fuel t 0 ap' hr ht hf⟩

/-- Witness of C22 on the flat pool of 10.0.0.1 after one fetch: the counters are the
lengths of the two lists. -/
theorem counters_track_list_lengths_witness :
    IsBuilt rss_zero 1 flat_example ∧
    ∃ ap, ValidRun rss_zero 1 flat_example ap [first_tuple] ∧
      ∃ fl ul, PoolLists ap fl ul ∧
        (∀ fl', IsList ap .free_list fl' → fl' = fl) ∧
        (∀ ul', IsList ap .used_list ul' → ul' = ul) ∧
        ap.num_free = ((fl.length : Nat) : Int) ∧ ap.num_used = ((ul.length : Nat) : Int) :=
  ⟨flat_example_built, fetch_example.elim fun ap hf =>
    ⟨ap, fetch_example_run ap hf,
      (counters_track_list_lengths rss_zero 1 flat_example ap [first_tuple] flat_example_built
        (fetch_example_run ap hf)).1⟩⟩

/-- C23: for a pool built by either constructor and every state `ap` of a run in valid
use, with `out` the tuples in use (returned by a successful `FetchAddress` and not freed
since): the entries `e < num_entry` carry pairwise distinct tuples, no tuple occurs
twice in `out`, and a successful `FetchAddress` from `ap` returns a tuple that is not in
`out`.  So a tuple handed out is not handed out again before it is freed, and
successful fetches without a free in between return pairwise distinct tuples. -/
theorem no_double_allocation (G : RSSFn) (ec : Nat) (ap0 ap : addr_pool)
    (out : List sockaddr_in) (hb : IsBuilt G ec ap0) (hr : ValidRun G ec ap0 ap out) :
    (∀ e1 e2 : Nat, ((e1 : Nat) : Int) < ap.num_entry → ((e2 : Nat) : Int) < ap.num_entry →
      adr ap e1 = adr ap e2 → e1 = e2) ∧
    out.Nodup ∧
    (∀ (fuel : Nat) (core nq : Int) (d sa : sockaddr_in) (ap' : addr_pool) (t : sockaddr_in),
      FetchAddress G ec fuel ap core nq d sa = some (0, ap', t) →
      t ∉ out ∧ (out ++ [t]).Nodup ∧ ValidRun G ec ap0 ap' (out ++ [t])) := by
  obtain ⟨fl, ul, hinv, hout⟩ := ValidRun_inv G ec ap0 ap out (IsBuilt_inv G ec ap0 hb) hr
  have hnd : out.Nodup := hout ▸ used_tuples_nodup ap fl ul hinv
  refine ⟨?_, hnd, ?_⟩
  · intro e1 e2 h1 h2 heq
    exact adr_inj ap fl ul hinv e1 e2 ((hinv.mem_iff e1).mpr h1) ((hinv.mem_iff e2).mpr h2) heq
  · intro fuel core nq d sa ap' t hf
    have hfresh : t ∉ out := hout ▸ fetch_fresh G ec fuel ap fl ul core nq d sa ap' t hinv hf
    refine ⟨hfresh, ?_, ?_⟩
    · apply List.Nodup.append hnd (List.nodup_singleton t)
      intro x hx hx'
      rw [List.mem_singleton] at hx'
      exact hfresh (hx' ▸ hx)
    · have h := ValidRun.fetch ap out fuel core nq d sa 0 ap' t hr hf
      simpa using h

/-- Witness of C23 on the flat pool of 10.0.0.1 after the fetch of 10.0.0.1:1025: no
further successful fetch returns 10.0.0.1:1025. -/
theorem no_double_allocation_witness :
    IsBuilt rss_zero 1 flat_example ∧
    ∃ ap, ValidRun rss_zero 1 flat_example ap [first_tuple] ∧
      ∀ (fuel : Nat) (core nq : Int) (d sa : sockaddr_in) (ap' : addr_pool) (t : sockaddr_in),
        FetchAddress rss_zero 1 fuel ap core nq d sa = some (0, ap', t) →
        t ∉ [first_tuple] ∧ ([first_tuple] ++ [t]).Nodup ∧
          ValidRun rss_zero 1 flat_example ap' ([first_tuple] ++ [t]) :=
  ⟨flat_example_built, fetch_example.elim fun ap hf =>
    ⟨ap, fetch_example_run ap hf,
      (no_double_allocation rss_zero 1 flat_example ap [first_tuple] flat_example_built
        (fetch_example_run ap hf)).2.2⟩⟩

/-- C24: for a pool built by either constructor and a state `ap` of a run in valid use
with free list `fl` and used list `ul`: if `FetchAddress` succeeds and returns `t`, then
`fl = l1 ++ e :: l2` with `t` the tuple of `e`, the lists afterwards are `l1 ++ l2` and
`ul ++ [e]`, a following `FreeAddress` of `t` returns 0 and leaves the free list
`l1 ++ l2 ++ [e]` (the old free list with `e` moved to the tail), the used list `ul`
and both counters at their values before the fetch; and when another free entry (one
of `l1 ++ l2`) matches the target core, the next `FetchAddress` with the same core,
queue count and destination (and fuel for `num_free` entries) succeeds and returns a
tuple different from `t`. -/
theorem freed_entry_goes_to_tail (G : RSSFn) (ec fuel fuel1 fuel2 : Nat) (ap0 ap : addr_pool)
    (out : List sockaddr_in) (core nq : Int) (d sa sa2 : sockaddr_in) (ap1 : addr_pool)
    (t : sockaddr_in) (hb : IsBuilt G ec ap0) (hr : ValidRun G ec ap0 ap out)
    (hf : FetchAddress G ec fuel ap core nq d sa = some (0, ap1, t))
    (hfuel2 : ap.num_free ≤ ((fuel2 : Nat) : Int)) :
    ∃ l1 e l2 ul ap2, PoolLists ap (l1 ++ e :: l2) ul ∧ t = adr ap e ∧
      PoolLists ap1 (l1 ++ l2) (ul ++ [e]) ∧
      FreeAddress fuel1 ap1 t = some (0, ap2) ∧
      PoolLists ap2 (l1 ++ l2 ++ [e]) ul ∧
      ap2.num_free = ap.num_free ∧ ap2.num_used = ap.num_used ∧
      (∀ x, adr ap2 x = adr ap x) ∧
      ((∃ x ∈ l1 ++ l2, fetch_core G ec ap2 nq d x = core) →
        ∃ ap3 t', FetchAddress G ec fuel2 ap2 core nq d sa2 = some (0, ap3, t') ∧ t' ≠ t) := by
  obtain ⟨fl, ul, hinv, _⟩ := ValidRun_inv G ec ap0 ap out (IsBuilt_inv G ec ap0 hb) hr
  obtain ⟨l1, e, l2, ap2, hfl, h⟩ :=
    fifo_reuse G ec fuel fuel1 fuel2 ap fl ul core nq d sa sa2 ap1 t hinv hf hfuel2
  subst hfl
  exact ⟨l1, e, l2, ul, ap2, hinv.lists, h⟩

/-- Witness of C24 on the flat pool of 10.0.0.1 when every flow is steered to core 0:
10.0.0.1:1025 is fetched and freed, its entry goes to the tail of the free list, and
the next fetch returns another tuple. -/
theorem freed_entry_goes_to_tail_witness :
    IsBuilt rss_zero 1 flat_example ∧ ValidRun rss_zero 1 flat_example flat_example [] ∧
    ∃ ap1, FetchAddress rss_zero 1 64511 flat_example 0 1 dest_example ⟨0, 0, 0⟩
        = some (0, ap1, first_tuple) ∧
      flat_example.num_free ≤ ((64511 : Nat) : Int) ∧
      ∃ l1 e l2 ul ap2, PoolLists flat_example (l1 ++ e :: l2) ul ∧
        first_tuple = adr flat_example e ∧
        PoolLists ap1 (l1 ++ l2) (ul ++ [e]) ∧
        FreeAddress 0 ap1 first_tuple = some (0, ap2) ∧
        PoolLists ap2 (l1 ++ l2 ++ [e]) ul ∧
        ap2.num_free = flat_example.num_free ∧ ap2.num_used = flat_example.num_used ∧
        (∀ x, adr ap2 x = adr flat_example x) ∧
        ((∃ x ∈ l1 ++ l2, fetch_core rss_zero 1 ap2 1 dest_example x = 0) →
          ∃ ap3 t', FetchAddress rss_zero 1 64511 ap2 0 1 dest_example ⟨0, 0, 0⟩
            = some (0, ap3, t') ∧ t' ≠ first_tuple) :=
  have hfuel : flat_example.num_free ≤ ((64511 : Nat) : Int) := by
    rw [flat_example_counts.2.1]; norm_num
  ⟨flat_example_built, ValidRun.start, fetch_example.elim fun ap1 hf =>
    ⟨ap1, hf, hfuel,
      freed_entry_goes_to_tail rss_zero 1 64511 0 64511 flat_example flat_example [] 0 1
        dest_example ⟨0, 0, 0⟩ ⟨0, 0, 0⟩ ap1 first_tuple flat_example_built ValidRun.start hf
        hfuel⟩⟩

/-- C13 (amended): let `GetRSSCPUCore` be symmetric under exchanging source and
destination, `GetRSSCPUCore(a, b, p, r, q, f) = GetRSSCPUCore(b, a, r, p, q, f)`.  For
every pool built by `CreateAddressPoolPerCore(k, q, base, n, dIP, dPort)` with `q ≥ 1`,
`n ≥ 1` and `n * 64511` inside the range of `int`, and every state `ap` reached from it
by `FetchAddress` / `FreeAddress` calls: the check inside `FetchAddress` (entry first,
destination second) against the destination `(dIP, dPort)` gives `k` for every entry
`e < num_entry`; and when the free list is not empty, with entry `e` at its head,
`FetchAddress(ap, k, q, (dIP, dPort))` returns 0 and the tuple of `e`, `num_free` is one
less and `num_used` one more, and `e` has moved from the head of the free list to the
tail of the used list. -/
theorem fetch_on_symmetric_per_core_pool_takes_head (G : RSSFn) (ec fuel : Nat)
    (core nq : Int) (sb : Nat) (n : Int) (d dp dfam : Nat) (ap : addr_pool) (sa : sockaddr_in)
    (e : Nat)
    (hsym : ∀ a b p r, G a b p r nq ec = G b a r p nq ec)
    (h1 : 1 ≤ n) (h2 : n * 64511 < 2147483648) (hq : 1 ≤ nq)
    (hr : Run G ec (CreateAddressPoolPerCore G ec core nq sb n d dp) ap)
    (hhead : load ap .free_first = some e) (hfuel : 1 ≤ fuel) :
    (∀ x : Nat, ((x : Nat) : Int) < ap.num_entry →
      fetch_core G ec ap nq ⟨dfam, dp, d⟩ x = core) ∧
    ((e : Nat) : Int) < ap.num_entry ∧
    ∃ ap', FetchAddress G ec fuel ap core nq ⟨dfam, dp, d⟩ sa = some (0, ap', adr ap e) ∧
      ap'.num_free = ap.num_free - 1 ∧ ap'.num_used = ap.num_used + 1 ∧
      ∀ l2 ul, PoolLists ap (e :: l2) ul → PoolLists ap' l2 (ul ++ [e]) := by
  have hb : IsBuilt G ec (CreateAddressPoolPerCore G ec core nq sb n d dp) :=
    IsBuilt.per_core core nq sb n d dp h1 h2 hq
  have hl := Run_Linked G ec _ ap hb hr
  have hcore : ∀ x : Nat, ((x : Nat) : Int) < ap.num_entry →
      fetch_core G ec ap nq ⟨dfam, dp, d⟩ x = core := by
    intro x hx
    simp only [fetch_core]
    rw [hsym]
    exact per_core_entry_core G ec core nq sb n d dp ap hr x hx
  have he : ((e : Nat) : Int) < ap.num_entry := by
    have := (hl.back _ e hhead).1
    omega
  exact ⟨hcore, he, fetch_head G ec fuel ap _ core nq ⟨dfam, dp, d⟩ sa e hl hhead
    (hcore e he) hfuel⟩

/-- Witness of C13 (amended) on the per-core pool of 10.0.0.1 for core 0 of two queues
under the port-sum function, which keeps the even ports: the fetch for core 0 and
destination 192.168.1.1:80 returns 10.0.0.1:1026, the tuple at the head of the free
list. -/
theorem fetch_on_symmetric_per_core_pool_takes_head_witness :
    (∀ a b p r, rss_port_sum a b p r 2 1 = rss_port_sum b a r p 2 1) ∧
    (1 : Int) ≤ 1 ∧ (1 : Int) * 64511 < 2147483648 ∧ (1 : Int) ≤ 2 ∧
    Run rss_port_sum 1 sum_example sum_example ∧
    load sum_example .free_first = some 0 ∧ 1 ≤ 1 ∧
    adr sum_example 0 = ⟨0, htons 1026, 0x0100000a⟩ ∧
    ∃ ap', FetchAddress rss_port_sum 1 1 sum_example 0 2 ⟨2, htons 80, 0x0101a8c0⟩ ⟨0, 0, 0⟩
      = some (0, ap', adr sum_example 0) :=
  have hsym : ∀ a b p r, rss_port_sum a b p r 2 1 = rss_port_sum b a r p 2 1 :=
    fun a b p r => rss_port_sum_symm a b p r 2 1
  have h := fetch_on_symmetric_per_core_pool_takes_head rss_port_sum 1 1 0 2 0x0100000a 1
    0x0101a8c0 (htons 80) 2 sum_example ⟨0, 0, 0⟩ 0 hsym (by decide) (by decide) (by decide)
    Run.start sum_example_first.1 (by decide)
  ⟨hsym, by decide, by decide, by decide, Run.start, sum_example_first.1, by decide,
    sum_example_first.2, h.2.2.elim fun ap' hf => ⟨ap', hf.1⟩⟩

end claims

end AddrPool
